import Mathlib

/-!
# Dependency resolution of `gazelle/erlang_app.go`

A shallow embedding of the rule synthesizer of `gazelle/erlang_app.go`
(package `erlang`) and the properties of its include, module and call
resolution.

Go strings are byte sequences; they are embedded as `List Char`.  The only
separators the code inspects are the ASCII characters `/` and `.`, and the
byte order of UTF-8 agrees with the order of code points, so splitting,
suffix tests and `strings.Compare` agree with the byte-level operations.
Paths follow the Unix flavour of `path/filepath` (separator `/`, no volume).
Logging has no effect on any returned value and is left out.
-/

set_option autoImplicit false

namespace Erlang

/-- A Go `string`. -/
abbrev Str := List Char

/-! ## Go standard library: `strings` -/

namespace strings

/-- Embeds `strings.HasPrefix`. -/
def HasPrefix (s pre : Str) : Bool := pre.isPrefixOf s

/-- Embeds `strings.HasSuffix`. -/
def HasSuffix (s suf : Str) : Bool := suf.isSuffixOf s

/-- Embeds `strings.TrimSuffix`. -/
def TrimSuffix (s suf : Str) : Str :=
  if HasSuffix s suf then s.take (s.length - suf.length) else s

/-- Embeds `strings.Split` for a one-character separator: the result always
has at least one element. -/
def Split : Str → Char → List Str
  | [], _ => [[]]
  | c :: cs, sep =>
    if c = sep then [] :: Split cs sep
    else
      match Split cs sep with
      | [] => [[c]]
      | p :: ps => (c :: p) :: ps

/-- Embeds `strings.Join`. -/
def Join (parts : List Str) (sep : Str) : Str := sep.intercalate parts

/-- Embeds `strings.ReplaceAll` for one-character patterns. -/
def ReplaceAll (s : Str) (old new : Char) : Str :=
  s.map (fun c => if c = old then new else c)

/-- Embeds `strings.Compare`: lexicographic comparison. -/
def Compare : Str → Str → Ordering
  | [], [] => Ordering.eq
  | [], _ :: _ => Ordering.lt
  | _ :: _, [] => Ordering.gt
  | a :: as, b :: bs =>
    if a.toNat < b.toNat then Ordering.lt
    else if b.toNat < a.toNat then Ordering.gt
    else Compare as bs

end strings

/-! ## Go standard library: `path/filepath` (Unix) -/

namespace filepath

/-- One path element of `filepath.Clean`, on the reversed list of the
elements kept so far: empty and `.` elements are skipped, `..` removes the
last kept element when there is one to remove, and is kept itself only in
an unrooted path. -/
def cleanStep (rooted : Bool) (kept : List Str) (c : Str) : List Str :=
  if c = [] then kept
  else if c = ['.'] then kept
  else if c = ['.', '.'] then
    match kept with
    | top :: rest =>
      if top ≠ ['.', '.'] then rest
      else if rooted then kept else c :: kept
    | [] => if rooted then [] else [c]
  else c :: kept

/-- Embeds `filepath.Clean`. -/
def Clean (path : Str) : Str :=
  if path = [] then ['.']
  else
    let rooted : Bool := path.head? = some '/'
    let kept := (strings.Split path '/').foldl (cleanStep rooted) []
    let out := (if rooted then ['/'] else []) ++ strings.Join kept.reverse ['/']
    if out = [] then ['.'] else out

/-- Embeds `filepath.Join`: empty leading elements are ignored, the rest is
joined with the separator and cleaned. -/
def Join : List Str → Str
  | [] => []
  | e :: es => if e ≠ [] then Clean (strings.Join (e :: es) ['/']) else Join es

/-- Embeds `filepath.Dir`: everything up to the last separator, cleaned. -/
def Dir (path : Str) : Str :=
  Clean (path.reverse.dropWhile (fun c => c ≠ '/')).reverse

/-- Embeds `filepath.Base`: the last element of the path. -/
def Base (path : Str) : Str :=
  if path = [] then ['.']
  else
    let p := (path.reverse.dropWhile (fun c => c = '/')).reverse
    let b := (p.reverse.takeWhile (fun c => c ≠ '/')).reverse
    if b = [] then ['/'] else b

end filepath

/-! ## Data model -/

/-- Modelled from the spec: the Ordered Set `MutableSet[string]`, whose
declaration is outside `erlang_app.go`: a uniqueness-enforcing container
over names and paths with a deterministic sorted view.  The list holds the
members in some enumeration order. -/
abbrev MutableSet := List Str

/-- Modelled from the spec: `NewMutableSet`, the empty set. -/
def NewMutableSet : MutableSet := []

namespace MutableSet

/-- Modelled from the spec: membership test of the Ordered Set. -/
def Contains (s : MutableSet) (x : Str) : Bool := decide (x ∈ s)

/-- Modelled from the spec: insertion into the Ordered Set, enforcing
uniqueness. -/
def Add (s : MutableSet) (x : Str) : MutableSet := if x ∈ s then s else s ++ [x]

/-- Modelled from the spec: emptiness test of the Ordered Set. -/
def IsEmpty (s : MutableSet) : Bool := s.isEmpty

/-- Modelled from the spec: `Values(strings.Compare)`, the sorted view of
the Ordered Set. -/
def Values (s : MutableSet) : List Str :=
  s.dedup.insertionSort (fun a b => strings.Compare a b ≠ Ordering.gt)

end MutableSet

/-- The struct `ErlangApp`. -/
structure ErlangApp where
  RepoRoot : Str
  Rel : Str
  Name : Str
  Description : Str
  Version : Str
  Ebin : MutableSet
  Srcs : MutableSet
  PrivateHdrs : MutableSet
  PublicHdrs : MutableSet
  AppSrc : MutableSet
  TestSrcs : MutableSet
  TestHdrs : MutableSet
  Priv : MutableSet
  LicenseFiles : MutableSet
  ErlcOpts : MutableSet
  TestErlcOpts : MutableSet
  Deps : MutableSet
  ExtraApps : MutableSet

/-- Modelled from the spec: the Source Fact Record the parser returns for one
file (`ErlAttrs`, declared outside `erlang_app.go`): plain includes,
library-qualified includes, referenced modules (behaviour and
parse-transform declarations) and the called modules (the keys of `Call`,
in some enumeration order). -/
structure ErlAttrs where
  IncludeLib : List Str
  Include : List Str
  Behaviour : List Str
  ParseTransform : List Str
  Call : List Str

/-- Modelled from the spec: `modules()` of the fact record, the referenced
(but not called) module names. -/
def ErlAttrs.modules (a : ErlAttrs) : List Str := a.Behaviour ++ a.ParseTransform

/-- Modelled from the spec: the Resolver Configuration returned by
`erlangConfigForRel`: the ignored dependency applications and the explicit
module-name to application-name mapping (a Go map, here an association list
read at its first matching key). -/
structure ErlangConfig where
  IgnoredDeps : MutableSet
  ModuleMappings : List (Str × Str)

/-- Modelled from the spec: the Module Ownership Index, a map from an
application name to the module names it owns. -/
abbrev Moduleindex := List (Str × List Str)

/-- Modelled from the spec: `FindModule`, the owner of a module in the
index; the empty string stands for an unknown owner. -/
def FindModule (moduleindex : Moduleindex) (mod : Str) : Str :=
  match moduleindex.find? (fun e => decide (mod ∈ e.2)) with
  | some e => e.1
  | none => []

/-- Constants of the package that are declared outside `erlang_app.go`. -/
structure Consts where
  erlangBytecodeKind : Str
  erlcOptsRuleName : Str
  testErlcOptsRuleName : Str
  eunitKind : Str
  ctTestKind : Str

/-- An attribute value of a gazelle rule. -/
inductive AttrValue where
  | str (s : Str)
  | strs (l : List Str)
  | bool (b : Bool)
  | glob (patterns : List Str)
  deriving DecidableEq

/-- A gazelle `rule.Rule`: kind, name, attributes and private attributes. -/
structure Rule where
  kind : Str
  name : Str
  attrs : List (String × AttrValue)
  privateAttrs : List (String × List Str)
  deriving DecidableEq

/-- Sets a key of an attribute table: replaces the value of a key already
present, appends otherwise. -/
def setKey {β : Type} : List (String × β) → String → β → List (String × β)
  | [], k, v => [(k, v)]
  | (k', v') :: rest, k, v =>
    if k' = k then (k, v) :: rest else (k', v') :: setKey rest k v

/-- The call `rule.NewRule`. -/
def NewRule (kind name : Str) : Rule := ⟨kind, name, [], []⟩

namespace Rule

/-- The method `SetAttr`. -/
def SetAttr (r : Rule) (key : String) (v : AttrValue) : Rule :=
  { r with attrs := setKey r.attrs key v }

/-- The method `SetPrivateAttr`. -/
def SetPrivateAttr (r : Rule) (key : String) (v : List Str) : Rule :=
  { r with privateAttrs := setKey r.privateAttrs key v }

/-- The method `Attr`. -/
def Attr (r : Rule) (key : String) : Option AttrValue := r.attrs.lookup key

/-- The method `AttrStrings`: the list value of an attribute, empty when the
attribute is not set or is no list. -/
def AttrStrings (r : Rule) (key : String) : List Str :=
  match r.attrs.lookup key with
  | some (AttrValue.strs l) => l
  | _ => []

/-- The method `PrivateAttr`, read as a list of strings. -/
def PrivateAttr (r : Rule) (key : String) : List Str :=
  (r.privateAttrs.lookup key).getD []

end Rule

/-! ## `erlang_app.go` -/

/-- The function `NewErlangApp`. -/
def NewErlangApp (repoRoot rel : Str) : ErlangApp :=
  { RepoRoot := repoRoot
    Rel := rel
    Name := []
    Description := []
    Version := []
    Ebin := NewMutableSet
    Srcs := NewMutableSet
    PrivateHdrs := NewMutableSet
    PublicHdrs := NewMutableSet
    AppSrc := NewMutableSet
    TestSrcs := NewMutableSet
    TestHdrs := NewMutableSet
    Priv := NewMutableSet
    LicenseFiles := NewMutableSet
    ErlcOpts := NewMutableSet
    TestErlcOpts := NewMutableSet
    Deps := NewMutableSet
    ExtraApps := NewMutableSet }

namespace ErlangApp

/-- The method `AddFile`. -/
def AddFile (erlangApp : ErlangApp) (f : Str) : ErlangApp :=
  if strings.HasPrefix f "ebin/".toList then
    if strings.HasSuffix f ".app".toList then
      { erlangApp with Ebin := erlangApp.Ebin.Add f }
    else erlangApp
  else if strings.HasPrefix f "src/".toList then
    if strings.HasSuffix f ".erl".toList then
      { erlangApp with Srcs := erlangApp.Srcs.Add f }
    else if strings.HasSuffix f ".hrl".toList then
      { erlangApp with PrivateHdrs := erlangApp.PrivateHdrs.Add f }
    else if strings.HasSuffix f ".app.src".toList then
      { erlangApp with AppSrc := erlangApp.AppSrc.Add f }
    else erlangApp
  else if strings.HasPrefix f "include/".toList then
    if strings.HasSuffix f ".hrl".toList then
      { erlangApp with PublicHdrs := erlangApp.PublicHdrs.Add f }
    else erlangApp
  else if strings.HasPrefix f "test/".toList then
    if strings.HasSuffix f ".erl".toList then
      { erlangApp with TestSrcs := erlangApp.TestSrcs.Add f }
    else if strings.HasSuffix f ".hrl".toList then
      { erlangApp with TestHdrs := erlangApp.TestHdrs.Add f }
    else erlangApp
  else if strings.HasPrefix f "priv/".toList then
    { erlangApp with Priv := erlangApp.Priv.Add f }
  else if strings.HasPrefix f "LICENSE".toList then
    { erlangApp with LicenseFiles := erlangApp.LicenseFiles.Add f }
  else erlangApp

end ErlangApp

/-- The function `moduleName`. -/
def moduleName (src : Str) : Str :=
  let base := filepath.Base src
  if strings.HasSuffix base ".erl".toList then strings.TrimSuffix base ".erl".toList
  else strings.TrimSuffix base ".beam".toList

/-- The function `beamFile`. -/
def beamFile (src : Str) : Str :=
  let r := "ebin/".toList ++ filepath.Base src
  strings.TrimSuffix r ".erl".toList ++ ".beam".toList

/-- The function `testBeamFile`. -/
def testBeamFile (src : Str) : Str :=
  let r := "test/".toList ++ filepath.Base src
  strings.TrimSuffix r ".erl".toList ++ ".beam".toList

/-- The function `ruleName`. -/
def ruleName (f : Str) : Str :=
  let r := strings.ReplaceAll f '/' '_'
  strings.ReplaceAll r '.' '_'

namespace ErlangApp

/-- The method `pathFor`: the empty string stands for "not found". -/
def pathFor (erlangApp : ErlangApp) (frm inc : Str) : Str :=
  if erlangApp.PrivateHdrs.Contains inc || erlangApp.PublicHdrs.Contains inc then inc
  else
    let directPath := filepath.Join [filepath.Dir frm, inc]
    if erlangApp.PrivateHdrs.Contains directPath || erlangApp.PublicHdrs.Contains directPath then
      directPath
    else
      let privatePath := filepath.Join ["src".toList, inc]
      if erlangApp.PrivateHdrs.Contains privatePath then privatePath
      else
        let publicPath := filepath.Join ["include".toList, inc]
        if erlangApp.PublicHdrs.Contains publicPath then publicPath
        else []

/-- The method `testPathFor`. -/
def testPathFor (erlangApp : ErlangApp) (frm inc : Str) : Str :=
  let standardPath := erlangApp.pathFor frm inc
  if standardPath ≠ [] then standardPath
  else
    let directPath := filepath.Join [filepath.Dir frm, inc]
    if erlangApp.TestHdrs.Contains directPath then directPath
    else
      let testPath := filepath.Join ["test".toList, inc]
      if erlangApp.PrivateHdrs.Contains testPath then testPath
      else []

end ErlangApp

/-- The function `ruleNameForTestSrc`. -/
def ruleNameForTestSrc (f : Str) : Str :=
  let modName := moduleName f
  if strings.HasSuffix modName "_SUITE".toList then modName ++ "_beam_files".toList
  else ruleName f

/-! ### The loops of the per-file resolution

The three rule generators run the same loops over the fact record of a
file; each loop body is one definition here, folded over the record's list
in the generator. -/

/-- The own module names collected at the start of each generator. -/
def ownModules (erlangApp : ErlangApp) : MutableSet :=
  erlangApp.Srcs.Values.foldl (fun s src => s.Add (moduleName src)) NewMutableSet

/-- The module index in use: the loaded one, or, when `ReadModuleindex`
fails (`none`), the single entry of the application's own modules. -/
def moduleindexOr (erlangApp : ErlangApp) (loaded : Option Moduleindex) : Moduleindex :=
  match loaded with
  | some moduleindex => moduleindex
  | none => [(erlangApp.Name, (ownModules erlangApp).Values)]

/-- Body of the loop over `erlAttrs.Include` (lines 202-211, 328-337). -/
def addInclude (erlangApp : ErlangApp) (src : Str) (theseHdrs : MutableSet) (inc : Str) :
    MutableSet :=
  let path := erlangApp.pathFor src inc
  if path ≠ [] then theseHdrs.Add path else theseHdrs

/-- Body of the loop over `erlAttrs.Include` in test-directory resolution
(lines 580-589). -/
def addTestInclude (erlangApp : ErlangApp) (src : Str) (theseHdrs : MutableSet) (inc : Str) :
    MutableSet :=
  let path := erlangApp.testPathFor src inc
  if path ≠ [] then theseHdrs.Add path else theseHdrs

/-- Body of the loop over `erlAttrs.IncludeLib` (lines 214-236, 340-362), on
the pair `(theseHdrs, theseDeps)`. -/
def addIncludeLib (erlangApp : ErlangApp) (erlangConfig : ErlangConfig) (src : Str)
    (st : MutableSet × MutableSet) (inc : Str) : MutableSet × MutableSet :=
  let path := erlangApp.pathFor src inc
  if path ≠ [] then (st.1.Add path, st.2)
  else
    match strings.Split inc '/' with
    | [] => st
    | p0 :: rest =>
      if p0 = erlangApp.Name then
        let path := erlangApp.pathFor src (strings.Join rest ['/'])
        if path ≠ [] then (st.1.Add path, st.2) else st
      else if !erlangConfig.IgnoredDeps.Contains p0 then (st.1, st.2.Add p0)
      else st

/-- Body of the loop over `erlAttrs.IncludeLib` in test-directory resolution
(lines 592-605), on the pair `(theseHdrs, theseDeps)`. -/
def addTestIncludeLib (erlangApp : ErlangApp) (erlangConfig : ErlangConfig) (src : Str)
    (st : MutableSet × MutableSet) (inc : Str) : MutableSet × MutableSet :=
  let path := erlangApp.pathFor src inc
  if path ≠ [] then (st.1.Add path, st.2)
  else
    match strings.Split inc '/' with
    | [] => st
    | p0 :: _ =>
      if !erlangConfig.IgnoredDeps.Contains p0 then (st.1, st.2.Add p0)
      else st

/-- Body of the loop over `erlAttrs.modules()` (lines 239-262, 365-388,
608-631), on the pair `(theseBeam, theseDeps)`. -/
def addModule (erlangApp : ErlangApp) (erlangConfig : ErlangConfig) (moduleindex : Moduleindex)
    (st : MutableSet × MutableSet) (mod : Str) : MutableSet × MutableSet :=
  match erlangApp.Srcs.Values.find? (fun other_src => decide (moduleName other_src = mod)) with
  | some other_src => (st.1.Add (beamFile other_src), st.2)
  | none =>
    match erlangConfig.ModuleMappings.lookup mod with
    | some dep => (st.1, st.2.Add dep)
    | none =>
      let app := FindModule moduleindex mod
      if app ≠ [] ∧ app ≠ erlangApp.Name then (st.1, st.2.Add app) else st

/-- The owner a call resolves to (lines 265-268, 391-394, 648-651): the
explicit mapping's value when it is not empty, else the owner in the
index. -/
def callOwner (erlangConfig : ErlangConfig) (moduleindex : Moduleindex) (mod : Str) : Str :=
  let app := (erlangConfig.ModuleMappings.lookup mod).getD []
  if app = [] then FindModule moduleindex mod else app

/-- Body of the loop over `erlAttrs.Call` (lines 264-275, 390-401): the
application itself is the state, its `Deps` may grow. -/
def addCall (erlangConfig : ErlangConfig) (moduleindex : Moduleindex) (erlangApp : ErlangApp)
    (mod : Str) : ErlangApp :=
  let app := callOwner erlangConfig moduleindex mod
  if app ≠ [] ∧ app ≠ erlangApp.Name ∧ !erlangConfig.IgnoredDeps.Contains app then
    { erlangApp with Deps := erlangApp.Deps.Add app }
  else erlangApp

/-- Body of the loop over `erlAttrs.Call` in test-directory resolution
(lines 635-658), on the pair `(theseRuntimeBeam, theseRuntimeDeps)`. -/
def addTestCall (erlangApp : ErlangApp) (erlangConfig : ErlangConfig) (moduleindex : Moduleindex)
    (st : MutableSet × MutableSet) (mod : Str) : MutableSet × MutableSet :=
  match erlangApp.TestSrcs.Values.find? (fun other_src => decide (moduleName other_src = mod)) with
  | some other_src => (st.1.Add (strings.TrimSuffix other_src ".erl".toList ++ ".beam".toList), st.2)
  | none =>
    let app := callOwner erlangConfig moduleindex mod
    if app ≠ [] ∧ app ≠ erlangApp.Name ∧ !erlangConfig.IgnoredDeps.Contains app then
      (st.1, st.2.Add app)
    else st

/-- The guarded `SetAttr` of a set: the attribute is set to the sorted
values only when the set is not empty. -/
def setNonEmpty (r : Rule) (key : String) (s : MutableSet) : Rule :=
  if !s.IsEmpty then r.SetAttr key (AttrValue.strs s.Values) else r

/-- The header, sibling-artifact and dependency sets `(theseHdrs, theseBeam,
theseDeps)` of one file in `BeamFilesRules` and `testBeamFilesRules`
(lines 201-262, 327-388). -/
def fileSets (erlangApp : ErlangApp) (erlangConfig : ErlangConfig) (moduleindex : Moduleindex)
    (src : Str) (erlAttrs : ErlAttrs) : MutableSet × MutableSet × MutableSet :=
  let theseHdrs := erlAttrs.Include.foldl (addInclude erlangApp src) NewMutableSet
  let hd := erlAttrs.IncludeLib.foldl (addIncludeLib erlangApp erlangConfig src)
    (theseHdrs, NewMutableSet)
  let bd := erlAttrs.modules.foldl (addModule erlangApp erlangConfig moduleindex)
    (NewMutableSet, hd.2)
  (hd.1, bd.1, bd.2)

/-- The sets `(theseHdrs, theseBeam, theseDeps)` of one file in
`TestDirBeamFilesRules` (lines 579-631). -/
def testFileSets (erlangApp : ErlangApp) (erlangConfig : ErlangConfig)
    (moduleindex : Moduleindex) (src : Str) (erlAttrs : ErlAttrs) :
    MutableSet × MutableSet × MutableSet :=
  let theseHdrs := erlAttrs.Include.foldl (addTestInclude erlangApp src) NewMutableSet
  let hd := erlAttrs.IncludeLib.foldl (addTestIncludeLib erlangApp erlangConfig src)
    (theseHdrs, NewMutableSet)
  let bd := erlAttrs.modules.foldl (addModule erlangApp erlangConfig moduleindex)
    (NewMutableSet, hd.2)
  (hd.1, bd.1, bd.2)

/-- The `erlang_bytecode` rule of `BeamFilesRules` (lines 277-293). -/
def erlangBytecode (k : Consts) (erlangApp : ErlangApp) (src : Str)
    (sets : MutableSet × MutableSet × MutableSet) : Rule :=
  let out := beamFile src
  let r := NewRule k.erlangBytecodeKind (ruleName out)
  let r := r.SetAttr "app_name" (AttrValue.str erlangApp.Name)
  let r := r.SetAttr "srcs" (AttrValue.strs [src])
  let r := setNonEmpty r "hdrs" sets.1
  let r := r.SetAttr "erlc_opts" (AttrValue.str ("//:".toList ++ k.erlcOptsRuleName))
  let r := r.SetAttr "outs" (AttrValue.strs [out])
  let r := setNonEmpty r "beam" sets.2.1
  setNonEmpty r "deps" sets.2.2

/-- The `erlang_bytecode` rule of `testBeamFilesRules` (lines 403-420). -/
def testErlangBytecode (k : Consts) (erlangApp : ErlangApp) (src : Str)
    (sets : MutableSet × MutableSet × MutableSet) : Rule :=
  let test_out := testBeamFile src
  let r := NewRule k.erlangBytecodeKind (ruleName test_out)
  let r := r.SetAttr "app_name" (AttrValue.str erlangApp.Name)
  let r := r.SetAttr "srcs" (AttrValue.strs [src])
  let r := setNonEmpty r "hdrs" sets.1
  let r := r.SetAttr "erlc_opts" (AttrValue.str ("//:".toList ++ k.testErlcOptsRuleName))
  let r := r.SetAttr "outs" (AttrValue.strs [test_out])
  let r := setNonEmpty r "beam" sets.2.1
  let r := setNonEmpty r "deps" sets.2.2
  r.SetAttr "testonly" (AttrValue.bool true)

/-- The `erlang_bytecode` rule of `TestDirBeamFilesRules` (lines 660-678). -/
def testDirErlangBytecode (k : Consts) (src : Str)
    (sets : MutableSet × MutableSet × MutableSet)
    (theseRuntimeBeam theseRuntimeDeps : MutableSet) : Rule :=
  let out := strings.TrimSuffix src ".erl".toList ++ ".beam".toList
  let r := NewRule k.erlangBytecodeKind (ruleNameForTestSrc out)
  let r := r.SetAttr "srcs" (AttrValue.strs [src])
  let r := setNonEmpty r "hdrs" sets.1
  let r := r.SetAttr "erlc_opts" (AttrValue.str ("//:".toList ++ k.testErlcOptsRuleName))
  let r := r.SetAttr "outs" (AttrValue.strs [out])
  let r := setNonEmpty r "beam" sets.2.1
  let r := setNonEmpty r "deps" sets.2.2
  let r := r.SetPrivateAttr "runtime_beam" theseRuntimeBeam.Values
  let r := r.SetPrivateAttr "runtime_deps" theseRuntimeDeps.Values
  r.SetAttr "testonly" (AttrValue.bool true)

/-- The state of the loop over the source files: the rules emitted so far,
the set of output artifacts, and the application. -/
abbrev LoopState := List Rule × MutableSet × ErlangApp

/-- Body of the loop over `Srcs` in `BeamFilesRules` (lines 192-296).  The
parser is a function from the source path to its fact record: a parse
error ends the process and has no result to embed. -/
def beamFilesStep (k : Consts) (erlangConfig : ErlangConfig) (moduleindex : Moduleindex)
    (erlParser : Str → ErlAttrs) (st : LoopState) (src : Str) : LoopState :=
  let erlangApp := st.2.2
  let erlAttrs := erlParser src
  let sets := fileSets erlangApp erlangConfig moduleindex src erlAttrs
  let erlangApp := erlAttrs.Call.foldl (addCall erlangConfig moduleindex) erlangApp
  (st.1 ++ [erlangBytecode k erlangApp src sets], st.2.1.Add (beamFile src), erlangApp)

/-- Body of the loop over `Srcs` in `testBeamFilesRules` (lines 318-423). -/
def testBeamFilesStep (k : Consts) (erlangConfig : ErlangConfig) (moduleindex : Moduleindex)
    (erlParser : Str → ErlAttrs) (st : LoopState) (src : Str) : LoopState :=
  let erlangApp := st.2.2
  let erlAttrs := erlParser src
  let sets := fileSets erlangApp erlangConfig moduleindex src erlAttrs
  let erlangApp := erlAttrs.Call.foldl (addCall erlangConfig moduleindex) erlangApp
  (st.1 ++ [testErlangBytecode k erlangApp src sets], st.2.1.Add (testBeamFile src), erlangApp)

/-- Body of the loop over `TestSrcs` in `TestDirBeamFilesRules`
(lines 571-681). -/
def testDirBeamFilesStep (k : Consts) (erlangConfig : ErlangConfig)
    (moduleindex : Moduleindex) (erlParser : Str → ErlAttrs) (st : LoopState) (src : Str) :
    LoopState :=
  let erlangApp := st.2.2
  let erlAttrs := erlParser src
  let sets := testFileSets erlangApp erlangConfig moduleindex src erlAttrs
  let rt := erlAttrs.Call.foldl (addTestCall erlangApp erlangConfig moduleindex)
    (NewMutableSet, NewMutableSet)
  (st.1 ++ [testDirErlangBytecode k src sets rt.1 rt.2],
    st.2.1.Add (strings.TrimSuffix src ".erl".toList ++ ".beam".toList), erlangApp)

namespace ErlangApp

/-- The method `BeamFilesRules`: the rules, and the application as the
calls of its files left it.  `loaded` is the result of `ReadModuleindex`
(`none` when it fails). -/
def BeamFilesRules (erlangApp : ErlangApp) (k : Consts) (erlangConfig : ErlangConfig)
    (loaded : Option Moduleindex) (erlParser : Str → ErlAttrs) : List Rule × ErlangApp :=
  let moduleindex := moduleindexOr erlangApp loaded
  let st := erlangApp.Srcs.Values.foldl (beamFilesStep k erlangConfig moduleindex erlParser)
    ([], NewMutableSet, erlangApp)
  let beam_files := (NewRule "filegroup".toList "beam_files".toList).SetAttr "srcs"
    (AttrValue.strs st.2.1.Values)
  (st.1 ++ [beam_files], st.2.2)

/-- The method `testBeamFilesRules`. -/
def testBeamFilesRules (erlangApp : ErlangApp) (k : Consts) (erlangConfig : ErlangConfig)
    (loaded : Option Moduleindex) (erlParser : Str → ErlAttrs) : List Rule × ErlangApp :=
  let moduleindex := moduleindexOr erlangApp loaded
  let st := erlangApp.Srcs.Values.foldl (testBeamFilesStep k erlangConfig moduleindex erlParser)
    ([], NewMutableSet, erlangApp)
  let test_beam_files := ((NewRule "filegroup".toList "test_beam_files".toList).SetAttr "srcs"
    (AttrValue.strs st.2.1.Values)).SetAttr "testonly" (AttrValue.bool true)
  (st.1 ++ [test_beam_files], st.2.2)

/-- The method `TestDirBeamFilesRules`: the rules, and the application
after the run. -/
def TestDirBeamFilesRules (erlangApp : ErlangApp) (k : Consts) (erlangConfig : ErlangConfig)
    (loaded : Option Moduleindex) (erlParser : Str → ErlAttrs) : List Rule × ErlangApp :=
  let moduleindex := moduleindexOr erlangApp loaded
  let st := erlangApp.TestSrcs.Values.foldl
    (testDirBeamFilesStep k erlangConfig moduleindex erlParser) ([], NewMutableSet, erlangApp)
  (st.1, st.2.2)

end ErlangApp

/-- The descriptor of source file `f` in a list of rules: the first rule
that compiles exactly `f` (its `srcs` is `[f]` and it declares `outs`). -/
def descriptorFor (rules : List Rule) (f : Str) : Option Rule :=
  rules.find? (fun r => decide (r.AttrStrings "srcs" = [f]) && (r.Attr "outs").isSome)

/-! ## `erlang_app.go`: test aggregation -/

/-- Modelled from the spec: the enumeration of the members of an Ordered
Set by a `range` loop: each member once, in the enumeration order of the
set, which the Go runtime does not fix. -/
def MutableSet.Range (s : MutableSet) : List Str := s.dedup

/-- Assignment `m[key] = v` of a Go map with string keys, held as an
association list: replaces the value of a key already present, appends
otherwise. -/
def mapPut {β : Type} : List (Str × β) → Str → β → List (Str × β)
  | [], k, v => [(k, v)]
  | (k', v') :: rest, k, v =>
    if k' = k then (k, v) :: rest else (k', v') :: mapPut rest k v

/-- Body of the first loop of `EunitRule` (lines 710-712). -/
def eunitSrcStep (modMap : List (Str × Str)) (src : Str) : List (Str × Str) :=
  mapPut modMap (moduleName src) []

/-- The label of the compiled artifact of a test-directory source
(line 716). -/
def testLabel (testSrc : Str) : Str :=
  ':' :: ruleNameForTestSrc (strings.TrimSuffix testSrc ".erl".toList ++ ".beam".toList)

/-- Body of the second loop of `EunitRule` (lines 713-727). -/
def eunitTestStep (modMap : List (Str × Str)) (testSrc : Str) : List (Str × Str) :=
  let tm := moduleName testSrc
  if !strings.HasSuffix tm "_SUITE".toList then
    let label := testLabel testSrc
    if strings.HasSuffix tm "_tests".toList then
      if (modMap.lookup (strings.TrimSuffix tm "_tests".toList)).isSome then
        mapPut modMap (strings.TrimSuffix tm "_tests".toList) label
      else mapPut modMap tm label
    else mapPut modMap tm label
  else modMap

/-- The map `modMap` of `EunitRule` (lines 709-727), from a module name to
the label of the compiled test artifact that goes with it. -/
def eunitModMap (erlangApp : ErlangApp) : List (Str × Str) :=
  erlangApp.TestSrcs.Range.foldl eunitTestStep (erlangApp.Srcs.Range.foldl eunitSrcStep [])

/-- Body of the loop over `modMap` in `EunitRule` (lines 731-736), on the
pair `(eunit_mods, compiled_suites)`. -/
def eunitCollect (st : MutableSet × MutableSet) (e : Str × Str) : MutableSet × MutableSet :=
  (st.1.Add e.1, if e.2 ≠ [] then st.2.Add e.2 else st.2)

namespace ErlangApp

/-- The method `EunitRule`. -/
def EunitRule (erlangApp : ErlangApp) (k : Consts) : Rule :=
  let modMap := eunitModMap erlangApp
  let sets := modMap.foldl eunitCollect (NewMutableSet, NewMutableSet)
  let eunit := NewRule k.eunitKind "eunit".toList
  let eunit := setNonEmpty eunit "compiled_suites" sets.2
  eunit.SetAttr "target" (AttrValue.str ":test_erlang_app".toList)

end ErlangApp

/-- The function `runtimeBeam`: the type assertion fails (`none`) when the
private attribute is not set. -/
def runtimeBeam (r : Rule) : Option (List Str) := r.privateAttrs.lookup "runtime_beam"

/-- The function `runtimeDeps`. -/
def runtimeDeps (r : Rule) : Option (List Str) := r.privateAttrs.lookup "runtime_deps"

/-- The map `rulesByName` of `CtSuiteRules` (lines 748-752). -/
def rulesByName (testDirBeamFilesRules : List Rule) : List (Str × Rule) :=
  testDirBeamFilesRules.foldl
    (fun m r => mapPut m (strings.TrimSuffix r.name "_beam_files".toList) r) []

/-- The `ct_test` rule of `CtSuiteRules` (lines 759-768). -/
def ctTest (k : Consts) (modName : Str) (beamFilesRuleName : Str) (rb rd : List Str) : Rule :=
  let r := NewRule k.ctTestKind modName
  let r := r.SetAttr "compiled_suites" (AttrValue.strs ((':' :: beamFilesRuleName) :: rb))
  let r := r.SetAttr "data"
    (AttrValue.glob ["test/".toList ++ modName ++ "_data/**/*".toList])
  r.SetAttr "deps" (AttrValue.strs (":test_erlang_app".toList :: rd))

/-- Body of the loop over `TestSrcs` in `CtSuiteRules` (lines 755-772).
`none` stands for the run-time panic of a missing entry of `rulesByName`
or of a failed type assertion in `runtimeBeam` or `runtimeDeps`. -/
def ctSuiteStep (k : Consts) (byName : List (Str × Rule)) (rules : Option (List Rule))
    (testSrc : Str) : Option (List Rule) :=
  match rules with
  | none => none
  | some rs =>
    let modName := moduleName testSrc
    if strings.HasSuffix modName "_SUITE".toList then
      match byName.lookup modName with
      | none => none
      | some beamFilesRule =>
        match runtimeBeam beamFilesRule, runtimeDeps beamFilesRule with
        | some rb, some rd => some (rs ++ [ctTest k modName beamFilesRule.name rb rd])
        | _, _ => none
    else some rs

namespace ErlangApp

/-- The method `CtSuiteRules`. -/
def CtSuiteRules (erlangApp : ErlangApp) (k : Consts) (testDirBeamFilesRules : List Rule) :
    Option (List Rule) :=
  erlangApp.TestSrcs.Values.foldl (ctSuiteStep k (rulesByName testDirBeamFilesRules)) (some [])

end ErlangApp

/-! ## Specification-side definitions -/

/-- The ordered candidate chain of the plain-include resolution as the
specification words it: each candidate path with whether it is classified
in the role its tier asks for. -/
def includeCandidates (erlangApp : ErlangApp) (frm inc : Str) : List (Str × Bool) :=
  [ (inc, decide (inc ∈ erlangApp.PrivateHdrs ∨ inc ∈ erlangApp.PublicHdrs)),
    (filepath.Join [filepath.Dir frm, inc],
      decide (filepath.Join [filepath.Dir frm, inc] ∈ erlangApp.PrivateHdrs ∨
        filepath.Join [filepath.Dir frm, inc] ∈ erlangApp.PublicHdrs)),
    (filepath.Join ["src".toList, inc],
      decide (filepath.Join ["src".toList, inc] ∈ erlangApp.PrivateHdrs)),
    (filepath.Join ["include".toList, inc],
      decide (filepath.Join ["include".toList, inc] ∈ erlangApp.PublicHdrs)) ]

/-- The first classified candidate of the chain, if there is one. -/
def firstClassified (erlangApp : ErlangApp) (frm inc : Str) : Option Str :=
  ((includeCandidates erlangApp frm inc).find? (fun c => c.2)).map (fun c => c.1)

/-! ## Definitions used in the statements -/

/-- The effect of one call on the dependency set of an application named
`name`: the value `addCall` leaves in `Deps`. -/
def callDeps (erlangConfig : ErlangConfig) (moduleindex : Moduleindex) (name : Str)
    (deps : MutableSet) (mod : Str) : MutableSet :=
  let app := callOwner erlangConfig moduleindex mod
  if app ≠ [] ∧ app ≠ name ∧ !erlangConfig.IgnoredDeps.Contains app then deps.Add app
  else deps

/-- The dependency set after the calls of all the files of `l`. -/
def runDeps (erlangConfig : ErlangConfig) (moduleindex : Moduleindex)
    (erlParser : Str → ErlAttrs) (name : Str) (deps : MutableSet) (l : List Str) :
    MutableSet :=
  l.foldl (fun d src => (erlParser src).Call.foldl (callDeps erlangConfig moduleindex name) d)
    deps

/-- The descriptor `TestDirBeamFilesRules` builds for one test-directory
file. -/
def testDirDescriptor (k : Consts) (erlangConfig : ErlangConfig) (moduleindex : Moduleindex)
    (erlParser : Str → ErlAttrs) (erlangApp : ErlangApp) (src : Str) : Rule :=
  testDirErlangBytecode k src
    (testFileSets erlangApp erlangConfig moduleindex src (erlParser src))
    ((erlParser src).Call.foldl (addTestCall erlangApp erlangConfig moduleindex)
      (NewMutableSet, NewMutableSet)).1
    ((erlParser src).Call.foldl (addTestCall erlangApp erlangConfig moduleindex)
      (NewMutableSet, NewMutableSet)).2

/-- An application state in which the empty path is classified as a
private header. -/
def emptyHdrApp : ErlangApp :=
  { NewErlangApp [] [] with PrivateHdrs := [[]] }

/-- The role sets of the application are those a sequence of `AddFile`
calls builds, starting from `NewErlangApp`. -/
def BuiltByAddFile (erlangApp : ErlangApp) : Prop :=
  ∃ (repoRoot rel : Str) (files : List Str),
    erlangApp.Srcs = (files.foldl ErlangApp.AddFile (NewErlangApp repoRoot rel)).Srcs ∧
    erlangApp.PrivateHdrs =
      (files.foldl ErlangApp.AddFile (NewErlangApp repoRoot rel)).PrivateHdrs ∧
    erlangApp.PublicHdrs =
      (files.foldl ErlangApp.AddFile (NewErlangApp repoRoot rel)).PublicHdrs ∧
    erlangApp.TestSrcs = (files.foldl ErlangApp.AddFile (NewErlangApp repoRoot rel)).TestSrcs ∧
    erlangApp.TestHdrs = (files.foldl ErlangApp.AddFile (NewErlangApp repoRoot rel)).TestHdrs

/-- Sources end in `.erl` and headers in `.hrl`. -/
def SuffixConvention (erlangApp : ErlangApp) : Prop :=
  (∀ x ∈ erlangApp.Srcs, strings.HasSuffix x ".erl".toList = true) ∧
  (∀ x ∈ erlangApp.TestSrcs, strings.HasSuffix x ".erl".toList = true) ∧
  (∀ x ∈ erlangApp.PrivateHdrs, strings.HasSuffix x ".hrl".toList = true) ∧
  (∀ x ∈ erlangApp.PublicHdrs, strings.HasSuffix x ".hrl".toList = true) ∧
  (∀ x ∈ erlangApp.TestHdrs, strings.HasSuffix x ".hrl".toList = true)

/-! ## Sample inputs -/

/-- The constants of the package at their usual values. -/
def sampleConsts : Consts :=
  { erlangBytecodeKind := "erlang_bytecode".toList
    erlcOptsRuleName := "erlc_opts".toList
    testErlcOptsRuleName := "test_erlc_opts".toList
    eunitKind := "eunit".toList
    ctTestKind := "ct_test".toList }

/-- An application `myapp` with two sources, a public header, a private
header in a subdirectory of `src` and two test-directory files. -/
def sampleApp : ErlangApp :=
  { (["src/a.erl".toList, "src/b.erl".toList, "include/foo.hrl".toList,
      "test/x_SUITE.erl".toList, "test/helper.erl".toList, "test/common.hrl".toList].foldl
      ErlangApp.AddFile (NewErlangApp [] [])) with Name := "myapp".toList }

/-- The header of the self-reference example. -/
def fooHrl : Str := "include/foo.hrl".toList

/-- The library-qualified reference to `include/foo.hrl` of the application
named `name`. -/
def selfRef (name : Str) : Str := name ++ '/' :: fooHrl

/-- The parser with one library-qualified include reference left out of
every fact record. -/
def dropIncludeLib (erlParser : Str → ErlAttrs) (ref : Str) (src : Str) : ErlAttrs :=
  { erlParser src with
    IncludeLib := (erlParser src).IncludeLib.filter (fun i => decide (i ≠ ref)) }

/-- An application `myapp` with the public header `include/foo.hrl` and a
private header at `src/myapp/include/foo.hrl`. -/
def shadowApp : ErlangApp :=
  { (["src/a.erl".toList, "src/myapp/include/foo.hrl".toList, "include/foo.hrl".toList].foldl
      ErlangApp.AddFile (NewErlangApp [] [])) with Name := "myapp".toList }

/-- A parser whose fact records hold the one library-qualified include
`myapp/include/foo.hrl`. -/
def selfRefParser (_ : Str) : ErlAttrs :=
  { IncludeLib := [selfRef "myapp".toList], Include := [], Behaviour := [],
    ParseTransform := [], Call := [] }

/-- The parser with one module name left out of the referenced modules of
every fact record. -/
def dropModule (erlParser : Str → ErlAttrs) (m : Str) (src : Str) : ErlAttrs :=
  { erlParser src with
    Behaviour := (erlParser src).Behaviour.filter (fun x => decide (x ≠ m))
    ParseTransform := (erlParser src).ParseTransform.filter (fun x => decide (x ≠ m)) }

/-- The application of the example of C5: its sources are `src/a.erl` and
`src/b.erl`. -/
def abApp (name : Str) : ErlangApp :=
  { (["src/a.erl".toList, "src/b.erl".toList].foldl ErlangApp.AddFile (NewErlangApp [] []))
    with Name := name }

/-- A parser by which `src/a.erl` calls module `b` and nothing else is
referenced. -/
def abParser (src : Str) : ErlAttrs :=
  { IncludeLib := [], Include := [], Behaviour := [], ParseTransform := [],
    Call := if src = "src/a.erl".toList then ["b".toList] else [] }

/-- A parser by which every file declares the behaviour `b`. -/
def behaviourParser (_ : Str) : ErlAttrs :=
  { IncludeLib := [], Include := [], Behaviour := ["b".toList], ParseTransform := [],
    Call := [] }

/-- The parser with one module name left out of the called modules of every
fact record. -/
def dropCall (erlParser : Str → ErlAttrs) (m : Str) (src : Str) : ErlAttrs :=
  { erlParser src with Call := (erlParser src).Call.filter (fun x => decide (x ≠ m)) }

/-- Two fact records that differ at most in their called-module set. -/
def SameButCall (a b : ErlAttrs) : Prop :=
  a.IncludeLib = b.IncludeLib ∧ a.Include = b.Include ∧ a.Behaviour = b.Behaviour ∧
    a.ParseTransform = b.ParseTransform

/-- The application `foo` with the one source `src/x.erl`. -/
def fooApp : ErlangApp :=
  { (["src/x.erl".toList].foldl ErlangApp.AddFile (NewErlangApp [] [])) with
    Name := "foo".toList }

/-- A parser by which every file calls the one module `mod`. -/
def callParser (mod : Str) (_ : Str) : ErlAttrs :=
  { IncludeLib := [], Include := [], Behaviour := [], ParseTransform := [], Call := [mod] }

/-- A parser by which no file references anything. -/
def emptyParser (_ : Str) : ErlAttrs :=
  { IncludeLib := [], Include := [], Behaviour := [], ParseTransform := [], Call := [] }

/-- A configuration whose ignore-list holds `kernel`. -/
def kernelIgnored : ErlangConfig := { IgnoredDeps := ["kernel".toList], ModuleMappings := [] }

/-- An index in which `kernel` owns `gen_server` and `stdlib` owns `lists`. -/
def otpIndex : Moduleindex :=
  [("kernel".toList, ["gen_server".toList]), ("stdlib".toList, ["lists".toList])]

/-- The runtime artifact of a test-directory source: the path with `.erl`
replaced by `.beam` (lines 640 and 660). -/
def testDirArtifact (src : Str) : Str :=
  strings.TrimSuffix src ".erl".toList ++ ".beam".toList

/-- An application with two test-directory sources that both define module
`helper`. -/
def twoHelpersApp : ErlangApp :=
  { (["test/x_SUITE.erl".toList, "test/helper.erl".toList, "test/sub/helper.erl".toList].foldl
      ErlangApp.AddFile (NewErlangApp [] [])) with Name := "myapp".toList }

/-- An application with the test header `test/common.hrl` and a suite in a
subdirectory of `test`. -/
def testHdrApp : ErlangApp :=
  { (["test/sub/x_SUITE.erl".toList, "test/common.hrl".toList].foldl
      ErlangApp.AddFile (NewErlangApp [] [])) with Name := "myapp".toList }

/-- An application with the private header `src/common.hrl`, the test
header `test/common.hrl` and the suite `test/x_SUITE.erl`. -/
def twoCommonApp : ErlangApp :=
  { (["test/x_SUITE.erl".toList, "test/common.hrl".toList, "src/common.hrl".toList].foldl
      ErlangApp.AddFile (NewErlangApp [] [])) with Name := "myapp".toList }

/-- The last element of a path that does not end in a separator: the
characters after the last `/`. -/
def stem (w : Str) : Str := (w.reverse.takeWhile (fun c => c ≠ '/')).reverse

/-- Whether a test-directory source is a suite: its module name ends in
`_SUITE`. -/
def isSuite (testSrc : Str) : Bool := strings.HasSuffix (moduleName testSrc) "_SUITE".toList

/-- What is read off a test-execution descriptor: kind, name,
`compiled_suites`, `deps` and `data`. -/
def ctSummary (r : Rule) : Option (Str × Str × List Str × List Str × Option AttrValue) :=
  some (r.kind, r.name, r.AttrStrings "compiled_suites", r.AttrStrings "deps", r.Attr "data")

/-- The test-execution descriptor the specification asks for the suite
`testSrc`, given the compilation descriptors `rules`: named by the module,
its `compiled_suites` the label `:<module>_beam_files` followed by the
runtime-only artifacts of the suite's own descriptor, its `deps`
`:test_erlang_app` followed by the runtime-only dependencies of that
descriptor, its `data` the glob `test/<module>_data/**/*`. -/
def suiteExpectation (k : Consts) (rules : List Rule) (testSrc : Str) :
    Option (Str × Str × List Str × List Str × Option AttrValue) :=
  (descriptorFor rules testSrc).map (fun d =>
    (k.ctTestKind, moduleName testSrc,
      (':' :: (moduleName testSrc ++ "_beam_files".toList)) :: d.PrivateAttr "runtime_beam",
      ":test_erlang_app".toList :: d.PrivateAttr "runtime_deps",
      some (AttrValue.glob
        ["test/".toList ++ moduleName testSrc ++ "_data/**/*".toList])))

/-- The suites of the test-directory sources have pairwise different
module names. -/
def SuitesUnique (erlangApp : ErlangApp) : Prop :=
  ∀ t ∈ erlangApp.TestSrcs, ∀ u ∈ erlangApp.TestSrcs,
    isSuite t = true → moduleName u = moduleName t → u = t

/-- An application with two suites of the same module name `a_SUITE` and the
test helper `test/helper.erl`. -/
def twoSuitesApp : ErlangApp :=
  { (["test/a_SUITE.erl".toList, "test/sub/a_SUITE.erl".toList, "test/helper.erl".toList].foldl
      ErlangApp.AddFile (NewErlangApp [] [])) with Name := "myapp".toList }

/-- A parser by which `test/a_SUITE.erl` calls `helper` and no other file
references anything. -/
def suiteHelperParser (src : Str) : ErlAttrs :=
  { IncludeLib := [], Include := [], Behaviour := [], ParseTransform := [],
    Call := if src = "test/a_SUITE.erl".toList then ["helper".toList] else [] }

/-- The test-execution descriptor built from the compilation descriptor of
the suite itself. -/
def suiteRule (k : Consts) (erlangConfig : ErlangConfig) (moduleindex : Moduleindex)
    (erlParser : Str → ErlAttrs) (erlangApp : ErlangApp) (t : Str) : Rule :=
  ctTest k (moduleName t) (moduleName t ++ "_beam_files".toList)
    ((testDirDescriptor k erlangConfig moduleindex erlParser erlangApp t).PrivateAttr
      "runtime_beam")
    ((testDirDescriptor k erlangConfig moduleindex erlParser erlangApp t).PrivateAttr
      "runtime_deps")

/-- An application with the production module `shop`, its unit tests
`shop_tests` and a test helper. -/
def shopApp : ErlangApp :=
  { (["src/shop.erl".toList, "test/shop_tests.erl".toList, "test/helper.erl".toList].foldl
      ErlangApp.AddFile (NewErlangApp [] [])) with Name := "shop".toList }

/-- An application with the production module `shop` and two test-directory
sources that both define `shop_tests`. -/
def twoShopTestsApp : ErlangApp :=
  { (["src/shop.erl".toList, "test/shop_tests.erl".toList,
      "test/sub/shop_tests.erl".toList].foldl
      ErlangApp.AddFile (NewErlangApp [] [])) with Name := "shop".toList }

/-- A parser by which every file declares the behaviour `gen_server`. -/
def genServerParser (_ : Str) : ErlAttrs :=
  { IncludeLib := [], Include := [], Behaviour := ["gen_server".toList], ParseTransform := [],
    Call := [] }

/-- Where a name in the `deps` of a descriptor of `BeamFilesRules` or
`testBeamFilesRules` comes from: the leading segment of a library-qualified
include (not the application itself, not ignored), the explicit mapping of a
referenced module, or the owner of a referenced module in the index (found
and not the application itself). -/
def DepOrigin (erlangApp : ErlangApp) (erlangConfig : ErlangConfig) (moduleindex : Moduleindex)
    (erlAttrs : ErlAttrs) (x : Str) : Prop :=
  (∃ inc ∈ erlAttrs.IncludeLib, (strings.Split inc '/').head? = some x ∧
    x ≠ erlangApp.Name ∧ x ∉ erlangConfig.IgnoredDeps) ∨
  (∃ m ∈ erlAttrs.modules, erlangConfig.ModuleMappings.lookup m = some x) ∨
  (∃ m ∈ erlAttrs.modules, erlangConfig.ModuleMappings.lookup m = none ∧
    FindModule moduleindex m = x ∧ x ≠ [] ∧ x ≠ erlangApp.Name)

/-- Where a name in the `deps` of a descriptor of `TestDirBeamFilesRules`
comes from: as `DepOrigin`, but the leading segment of a library-qualified
include is only checked against the ignore-list. -/
def TestDepOrigin (erlangApp : ErlangApp) (erlangConfig : ErlangConfig)
    (moduleindex : Moduleindex) (erlAttrs : ErlAttrs) (x : Str) : Prop :=
  (∃ inc ∈ erlAttrs.IncludeLib, (strings.Split inc '/').head? = some x ∧
    x ∉ erlangConfig.IgnoredDeps) ∨
  (∃ m ∈ erlAttrs.modules, erlangConfig.ModuleMappings.lookup m = some x) ∨
  (∃ m ∈ erlAttrs.modules, erlangConfig.ModuleMappings.lookup m = none ∧
    FindModule moduleindex m = x ∧ x ≠ [] ∧ x ≠ erlangApp.Name)

/-- A configuration whose explicit mapping assigns `gen_server` to
`myapp`. -/
def selfMapping : ErlangConfig :=
  { IgnoredDeps := [], ModuleMappings := [("gen_server".toList, "myapp".toList)] }

/-- Sources are under `src/` and test-directory sources under `test/`. -/
def PrefixConvention (erlangApp : ErlangApp) : Prop :=
  (∀ x ∈ erlangApp.Srcs, strings.HasPrefix x "src/".toList = true) ∧
  (∀ x ∈ erlangApp.TestSrcs, strings.HasPrefix x "test/".toList = true)

/-- A parser by which every file declares the behaviour `a` and calls the
module `x_SUITE`. -/
def ownModuleParser (_ : Str) : ErlAttrs :=
  { IncludeLib := [], Include := [], Behaviour := ["a".toList], ParseTransform := [],
    Call := ["x_SUITE".toList] }

/-- A configuration whose explicit mapping assigns `gen_server` to
`my_otp`. -/
def otpMapping : ErlangConfig :=
  { IgnoredDeps := [], ModuleMappings := [("gen_server".toList, "my_otp".toList)] }

/-- The parser with the referenced modules left out of every fact
record. -/
def noModules (erlParser : Str → ErlAttrs) (src : Str) : ErlAttrs :=
  { erlParser src with Behaviour := [], ParseTransform := [] }

/-- A parser by which every file includes `other/include/x.hrl` by library,
declares the behaviours `b` and `gen_server` and calls `lists` and `b`. -/
def busyParser (_ : Str) : ErlAttrs :=
  { IncludeLib := ["other/include/x.hrl".toList], Include := [],
    Behaviour := ["b".toList, "gen_server".toList], ParseTransform := [],
    Call := ["lists".toList, "b".toList] }

/-- The roles of the File Role Classifier. -/
inductive Role where
  | ebin
  | src
  | privateHdr
  | publicHdr
  | appSrc
  | testSrc
  | testHdr
  | priv
  | license
  deriving DecidableEq

/-- The File Role Classifier as the specification words it: the role of a
package-relative path by its prefix and suffix, `none` for a path without
role. -/
def classify (f : Str) : Option Role :=
  if strings.HasPrefix f "ebin/".toList then
    if strings.HasSuffix f ".app".toList then some Role.ebin else none
  else if strings.HasPrefix f "src/".toList then
    if strings.HasSuffix f ".erl".toList then some Role.src
    else if strings.HasSuffix f ".hrl".toList then some Role.privateHdr
    else if strings.HasSuffix f ".app.src".toList then some Role.appSrc
    else none
  else if strings.HasPrefix f "include/".toList then
    if strings.HasSuffix f ".hrl".toList then some Role.publicHdr else none
  else if strings.HasPrefix f "test/".toList then
    if strings.HasSuffix f ".erl".toList then some Role.testSrc
    else if strings.HasSuffix f ".hrl".toList then some Role.testHdr
    else none
  else if strings.HasPrefix f "priv/".toList then some Role.priv
  else if strings.HasPrefix f "LICENSE".toList then some Role.license
  else none

/-- The set of the application that holds the paths of a role. -/
def roleSet (erlangApp : ErlangApp) : Role → MutableSet
  | Role.ebin => erlangApp.Ebin
  | Role.src => erlangApp.Srcs
  | Role.privateHdr => erlangApp.PrivateHdrs
  | Role.publicHdr => erlangApp.PublicHdrs
  | Role.appSrc => erlangApp.AppSrc
  | Role.testSrc => erlangApp.TestSrcs
  | Role.testHdr => erlangApp.TestHdrs
  | Role.priv => erlangApp.Priv
  | Role.license => erlangApp.LicenseFiles

/-- The application with a path added to the set of one role, every other
field unchanged. -/
def addRole (erlangApp : ErlangApp) (r : Role) (f : Str) : ErlangApp :=
  match r with
  | Role.ebin => { erlangApp with Ebin := erlangApp.Ebin.Add f }
  | Role.src => { erlangApp with Srcs := erlangApp.Srcs.Add f }
  | Role.privateHdr => { erlangApp with PrivateHdrs := erlangApp.PrivateHdrs.Add f }
  | Role.publicHdr => { erlangApp with PublicHdrs := erlangApp.PublicHdrs.Add f }
  | Role.appSrc => { erlangApp with AppSrc := erlangApp.AppSrc.Add f }
  | Role.testSrc => { erlangApp with TestSrcs := erlangApp.TestSrcs.Add f }
  | Role.testHdr => { erlangApp with TestHdrs := erlangApp.TestHdrs.Add f }
  | Role.priv => { erlangApp with Priv := erlangApp.Priv.Add f }
  | Role.license => { erlangApp with LicenseFiles := erlangApp.LicenseFiles.Add f }

/-- The prefix and suffix convention of a role. -/
def roleConvention : Role → Str → Prop
  | Role.ebin, x =>
    strings.HasPrefix x "ebin/".toList = true ∧ strings.HasSuffix x ".app".toList = true
  | Role.src, x =>
    strings.HasPrefix x "src/".toList = true ∧ strings.HasSuffix x ".erl".toList = true
  | Role.privateHdr, x =>
    strings.HasPrefix x "src/".toList = true ∧ strings.HasSuffix x ".hrl".toList = true
  | Role.publicHdr, x =>
    strings.HasPrefix x "include/".toList = true ∧ strings.HasSuffix x ".hrl".toList = true
  | Role.appSrc, x =>
    strings.HasPrefix x "src/".toList = true ∧ strings.HasSuffix x ".app.src".toList = true
  | Role.testSrc, x =>
    strings.HasPrefix x "test/".toList = true ∧ strings.HasSuffix x ".erl".toList = true
  | Role.testHdr, x =>
    strings.HasPrefix x "test/".toList = true ∧ strings.HasSuffix x ".hrl".toList = true
  | Role.priv, x => strings.HasPrefix x "priv/".toList = true
  | Role.license, x => strings.HasPrefix x "LICENSE".toList = true

/-- Every member of a role set has that role. -/
def RolesClassified (erlangApp : ErlangApp) : Prop :=
  ∀ r x, x ∈ roleSet erlangApp r → classify x = some r

/-- An application with the test-directory modules `x` and `x_tests`, the
file of `x` entered first. -/
def eunitFirstApp : ErlangApp :=
  ["test/x.erl".toList, "test/x_tests.erl".toList].foldl
    ErlangApp.AddFile (NewErlangApp [] [])

/-- The application `eunitFirstApp` with the same files, the file of
`x_tests` entered first. -/
def eunitSecondApp : ErlangApp :=
  ["test/x_tests.erl".toList, "test/x.erl".toList].foldl
    ErlangApp.AddFile (NewErlangApp [] [])

/-- An application with the production module `p` and the test-directory
modules `p` and `p_tests`, the file of `p` entered first. -/
def eunitShadowFirstApp : ErlangApp :=
  ["src/p.erl".toList, "test/p.erl".toList, "test/p_tests.erl".toList].foldl
    ErlangApp.AddFile (NewErlangApp [] [])

/-- The application `eunitShadowFirstApp` with the same files, the file of
`p_tests` entered before that of the test-directory `p`. -/
def eunitShadowSecondApp : ErlangApp :=
  ["src/p.erl".toList, "test/p_tests.erl".toList, "test/p.erl".toList].foldl
    ErlangApp.AddFile (NewErlangApp [] [])

/-- An application state whose only test-directory source does not end in
`.erl`: `test/a_SUITE.beam`, of module name `a_SUITE`. -/
def beamSuiteApp : ErlangApp :=
  { NewErlangApp [] [] with Name := "myapp".toList, TestSrcs := ["test/a_SUITE.beam".toList] }

/-- An application with the production module `shop` and the
test-directory modules `shop_tests`, `util` and `util_tests`. -/
def utilTestsApp : ErlangApp :=
  { (["src/shop.erl".toList, "test/shop_tests.erl".toList, "test/util.erl".toList,
        "test/util_tests.erl".toList].foldl
      ErlangApp.AddFile (NewErlangApp [] [])) with Name := "shop".toList }

/-- An application state whose test-directory sources are
`test/b_SUITE.beam`, which does not end in `.erl` and has the module name
`b_SUITE`, and `test/helper.erl`. -/
def compiledSuiteApp : ErlangApp :=
  { NewErlangApp [] [] with
    Name := "myapp".toList,
    TestSrcs := ["test/b_SUITE.beam".toList, "test/helper.erl".toList] }

/-! ## Basic facts -/

theorem MutableSet.mem_Add (s : MutableSet) (x y : Str) : y ∈ s.Add x ↔ y ∈ s ∨ y = x := by
  unfold MutableSet.Add
  split
  · constructor
    · intro h; exact Or.inl h
    · rintro (h | h)
      · exact h
      · subst h; assumption
  · simp

theorem MutableSet.mem_Values (s : MutableSet) (x : Str) : x ∈ s.Values ↔ x ∈ s := by
  unfold MutableSet.Values
  rw [List.mem_insertionSort, List.mem_dedup]

theorem MutableSet.Contains_iff (s : MutableSet) (x : Str) : s.Contains x = true ↔ x ∈ s := by
  simp [MutableSet.Contains]

theorem filepath.Clean_ne_nil (path : Str) : filepath.Clean path ≠ [] := by
  have key : ∀ out : Str, (if out = [] then ['.'] else out) ≠ [] := by
    intro out
    split <;> simp_all
  unfold filepath.Clean
  split
  · simp
  · exact key _

theorem filepath.Join_ne_nil (e : Str) (es : List Str) (h : e ≠ []) :
    filepath.Join (e :: es) ≠ [] := by
  simp [filepath.Join, h, filepath.Clean_ne_nil]

theorem filepath.Dir_ne_nil (path : Str) : filepath.Dir path ≠ [] :=
  filepath.Clean_ne_nil _

/-- A path `pathFor` returns, unless it is the "not found" value, is a
classified private or public header. -/
theorem pathFor_mem (erlangApp : ErlangApp) (frm inc : Str)
    (h : erlangApp.pathFor frm inc ≠ []) :
    erlangApp.pathFor frm inc ∈ erlangApp.PrivateHdrs ∨
      erlangApp.pathFor frm inc ∈ erlangApp.PublicHdrs := by
  unfold ErlangApp.pathFor at h ⊢
  simp only [Bool.or_eq_true, MutableSet.Contains_iff] at h ⊢
  generalize filepath.Join [filepath.Dir frm, inc] = d at h ⊢
  generalize filepath.Join ["src".toList, inc] = p at h ⊢
  generalize filepath.Join ["include".toList, inc] = q at h ⊢
  split
  · assumption
  · split
    · assumption
    · split
      · left; assumption
      · split
        · right; assumption
        · rename_i h1 h2 h3 h4
          simp [h1, h2, h3, h4] at h

/-- A path `testPathFor` returns, unless it is the "not found" value, is a
classified private, public or test header. -/
theorem testPathFor_mem (erlangApp : ErlangApp) (frm inc : Str)
    (h : erlangApp.testPathFor frm inc ≠ []) :
    erlangApp.testPathFor frm inc ∈ erlangApp.PrivateHdrs ∨
      erlangApp.testPathFor frm inc ∈ erlangApp.PublicHdrs ∨
      erlangApp.testPathFor frm inc ∈ erlangApp.TestHdrs := by
  unfold ErlangApp.testPathFor at h ⊢
  simp only [MutableSet.Contains_iff] at h ⊢
  generalize filepath.Join [filepath.Dir frm, inc] = d at h ⊢
  generalize filepath.Join ["test".toList, inc] = p at h ⊢
  split
  · rename_i h1
    rcases pathFor_mem erlangApp frm inc h1 with h2 | h2
    · exact Or.inl h2
    · exact Or.inr (Or.inl h2)
  · split
    · right; right; assumption
    · split
      · left; assumption
      · rename_i h1 h2 h3
        simp [h1, h2, h3] at h

/-! ## Attribute tables -/

theorem lookup_setKey_same {β : Type} (l : List (String × β)) (k : String) (v : β) :
    (setKey l k v).lookup k = some v := by
  induction l with
  | nil => simp [setKey, List.lookup]
  | cons e rest ih =>
    obtain ⟨k', v'⟩ := e
    unfold setKey
    by_cases h : k' = k
    · simp [h, List.lookup]
    · have hb : (k == k') = false := by simpa using fun h' => h h'.symm
      simp [h, List.lookup, hb, ih]

theorem lookup_setKey_other {β : Type} (l : List (String × β)) (k k' : String) (v : β)
    (h : k' ≠ k) : (setKey l k v).lookup k' = l.lookup k' := by
  induction l with
  | nil =>
    have hb : (k' == k) = false := by simpa using h
    simp [setKey, List.lookup, hb]
  | cons e rest ih =>
    obtain ⟨k0, v0⟩ := e
    unfold setKey
    by_cases h0 : k0 = k
    · subst h0
      have hb : (k' == k0) = false := by simpa using h
      simp [List.lookup, hb]
    · by_cases h1 : k' = k0
      · subst h1
        simp [h0, List.lookup]
      · have hb : (k' == k0) = false := by simpa using h1
        simp [h0, List.lookup, hb, ih]

theorem Values_nil : MutableSet.Values [] = [] := rfl

theorem AttrStrings_SetAttr_same (r : Rule) (key : String) (l : List Str) :
    (r.SetAttr key (AttrValue.strs l)).AttrStrings key = l := by
  simp [Rule.AttrStrings, Rule.SetAttr, lookup_setKey_same]

theorem AttrStrings_SetAttr_other (r : Rule) (key key' : String) (v : AttrValue)
    (h : key' ≠ key) : (r.SetAttr key v).AttrStrings key' = r.AttrStrings key' := by
  simp [Rule.AttrStrings, Rule.SetAttr, lookup_setKey_other _ _ _ _ h]

theorem AttrStrings_SetPrivateAttr (r : Rule) (key key' : String) (v : List Str) :
    (r.SetPrivateAttr key v).AttrStrings key' = r.AttrStrings key' := rfl

theorem AttrStrings_setNonEmpty_same (r : Rule) (key : String) (s : MutableSet)
    (h : r.AttrStrings key = []) : (setNonEmpty r key s).AttrStrings key = s.Values := by
  unfold setNonEmpty
  cases s with
  | nil => simpa [MutableSet.IsEmpty, Values_nil] using h
  | cons a t => simp [MutableSet.IsEmpty, AttrStrings_SetAttr_same]

theorem AttrStrings_setNonEmpty_other (r : Rule) (key key' : String) (s : MutableSet)
    (h : key' ≠ key) : (setNonEmpty r key s).AttrStrings key' = r.AttrStrings key' := by
  unfold setNonEmpty
  split
  · exact AttrStrings_SetAttr_other _ _ _ _ h
  · rfl

theorem Attr_SetAttr_same (r : Rule) (key : String) (v : AttrValue) :
    (r.SetAttr key v).Attr key = some v := by
  simp [Rule.Attr, Rule.SetAttr, lookup_setKey_same]

theorem Attr_SetAttr_other (r : Rule) (key key' : String) (v : AttrValue)
    (h : key' ≠ key) : (r.SetAttr key v).Attr key' = r.Attr key' := by
  simp [Rule.Attr, Rule.SetAttr, lookup_setKey_other _ _ _ _ h]

theorem Attr_setNonEmpty_other (r : Rule) (key key' : String) (s : MutableSet)
    (h : key' ≠ key) : (setNonEmpty r key s).Attr key' = r.Attr key' := by
  unfold setNonEmpty
  split
  · exact Attr_SetAttr_other _ _ _ _ h
  · rfl

theorem Attr_SetPrivateAttr (r : Rule) (key key' : String) (v : List Str) :
    (r.SetPrivateAttr key v).Attr key' = r.Attr key' := rfl

theorem PrivateAttr_SetAttr (r : Rule) (key key' : String) (v : AttrValue) :
    (r.SetAttr key v).PrivateAttr key' = r.PrivateAttr key' := rfl

theorem PrivateAttr_SetPrivateAttr_same (r : Rule) (key : String) (v : List Str) :
    (r.SetPrivateAttr key v).PrivateAttr key = v := by
  simp [Rule.PrivateAttr, Rule.SetPrivateAttr, lookup_setKey_same]

theorem PrivateAttr_SetPrivateAttr_other (r : Rule) (key key' : String) (v : List Str)
    (h : key' ≠ key) : (r.SetPrivateAttr key v).PrivateAttr key' = r.PrivateAttr key' := by
  simp [Rule.PrivateAttr, Rule.SetPrivateAttr, lookup_setKey_other _ _ _ _ h]

theorem AttrStrings_NewRule (kind name : Str) (key : String) :
    (NewRule kind name).AttrStrings key = [] := rfl

/-! ### Attributes of the three kinds of `erlang_bytecode` descriptor -/

section descriptorAttrs

variable (k : Consts) (erlangApp : ErlangApp) (src : Str)
  (sets : MutableSet × MutableSet × MutableSet) (rb rd : MutableSet)

theorem erlangBytecode_srcs :
    (erlangBytecode k erlangApp src sets).AttrStrings "srcs" = [src] := by
  simp [erlangBytecode, AttrStrings_setNonEmpty_other, AttrStrings_SetAttr_other,
    AttrStrings_SetAttr_same]

theorem erlangBytecode_outs :
    (erlangBytecode k erlangApp src sets).Attr "outs" = some (AttrValue.strs [beamFile src]) := by
  simp [erlangBytecode, Attr_setNonEmpty_other, Attr_SetAttr_same]

theorem erlangBytecode_hdrs :
    (erlangBytecode k erlangApp src sets).AttrStrings "hdrs" = sets.1.Values := by
  simp [erlangBytecode, AttrStrings_setNonEmpty_other, AttrStrings_SetAttr_other,
    AttrStrings_setNonEmpty_same, AttrStrings_NewRule]

theorem erlangBytecode_beam :
    (erlangBytecode k erlangApp src sets).AttrStrings "beam" = sets.2.1.Values := by
  simp [erlangBytecode, AttrStrings_setNonEmpty_other, AttrStrings_SetAttr_other,
    AttrStrings_setNonEmpty_same, AttrStrings_NewRule]

theorem erlangBytecode_deps :
    (erlangBytecode k erlangApp src sets).AttrStrings "deps" = sets.2.2.Values := by
  simp [erlangBytecode, AttrStrings_setNonEmpty_other, AttrStrings_SetAttr_other,
    AttrStrings_setNonEmpty_same, AttrStrings_NewRule]

theorem testErlangBytecode_srcs :
    (testErlangBytecode k erlangApp src sets).AttrStrings "srcs" = [src] := by
  simp [testErlangBytecode, AttrStrings_setNonEmpty_other, AttrStrings_SetAttr_other,
    AttrStrings_SetAttr_same]

theorem testErlangBytecode_outs :
    (testErlangBytecode k erlangApp src sets).Attr "outs" =
      some (AttrValue.strs [testBeamFile src]) := by
  simp [testErlangBytecode, Attr_setNonEmpty_other, Attr_SetAttr_same, Attr_SetAttr_other]

theorem testErlangBytecode_hdrs :
    (testErlangBytecode k erlangApp src sets).AttrStrings "hdrs" = sets.1.Values := by
  simp [testErlangBytecode, AttrStrings_setNonEmpty_other, AttrStrings_SetAttr_other,
    AttrStrings_setNonEmpty_same, AttrStrings_NewRule]

theorem testErlangBytecode_beam :
    (testErlangBytecode k erlangApp src sets).AttrStrings "beam" = sets.2.1.Values := by
  simp [testErlangBytecode, AttrStrings_setNonEmpty_other, AttrStrings_SetAttr_other,
    AttrStrings_setNonEmpty_same, AttrStrings_NewRule]

theorem testErlangBytecode_deps :
    (testErlangBytecode k erlangApp src sets).AttrStrings "deps" = sets.2.2.Values := by
  simp [testErlangBytecode, AttrStrings_setNonEmpty_other, AttrStrings_SetAttr_other,
    AttrStrings_setNonEmpty_same, AttrStrings_NewRule]

theorem testDirErlangBytecode_srcs :
    (testDirErlangBytecode k src sets rb rd).AttrStrings "srcs" = [src] := by
  simp [testDirErlangBytecode, AttrStrings_setNonEmpty_other, AttrStrings_SetAttr_other,
    AttrStrings_SetAttr_same, AttrStrings_SetPrivateAttr]

theorem testDirErlangBytecode_outs :
    (testDirErlangBytecode k src sets rb rd).Attr "outs" =
      some (AttrValue.strs [strings.TrimSuffix src ".erl".toList ++ ".beam".toList]) := by
  simp [testDirErlangBytecode, Attr_setNonEmpty_other, Attr_SetAttr_same, Attr_SetAttr_other,
    Attr_SetPrivateAttr]

theorem testDirErlangBytecode_hdrs :
    (testDirErlangBytecode k src sets rb rd).AttrStrings "hdrs" = sets.1.Values := by
  simp [testDirErlangBytecode, AttrStrings_setNonEmpty_other, AttrStrings_SetAttr_other,
    AttrStrings_setNonEmpty_same, AttrStrings_NewRule, AttrStrings_SetPrivateAttr]

theorem testDirErlangBytecode_beam :
    (testDirErlangBytecode k src sets rb rd).AttrStrings "beam" = sets.2.1.Values := by
  simp [testDirErlangBytecode, AttrStrings_setNonEmpty_other, AttrStrings_SetAttr_other,
    AttrStrings_setNonEmpty_same, AttrStrings_NewRule, AttrStrings_SetPrivateAttr]

theorem testDirErlangBytecode_deps :
    (testDirErlangBytecode k src sets rb rd).AttrStrings "deps" = sets.2.2.Values := by
  simp [testDirErlangBytecode, AttrStrings_setNonEmpty_other, AttrStrings_SetAttr_other,
    AttrStrings_setNonEmpty_same, AttrStrings_NewRule, AttrStrings_SetPrivateAttr]

theorem testDirErlangBytecode_runtime_beam :
    (testDirErlangBytecode k src sets rb rd).PrivateAttr "runtime_beam" = rb.Values := by
  simp [testDirErlangBytecode, PrivateAttr_SetAttr, PrivateAttr_SetPrivateAttr_same,
    PrivateAttr_SetPrivateAttr_other]

theorem testDirErlangBytecode_runtime_deps :
    (testDirErlangBytecode k src sets rb rd).PrivateAttr "runtime_deps" = rd.Values := by
  simp [testDirErlangBytecode, PrivateAttr_SetAttr, PrivateAttr_SetPrivateAttr_same]

end descriptorAttrs

/-! ## The loops over the source files -/

section loops

variable (k : Consts) (erlangConfig : ErlangConfig) (moduleindex : Moduleindex)
  (erlParser : Str → ErlAttrs)

theorem addCall_eq (erlangApp : ErlangApp) (mod : Str) :
    addCall erlangConfig moduleindex erlangApp mod =
      { erlangApp with
        Deps := callDeps erlangConfig moduleindex erlangApp.Name erlangApp.Deps mod } := by
  unfold addCall callDeps
  simp only
  split <;> rfl

theorem foldl_addCall_eq (calls : List Str) (erlangApp : ErlangApp) :
    calls.foldl (addCall erlangConfig moduleindex) erlangApp =
      { erlangApp with
        Deps := calls.foldl (callDeps erlangConfig moduleindex erlangApp.Name)
          erlangApp.Deps } := by
  induction calls generalizing erlangApp with
  | nil => rfl
  | cons m ms ih =>
    simp only [List.foldl]
    rw [ih, addCall_eq]

theorem beamFilesStep_eq (erlangApp : ErlangApp) (rs : List Rule) (outs d : MutableSet)
    (src : Str) :
    beamFilesStep k erlangConfig moduleindex erlParser
        (rs, outs, { erlangApp with Deps := d }) src =
      (rs ++ [erlangBytecode k erlangApp src
          (fileSets erlangApp erlangConfig moduleindex src (erlParser src))],
        outs.Add (beamFile src),
        { erlangApp with
          Deps := (erlParser src).Call.foldl
            (callDeps erlangConfig moduleindex erlangApp.Name) d }) := by
  unfold beamFilesStep
  simp only
  rw [foldl_addCall_eq]
  rfl

theorem testBeamFilesStep_eq (erlangApp : ErlangApp) (rs : List Rule) (outs d : MutableSet)
    (src : Str) :
    testBeamFilesStep k erlangConfig moduleindex erlParser
        (rs, outs, { erlangApp with Deps := d }) src =
      (rs ++ [testErlangBytecode k erlangApp src
          (fileSets erlangApp erlangConfig moduleindex src (erlParser src))],
        outs.Add (testBeamFile src),
        { erlangApp with
          Deps := (erlParser src).Call.foldl
            (callDeps erlangConfig moduleindex erlangApp.Name) d }) := by
  unfold testBeamFilesStep
  simp only
  rw [foldl_addCall_eq]
  rfl

theorem beamFilesLoop (erlangApp : ErlangApp) (l : List Str) :
    ∀ (rs : List Rule) (outs d : MutableSet),
      l.foldl (beamFilesStep k erlangConfig moduleindex erlParser)
          (rs, outs, { erlangApp with Deps := d }) =
        (rs ++ l.map (fun src => erlangBytecode k erlangApp src
            (fileSets erlangApp erlangConfig moduleindex src (erlParser src))),
          l.foldl (fun o src => o.Add (beamFile src)) outs,
          { erlangApp with
            Deps := runDeps erlangConfig moduleindex erlParser erlangApp.Name d l }) := by
  induction l with
  | nil => intro rs outs d; simp [runDeps]
  | cons src rest ih =>
    intro rs outs d
    simp only [List.foldl, List.map]
    rw [beamFilesStep_eq, ih]
    simp [runDeps]

theorem testBeamFilesLoop (erlangApp : ErlangApp) (l : List Str) :
    ∀ (rs : List Rule) (outs d : MutableSet),
      l.foldl (testBeamFilesStep k erlangConfig moduleindex erlParser)
          (rs, outs, { erlangApp with Deps := d }) =
        (rs ++ l.map (fun src => testErlangBytecode k erlangApp src
            (fileSets erlangApp erlangConfig moduleindex src (erlParser src))),
          l.foldl (fun o src => o.Add (testBeamFile src)) outs,
          { erlangApp with
            Deps := runDeps erlangConfig moduleindex erlParser erlangApp.Name d l }) := by
  induction l with
  | nil => intro rs outs d; simp [runDeps]
  | cons src rest ih =>
    intro rs outs d
    simp only [List.foldl, List.map]
    rw [testBeamFilesStep_eq, ih]
    simp [runDeps]

theorem testDirBeamFilesLoop (erlangApp : ErlangApp) (l : List Str) :
    ∀ (rs : List Rule) (outs : MutableSet),
      l.foldl (testDirBeamFilesStep k erlangConfig moduleindex erlParser)
          (rs, outs, erlangApp) =
        (rs ++ l.map (testDirDescriptor k erlangConfig moduleindex erlParser erlangApp),
          l.foldl (fun o src => o.Add (strings.TrimSuffix src ".erl".toList ++ ".beam".toList))
            outs,
          erlangApp) := by
  induction l with
  | nil => intro rs outs; simp
  | cons src rest ih =>
    intro rs outs
    simp only [List.foldl, List.map]
    have hstep : testDirBeamFilesStep k erlangConfig moduleindex erlParser
        (rs, outs, erlangApp) src =
        (rs ++ [testDirDescriptor k erlangConfig moduleindex erlParser erlangApp src],
          outs.Add (strings.TrimSuffix src ".erl".toList ++ ".beam".toList), erlangApp) := rfl
    rw [hstep, ih]
    simp

end loops

/-- The rules of `BeamFilesRules`: one descriptor per source file in sorted
order, then the `beam_files` group. -/
theorem BeamFilesRules_rules (erlangApp : ErlangApp) (k : Consts) (erlangConfig : ErlangConfig)
    (loaded : Option Moduleindex) (erlParser : Str → ErlAttrs) :
    (erlangApp.BeamFilesRules k erlangConfig loaded erlParser).1 =
      erlangApp.Srcs.Values.map (fun src => erlangBytecode k erlangApp src
        (fileSets erlangApp erlangConfig (moduleindexOr erlangApp loaded) src (erlParser src)))
      ++ [(NewRule "filegroup".toList "beam_files".toList).SetAttr "srcs"
        (AttrValue.strs (erlangApp.Srcs.Values.foldl (fun o src => o.Add (beamFile src))
          NewMutableSet).Values)] := by
  have h := beamFilesLoop k erlangConfig (moduleindexOr erlangApp loaded) erlParser erlangApp
    erlangApp.Srcs.Values [] NewMutableSet erlangApp.Deps
  unfold ErlangApp.BeamFilesRules
  simp only
  rw [show erlangApp = { erlangApp with Deps := erlangApp.Deps } from rfl, h]
  simp

/-- The application `BeamFilesRules` leaves: only `Deps` changes, by the
calls of the source files. -/
theorem BeamFilesRules_app (erlangApp : ErlangApp) (k : Consts) (erlangConfig : ErlangConfig)
    (loaded : Option Moduleindex) (erlParser : Str → ErlAttrs) :
    (erlangApp.BeamFilesRules k erlangConfig loaded erlParser).2 =
      { erlangApp with
        Deps := runDeps erlangConfig (moduleindexOr erlangApp loaded) erlParser erlangApp.Name
          erlangApp.Deps erlangApp.Srcs.Values } := by
  have h := beamFilesLoop k erlangConfig (moduleindexOr erlangApp loaded) erlParser erlangApp
    erlangApp.Srcs.Values [] NewMutableSet erlangApp.Deps
  unfold ErlangApp.BeamFilesRules
  simp only
  rw [show erlangApp = { erlangApp with Deps := erlangApp.Deps } from rfl, h]

theorem testBeamFilesRules_rules (erlangApp : ErlangApp) (k : Consts)
    (erlangConfig : ErlangConfig) (loaded : Option Moduleindex) (erlParser : Str → ErlAttrs) :
    (erlangApp.testBeamFilesRules k erlangConfig loaded erlParser).1 =
      erlangApp.Srcs.Values.map (fun src => testErlangBytecode k erlangApp src
        (fileSets erlangApp erlangConfig (moduleindexOr erlangApp loaded) src (erlParser src)))
      ++ [((NewRule "filegroup".toList "test_beam_files".toList).SetAttr "srcs"
        (AttrValue.strs (erlangApp.Srcs.Values.foldl (fun o src => o.Add (testBeamFile src))
          NewMutableSet).Values)).SetAttr "testonly" (AttrValue.bool true)] := by
  have h := testBeamFilesLoop k erlangConfig (moduleindexOr erlangApp loaded) erlParser erlangApp
    erlangApp.Srcs.Values [] NewMutableSet erlangApp.Deps
  unfold ErlangApp.testBeamFilesRules
  simp only
  rw [show erlangApp = { erlangApp with Deps := erlangApp.Deps } from rfl, h]
  simp

theorem testBeamFilesRules_app (erlangApp : ErlangApp) (k : Consts)
    (erlangConfig : ErlangConfig) (loaded : Option Moduleindex) (erlParser : Str → ErlAttrs) :
    (erlangApp.testBeamFilesRules k erlangConfig loaded erlParser).2 =
      { erlangApp with
        Deps := runDeps erlangConfig (moduleindexOr erlangApp loaded) erlParser erlangApp.Name
          erlangApp.Deps erlangApp.Srcs.Values } := by
  have h := testBeamFilesLoop k erlangConfig (moduleindexOr erlangApp loaded) erlParser erlangApp
    erlangApp.Srcs.Values [] NewMutableSet erlangApp.Deps
  unfold ErlangApp.testBeamFilesRules
  simp only
  rw [show erlangApp = { erlangApp with Deps := erlangApp.Deps } from rfl, h]

theorem TestDirBeamFilesRules_rules (erlangApp : ErlangApp) (k : Consts)
    (erlangConfig : ErlangConfig) (loaded : Option Moduleindex) (erlParser : Str → ErlAttrs) :
    (erlangApp.TestDirBeamFilesRules k erlangConfig loaded erlParser).1 =
      erlangApp.TestSrcs.Values.map
        (testDirDescriptor k erlangConfig (moduleindexOr erlangApp loaded) erlParser erlangApp) := by
  unfold ErlangApp.TestDirBeamFilesRules
  simp only
  rw [testDirBeamFilesLoop]
  simp

theorem TestDirBeamFilesRules_app (erlangApp : ErlangApp) (k : Consts)
    (erlangConfig : ErlangConfig) (loaded : Option Moduleindex) (erlParser : Str → ErlAttrs) :
    (erlangApp.TestDirBeamFilesRules k erlangConfig loaded erlParser).2 = erlangApp := by
  unfold ErlangApp.TestDirBeamFilesRules
  simp only
  rw [testDirBeamFilesLoop]

/-- The descriptor of `f` among rules that start with one rule `g src` per
member of `l`, each compiling exactly `src`, is `g f`. -/
theorem descriptorFor_map (g : Str → Rule) (l : List Str) (rest : List Rule) (f : Str)
    (hsrcs : ∀ src, (g src).AttrStrings "srcs" = [src])
    (houts : ∀ src, ((g src).Attr "outs").isSome = true) (hf : f ∈ l) :
    descriptorFor (l.map g ++ rest) f = some (g f) := by
  unfold descriptorFor
  induction l with
  | nil => simp at hf
  | cons a t ih =>
    simp only [List.map, List.cons_append]
    by_cases ha : a = f
    · subst ha
      simp [List.find?, hsrcs, houts]
    · have hft : f ∈ t := by
        rcases List.mem_cons.mp hf with h | h
        · exact absurd h.symm ha
        · exact h
      simp [List.find?, hsrcs, ha, ih hft]

/-! ## Plain-include resolution (C1) -/

/-- C1, as stated, fails: when the empty path is a classified header and the
reference is the empty string, `pathFor` returns the empty string although
the first candidate of the chain is classified. -/
theorem pathFor_empty_not_iff_unclassified :
    ¬ (emptyHdrApp.pathFor "src/a.erl".toList [] = [] ↔
        firstClassified emptyHdrApp "src/a.erl".toList [] = none) := by
  decide

/-- C1 (amended): `pathFor` returns the first classified candidate of the
ordered chain (the reference itself, the reference joined with the directory
of the including file, the reference under `src` as a private header, the
reference under `include` as a public header), the empty string when there
is none; and it returns the empty string exactly when no candidate is
classified or the reference is itself the empty string and classified. -/
theorem pathFor_first_classified (erlangApp : ErlangApp) (frm inc : Str) :
    erlangApp.pathFor frm inc = (firstClassified erlangApp frm inc).getD [] ∧
    (erlangApp.pathFor frm inc = [] ↔
      firstClassified erlangApp frm inc = none ∨
        (inc = [] ∧ (inc ∈ erlangApp.PrivateHdrs ∨ inc ∈ erlangApp.PublicHdrs))) := by
  have hd : filepath.Join [filepath.Dir frm, inc] ≠ [] :=
    filepath.Join_ne_nil _ _ (filepath.Dir_ne_nil frm)
  have hs : filepath.Join ["src".toList, inc] ≠ [] :=
    filepath.Join_ne_nil _ _ (by decide)
  have hi : filepath.Join ["include".toList, inc] ≠ [] :=
    filepath.Join_ne_nil _ _ (by decide)
  unfold ErlangApp.pathFor firstClassified includeCandidates
  simp only [Bool.or_eq_true, MutableSet.Contains_iff]
  generalize filepath.Join [filepath.Dir frm, inc] = d at hd ⊢
  generalize filepath.Join ["src".toList, inc] = p at hs ⊢
  generalize filepath.Join ["include".toList, inc] = q at hi ⊢
  by_cases h1 : inc ∈ erlangApp.PrivateHdrs ∨ inc ∈ erlangApp.PublicHdrs
  · simp [h1, List.find?]
  · by_cases h2 : d ∈ erlangApp.PrivateHdrs ∨ d ∈ erlangApp.PublicHdrs
    · simp [h1, h2, hd, List.find?]
    · by_cases h3 : p ∈ erlangApp.PrivateHdrs
      · simp [h1, h2, h3, hs, List.find?]
      · by_cases h4 : q ∈ erlangApp.PublicHdrs
        · simp [h1, h2, h3, h4, hi, List.find?]
        · simp [h1, h2, h3, h4, List.find?]

/-! ## Header sets (C2) -/

theorem foldl_invariant {σ α : Type} (f : σ → α → σ) (I : σ → Prop)
    (hstep : ∀ s a, I s → I (f s a)) : ∀ (l : List α) (s : σ), I s → I (l.foldl f s) := by
  intro l
  induction l with
  | nil => intro s hs; exact hs
  | cons a t ih => intro s hs; exact ih _ (hstep s a hs)

theorem AddFile_SuffixConvention (erlangApp : ErlangApp) (f : Str)
    (h : SuffixConvention erlangApp) : SuffixConvention (erlangApp.AddFile f) := by
  obtain ⟨h1, h2, h3, h4, h5⟩ := h
  unfold ErlangApp.AddFile
  repeat' split
  all_goals
    refine ⟨?_, ?_, ?_, ?_, ?_⟩ <;> intro x hx <;>
      first
        | exact h1 x hx
        | exact h2 x hx
        | exact h3 x hx
        | exact h4 x hx
        | exact h5 x hx
        | (rcases (MutableSet.mem_Add _ _ _).mp hx with hx' | hx'
           · first
              | exact h1 x hx'
              | exact h2 x hx'
              | exact h3 x hx'
              | exact h4 x hx'
              | exact h5 x hx'
           · subst hx'; assumption)

theorem BuiltByAddFile.suffixes {erlangApp : ErlangApp} (h : BuiltByAddFile erlangApp) :
    SuffixConvention erlangApp := by
  obtain ⟨repoRoot, rel, files, e1, e2, e3, e4, e5⟩ := h
  have hb : SuffixConvention (files.foldl ErlangApp.AddFile (NewErlangApp repoRoot rel)) := by
    apply foldl_invariant ErlangApp.AddFile SuffixConvention AddFile_SuffixConvention
    refine ⟨?_, ?_, ?_, ?_, ?_⟩ <;> intro x hx <;> simp [NewErlangApp, NewMutableSet] at hx
  unfold SuffixConvention
  rw [e1, e2, e3, e4, e5]
  exact hb

theorem erl_ne_hrl (x y : Str) (hx : strings.HasSuffix x ".erl".toList = true)
    (hy : strings.HasSuffix y ".hrl".toList = true) : y ≠ x := by
  intro hxy
  subst hxy
  unfold strings.HasSuffix at hx hy
  rw [List.isSuffixOf_iff_suffix] at hx hy
  have h1 : ".erl".toList <:+ ".hrl".toList :=
    List.suffix_of_suffix_length_le hx hy (by decide)
  have h2 := h1.eq_of_length (by decide)
  exact absurd h2 (by decide)

section hdrs

variable (erlangApp : ErlangApp) (erlangConfig : ErlangConfig) (moduleindex : Moduleindex)
  (src : Str)

theorem addInclude_hdrs (incs : List Str) (hdrs : MutableSet)
    (h : ∀ p ∈ hdrs, p ∈ erlangApp.PrivateHdrs ∨ p ∈ erlangApp.PublicHdrs) :
    ∀ p ∈ incs.foldl (addInclude erlangApp src) hdrs,
      p ∈ erlangApp.PrivateHdrs ∨ p ∈ erlangApp.PublicHdrs := by
  refine foldl_invariant (addInclude erlangApp src)
    (fun s => ∀ p ∈ s, p ∈ erlangApp.PrivateHdrs ∨ p ∈ erlangApp.PublicHdrs) ?_ incs hdrs h
  intro s a hs p hp
  unfold addInclude at hp
  simp only at hp
  split at hp
  · rcases (MutableSet.mem_Add _ _ _).mp hp with hp' | hp'
    · exact hs p hp'
    · subst hp'; exact pathFor_mem _ _ _ (by assumption)
  · exact hs p hp

theorem addIncludeLib_hdrs (incs : List Str) (st : MutableSet × MutableSet)
    (h : ∀ p ∈ st.1, p ∈ erlangApp.PrivateHdrs ∨ p ∈ erlangApp.PublicHdrs) :
    ∀ p ∈ (incs.foldl (addIncludeLib erlangApp erlangConfig src) st).1,
      p ∈ erlangApp.PrivateHdrs ∨ p ∈ erlangApp.PublicHdrs := by
  refine foldl_invariant (addIncludeLib erlangApp erlangConfig src)
    (fun s => ∀ p ∈ s.1, p ∈ erlangApp.PrivateHdrs ∨ p ∈ erlangApp.PublicHdrs) ?_ incs st h
  intro s a hs p hp
  unfold addIncludeLib at hp
  simp only at hp
  split at hp
  · rcases (MutableSet.mem_Add _ _ _).mp hp with hp' | hp'
    · exact hs p hp'
    · subst hp'; exact pathFor_mem _ _ _ (by assumption)
  · split at hp
    · exact hs p hp
    · split at hp
      · split at hp
        · rcases (MutableSet.mem_Add _ _ _).mp hp with hp' | hp'
          · exact hs p hp'
          · subst hp'; exact pathFor_mem _ _ _ (by assumption)
        · exact hs p hp
      · split at hp <;> exact hs p hp

theorem addTestInclude_hdrs (incs : List Str) (hdrs : MutableSet)
    (h : ∀ p ∈ hdrs, p ∈ erlangApp.PrivateHdrs ∨ p ∈ erlangApp.PublicHdrs ∨
      p ∈ erlangApp.TestHdrs) :
    ∀ p ∈ incs.foldl (addTestInclude erlangApp src) hdrs,
      p ∈ erlangApp.PrivateHdrs ∨ p ∈ erlangApp.PublicHdrs ∨ p ∈ erlangApp.TestHdrs := by
  refine foldl_invariant (addTestInclude erlangApp src)
    (fun s => ∀ p ∈ s, p ∈ erlangApp.PrivateHdrs ∨ p ∈ erlangApp.PublicHdrs ∨
      p ∈ erlangApp.TestHdrs) ?_ incs hdrs h
  intro s a hs p hp
  unfold addTestInclude at hp
  simp only at hp
  split at hp
  · rcases (MutableSet.mem_Add _ _ _).mp hp with hp' | hp'
    · exact hs p hp'
    · subst hp'; exact testPathFor_mem _ _ _ (by assumption)
  · exact hs p hp

theorem addTestIncludeLib_hdrs (incs : List Str) (st : MutableSet × MutableSet)
    (h : ∀ p ∈ st.1, p ∈ erlangApp.PrivateHdrs ∨ p ∈ erlangApp.PublicHdrs ∨
      p ∈ erlangApp.TestHdrs) :
    ∀ p ∈ (incs.foldl (addTestIncludeLib erlangApp erlangConfig src) st).1,
      p ∈ erlangApp.PrivateHdrs ∨ p ∈ erlangApp.PublicHdrs ∨ p ∈ erlangApp.TestHdrs := by
  refine foldl_invariant (addTestIncludeLib erlangApp erlangConfig src)
    (fun s => ∀ p ∈ s.1, p ∈ erlangApp.PrivateHdrs ∨ p ∈ erlangApp.PublicHdrs ∨
      p ∈ erlangApp.TestHdrs) ?_ incs st h
  intro s a hs p hp
  unfold addTestIncludeLib at hp
  simp only at hp
  split at hp
  · rcases (MutableSet.mem_Add _ _ _).mp hp with hp' | hp'
    · exact hs p hp'
    · subst hp'
      rcases pathFor_mem _ _ _ (by assumption) with h1 | h1
      · exact Or.inl h1
      · exact Or.inr (Or.inl h1)
  · split at hp
    · exact hs p hp
    · split at hp <;> exact hs p hp

/-- Every header `fileSets` resolves is a classified private or public
header. -/
theorem fileSets_hdrs (erlAttrs : ErlAttrs) :
    ∀ p ∈ (fileSets erlangApp erlangConfig moduleindex src erlAttrs).1,
      p ∈ erlangApp.PrivateHdrs ∨ p ∈ erlangApp.PublicHdrs := by
  unfold fileSets
  simp only
  apply addIncludeLib_hdrs
  apply addInclude_hdrs
  intro p hp
  simp [NewMutableSet] at hp

/-- Every header `testFileSets` resolves is a classified private, public or
test header. -/
theorem testFileSets_hdrs (erlAttrs : ErlAttrs) :
    ∀ p ∈ (testFileSets erlangApp erlangConfig moduleindex src erlAttrs).1,
      p ∈ erlangApp.PrivateHdrs ∨ p ∈ erlangApp.PublicHdrs ∨ p ∈ erlangApp.TestHdrs := by
  unfold testFileSets
  simp only
  apply addTestIncludeLib_hdrs
  apply addTestInclude_hdrs
  intro p hp
  simp [NewMutableSet] at hp

end hdrs

/-- The descriptor `BeamFilesRules` emits for a source file. -/
theorem descriptorFor_BeamFilesRules (erlangApp : ErlangApp) (k : Consts)
    (erlangConfig : ErlangConfig) (loaded : Option Moduleindex) (erlParser : Str → ErlAttrs)
    (f : Str) (hf : f ∈ erlangApp.Srcs) :
    descriptorFor (erlangApp.BeamFilesRules k erlangConfig loaded erlParser).1 f =
      some (erlangBytecode k erlangApp f
        (fileSets erlangApp erlangConfig (moduleindexOr erlangApp loaded) f (erlParser f))) := by
  rw [BeamFilesRules_rules]
  exact descriptorFor_map (fun src => erlangBytecode k erlangApp src
      (fileSets erlangApp erlangConfig (moduleindexOr erlangApp loaded) src (erlParser src)))
    _ _ f (fun src => erlangBytecode_srcs _ _ _ _)
    (fun src => by simp [erlangBytecode_outs])
    ((MutableSet.mem_Values _ _).mpr hf)

/-- The descriptor `testBeamFilesRules` emits for a source file. -/
theorem descriptorFor_testBeamFilesRules (erlangApp : ErlangApp) (k : Consts)
    (erlangConfig : ErlangConfig) (loaded : Option Moduleindex) (erlParser : Str → ErlAttrs)
    (f : Str) (hf : f ∈ erlangApp.Srcs) :
    descriptorFor (erlangApp.testBeamFilesRules k erlangConfig loaded erlParser).1 f =
      some (testErlangBytecode k erlangApp f
        (fileSets erlangApp erlangConfig (moduleindexOr erlangApp loaded) f (erlParser f))) := by
  rw [testBeamFilesRules_rules]
  exact descriptorFor_map (fun src => testErlangBytecode k erlangApp src
      (fileSets erlangApp erlangConfig (moduleindexOr erlangApp loaded) src (erlParser src)))
    _ _ f (fun src => testErlangBytecode_srcs _ _ _ _)
    (fun src => by simp [testErlangBytecode_outs])
    ((MutableSet.mem_Values _ _).mpr hf)

/-- The descriptor `TestDirBeamFilesRules` emits for a test-directory
file. -/
theorem descriptorFor_TestDirBeamFilesRules (erlangApp : ErlangApp) (k : Consts)
    (erlangConfig : ErlangConfig) (loaded : Option Moduleindex) (erlParser : Str → ErlAttrs)
    (f : Str) (hf : f ∈ erlangApp.TestSrcs) :
    descriptorFor (erlangApp.TestDirBeamFilesRules k erlangConfig loaded erlParser).1 f =
      some (testDirDescriptor k erlangConfig (moduleindexOr erlangApp loaded) erlParser
        erlangApp f) := by
  rw [TestDirBeamFilesRules_rules]
  have h := descriptorFor_map
    (testDirDescriptor k erlangConfig (moduleindexOr erlangApp loaded) erlParser erlangApp)
    erlangApp.TestSrcs.Values [] f (fun src => testDirErlangBytecode_srcs _ _ _ _ _)
    (fun src => by simp [testDirDescriptor, testDirErlangBytecode_outs])
    ((MutableSet.mem_Values _ _).mpr hf)
  simpa using h

/-- C2: for an application whose role sets were built by `AddFile`, every
path in the `hdrs` of the descriptor of a compiled file `f` is a classified
header of the application (private or public for `BeamFilesRules` and
`testBeamFilesRules`; private, public or test for `TestDirBeamFilesRules`)
and is not `f` itself. -/
theorem hdrs_declared_and_not_self (erlangApp : ErlangApp) (k : Consts)
    (erlangConfig : ErlangConfig) (loaded : Option Moduleindex) (erlParser : Str → ErlAttrs)
    (hbuilt : BuiltByAddFile erlangApp) :
    (∀ f ∈ erlangApp.Srcs, ∃ r,
      descriptorFor (erlangApp.BeamFilesRules k erlangConfig loaded erlParser).1 f = some r ∧
      ∀ p ∈ r.AttrStrings "hdrs",
        (p ∈ erlangApp.PrivateHdrs ∨ p ∈ erlangApp.PublicHdrs) ∧ p ≠ f) ∧
    (∀ f ∈ erlangApp.Srcs, ∃ r,
      descriptorFor (erlangApp.testBeamFilesRules k erlangConfig loaded erlParser).1 f = some r ∧
      ∀ p ∈ r.AttrStrings "hdrs",
        (p ∈ erlangApp.PrivateHdrs ∨ p ∈ erlangApp.PublicHdrs) ∧ p ≠ f) ∧
    (∀ f ∈ erlangApp.TestSrcs, ∃ r,
      descriptorFor (erlangApp.TestDirBeamFilesRules k erlangConfig loaded erlParser).1 f =
        some r ∧
      ∀ p ∈ r.AttrStrings "hdrs",
        (p ∈ erlangApp.PrivateHdrs ∨ p ∈ erlangApp.PublicHdrs ∨ p ∈ erlangApp.TestHdrs) ∧
          p ≠ f) := by
  obtain ⟨s1, s2, s3, s4, s5⟩ := hbuilt.suffixes
  refine ⟨?_, ?_, ?_⟩
  · intro f hf
    refine ⟨_, descriptorFor_BeamFilesRules erlangApp k erlangConfig loaded erlParser f hf, ?_⟩
    intro p hp
    rw [erlangBytecode_hdrs, MutableSet.mem_Values] at hp
    have hmem := fileSets_hdrs _ _ _ _ _ p hp
    refine ⟨hmem, ?_⟩
    rcases hmem with h | h
    · exact erl_ne_hrl f p (s1 f hf) (s3 p h)
    · exact erl_ne_hrl f p (s1 f hf) (s4 p h)
  · intro f hf
    refine ⟨_, descriptorFor_testBeamFilesRules erlangApp k erlangConfig loaded erlParser f hf,
      ?_⟩
    intro p hp
    rw [testErlangBytecode_hdrs, MutableSet.mem_Values] at hp
    have hmem := fileSets_hdrs _ _ _ _ _ p hp
    refine ⟨hmem, ?_⟩
    rcases hmem with h | h
    · exact erl_ne_hrl f p (s1 f hf) (s3 p h)
    · exact erl_ne_hrl f p (s1 f hf) (s4 p h)
  · intro f hf
    refine ⟨_, descriptorFor_TestDirBeamFilesRules erlangApp k erlangConfig loaded erlParser f
      hf, ?_⟩
    intro p hp
    rw [testDirDescriptor, testDirErlangBytecode_hdrs, MutableSet.mem_Values] at hp
    have hmem := testFileSets_hdrs _ _ _ _ _ p hp
    refine ⟨hmem, ?_⟩
    rcases hmem with h | h | h
    · exact erl_ne_hrl f p (s2 f hf) (s3 p h)
    · exact erl_ne_hrl f p (s2 f hf) (s4 p h)
    · exact erl_ne_hrl f p (s2 f hf) (s5 p h)

theorem sampleApp_built : BuiltByAddFile sampleApp :=
  ⟨[], [], _, rfl, rfl, rfl, rfl, rfl⟩

/-- Witness of C2 on `sampleApp`. -/
theorem hdrs_declared_and_not_self_witness :
    BuiltByAddFile sampleApp ∧
    ((∀ f ∈ sampleApp.Srcs, ∃ r,
      descriptorFor (sampleApp.BeamFilesRules sampleConsts ⟨[], []⟩ none
        (fun _ => ⟨[], ["foo.hrl".toList], [], [], []⟩)).1 f = some r ∧
      ∀ p ∈ r.AttrStrings "hdrs",
        (p ∈ sampleApp.PrivateHdrs ∨ p ∈ sampleApp.PublicHdrs) ∧ p ≠ f) ∧
    (∀ f ∈ sampleApp.Srcs, ∃ r,
      descriptorFor (sampleApp.testBeamFilesRules sampleConsts ⟨[], []⟩ none
        (fun _ => ⟨[], ["foo.hrl".toList], [], [], []⟩)).1 f = some r ∧
      ∀ p ∈ r.AttrStrings "hdrs",
        (p ∈ sampleApp.PrivateHdrs ∨ p ∈ sampleApp.PublicHdrs) ∧ p ≠ f) ∧
    (∀ f ∈ sampleApp.TestSrcs, ∃ r,
      descriptorFor (sampleApp.TestDirBeamFilesRules sampleConsts ⟨[], []⟩ none
        (fun _ => ⟨[], ["foo.hrl".toList], [], [], []⟩)).1 f = some r ∧
      ∀ p ∈ r.AttrStrings "hdrs",
        (p ∈ sampleApp.PrivateHdrs ∨ p ∈ sampleApp.PublicHdrs ∨ p ∈ sampleApp.TestHdrs) ∧
          p ≠ f)) :=
  ⟨sampleApp_built,
    hdrs_declared_and_not_self sampleApp sampleConsts ⟨[], []⟩ none
      (fun _ => ⟨[], ["foo.hrl".toList], [], [], []⟩) sampleApp_built⟩

/-! ## Generic facts about the loops -/

/-- A property that every step preserves and that the step at `a0`
establishes holds after a loop over a list containing `a0`. -/
theorem foldl_reaches {σ α : Type} (f : σ → α → σ) (P : σ → Prop)
    (hmono : ∀ s a, P s → P (f s a)) (a0 : α) (hit : ∀ s, P (f s a0)) :
    ∀ (l : List α), a0 ∈ l → ∀ s, P (l.foldl f s) := by
  intro l
  induction l with
  | nil => intro h; simp at h
  | cons a t ih =>
    intro h s
    simp only [List.foldl]
    rcases List.mem_cons.mp h with h' | h'
    · subst h'
      exact foldl_invariant f P hmono t _ (hit s)
    · exact ih h' _

/-- The second component of a loop on pairs whose steps compute it from the
second component alone. -/
theorem foldl_snd {α β γ : Type} (f : α × β → γ → α × β) (a0 : α)
    (h : ∀ st c, (f st c).2 = (f (a0, st.2) c).2) :
    ∀ (l : List γ) (st : α × β),
      (l.foldl f st).2 = l.foldl (fun d c => (f (a0, d) c).2) st.2 := by
  intro l
  induction l with
  | nil => intro st; rfl
  | cons c t ih =>
    intro st
    simp only [List.foldl]
    rw [ih, h]

/-- The first component of a loop on pairs whose steps compute it from the
first component alone. -/
theorem foldl_fst {α β γ : Type} (f : α × β → γ → α × β) (b0 : β)
    (h : ∀ st c, (f st c).1 = (f (st.1, b0) c).1) :
    ∀ (l : List γ) (st : α × β),
      (l.foldl f st).1 = l.foldl (fun d c => (f (d, b0) c).1) st.1 := by
  intro l
  induction l with
  | nil => intro st; rfl
  | cons c t ih =>
    intro st
    simp only [List.foldl]
    rw [ih, h]

/-- Elements whose step changes nothing can be left out of a loop. -/
theorem foldl_filter_noop {σ α : Type} (f : σ → α → σ) (keep : α → Bool)
    (h : ∀ s a, keep a = false → f s a = s) :
    ∀ (l : List α) (s : σ), l.foldl f s = (l.filter keep).foldl f s := by
  intro l
  induction l with
  | nil => intro s; rfl
  | cons a t ih =>
    intro s
    cases hk : keep a with
    | true => simp only [List.foldl, List.filter, hk]; exact ih _
    | false => simp only [List.foldl, List.filter, hk]; rw [h s a hk]; exact ih _

/-- The first match of a scan is the only element with the property. -/
theorem find?_unique {α : Type} (p : α → Bool) (g : α) :
    ∀ (l : List α), g ∈ l → p g = true → (∀ x ∈ l, p x = true → x = g) →
      l.find? p = some g := by
  intro l
  induction l with
  | nil => intro h; simp at h
  | cons a t ih =>
    intro hg hp huniq
    by_cases ha : p a = true
    · have : a = g := huniq a (List.mem_cons_self _ _) ha
      subst this
      simp [List.find?, ha]
    · have hgt : g ∈ t := by
        rcases List.mem_cons.mp hg with h | h
        · subst h; exact absurd hp ha
        · exact h
      have hfalse : p a = false := by simpa using ha
      simp only [List.find?, hfalse]
      exact ih hgt hp (fun x hx hpx => huniq x (List.mem_cons_of_mem _ hx) hpx)

theorem strings.Split_append_sep (n rest : Str) (sep : Char) (h : sep ∉ n) :
    strings.Split (n ++ sep :: rest) sep = n :: strings.Split rest sep := by
  induction n with
  | nil => simp [strings.Split]
  | cons c cs ih =>
    have hc : c ≠ sep := fun e => h (by simp [e])
    have hcs : sep ∉ cs := fun e => h (List.mem_cons_of_mem _ e)
    have e : strings.Split (c :: (cs ++ sep :: rest)) sep =
        (match strings.Split (cs ++ sep :: rest) sep with
          | [] => [[c]]
          | p :: ps => (c :: p) :: ps) := by
      simp [strings.Split, hc]
    rw [List.cons_append, e, ih hcs]

/-! ## Library-qualified self-reference (C3) -/

section includeLib

variable (erlangApp : ErlangApp) (erlangConfig : ErlangConfig) (moduleindex : Moduleindex)
  (src : Str)

theorem addIncludeLib_snd (st : MutableSet × MutableSet) (inc : Str) :
    (addIncludeLib erlangApp erlangConfig src st inc).2 =
      (addIncludeLib erlangApp erlangConfig src (([] : MutableSet), st.2) inc).2 := by
  unfold addIncludeLib
  simp only
  repeat' split
  all_goals rfl

theorem addIncludeLib_mono_fst (x : Str) (st : MutableSet × MutableSet) (inc : Str)
    (h : x ∈ st.1) : x ∈ (addIncludeLib erlangApp erlangConfig src st inc).1 := by
  unfold addIncludeLib
  simp only
  repeat' split
  all_goals first | exact h | exact (MutableSet.mem_Add _ _ _).mpr (Or.inl h)

theorem addModule_snd (st : MutableSet × MutableSet) (mod : Str) :
    (addModule erlangApp erlangConfig moduleindex st mod).2 =
      (addModule erlangApp erlangConfig moduleindex (([] : MutableSet), st.2) mod).2 := by
  unfold addModule
  simp only
  repeat' split
  all_goals rfl

theorem addModule_fst (st : MutableSet × MutableSet) (mod : Str) :
    (addModule erlangApp erlangConfig moduleindex st mod).1 =
      (addModule erlangApp erlangConfig moduleindex (st.1, ([] : MutableSet)) mod).1 := by
  unfold addModule
  simp only
  repeat' split
  all_goals rfl

/-- The step of the self-reference: when the plain chain does not resolve
the qualified reference and the application's name holds no separator, the
residual `include/foo.hrl` is resolved and recorded as a header, and the
dependency set is left as it was. -/
theorem addIncludeLib_selfRef (hname : '/' ∉ erlangApp.Name)
    (hpub : fooHrl ∈ erlangApp.PublicHdrs)
    (hplain : erlangApp.pathFor src (selfRef erlangApp.Name) = [])
    (st : MutableSet × MutableSet) :
    addIncludeLib erlangApp erlangConfig src st (selfRef erlangApp.Name) =
      (st.1.Add fooHrl, st.2) := by
  have hsplit : strings.Split (selfRef erlangApp.Name) '/' =
      erlangApp.Name :: ["include".toList, "foo.hrl".toList] := by
    unfold selfRef
    rw [strings.Split_append_sep _ _ _ hname]
    rfl
  have hjoin : strings.Join ["include".toList, "foo.hrl".toList] ['/'] = fooHrl := by decide
  have hres : erlangApp.pathFor src fooHrl = fooHrl := by
    unfold ErlangApp.pathFor
    simp [MutableSet.Contains, hpub]
  have hne : fooHrl ≠ [] := by decide
  unfold addIncludeLib
  simp only [hplain, hsplit, hjoin, hres]
  simp [hne]

end includeLib

/-- The dependency set `fileSets` resolves does not change when a
library-qualified reference whose step leaves the set alone is removed from
the fact record. -/
theorem fileSets_deps_dropIncludeLib (erlangApp : ErlangApp) (erlangConfig : ErlangConfig)
    (moduleindex : Moduleindex) (src ref : Str) (erlAttrs : ErlAttrs)
    (hstep : ∀ st, (addIncludeLib erlangApp erlangConfig src st ref).2 = st.2) :
    (fileSets erlangApp erlangConfig moduleindex src erlAttrs).2.2 =
      (fileSets erlangApp erlangConfig moduleindex src
        { erlAttrs with
          IncludeLib := erlAttrs.IncludeLib.filter (fun i => decide (i ≠ ref)) }).2.2 := by
  unfold fileSets
  simp only
  have e : ∀ (l : List Str) (st : MutableSet × MutableSet),
      (l.foldl (addIncludeLib erlangApp erlangConfig src) st).2 =
        ((l.filter (fun i => decide (i ≠ ref))).foldl
          (addIncludeLib erlangApp erlangConfig src) st).2 := by
    intro l st
    rw [foldl_snd _ [] (addIncludeLib_snd erlangApp erlangConfig src),
      foldl_snd _ [] (addIncludeLib_snd erlangApp erlangConfig src)]
    apply foldl_filter_noop
    intro d a ha
    have : a = ref := by simpa using ha
    subst this
    exact hstep _
  rw [e]
  rfl

/-- C3, as stated, fails: in `shadowApp`, named `myapp` and with
`include/foo.hrl` a public header, the plain chain resolves the reference
`myapp/include/foo.hrl` to the private header `src/myapp/include/foo.hrl`,
and `include/foo.hrl` is not in the header set of the file. -/
theorem selfRef_shadowed :
    fooHrl ∈ shadowApp.PublicHdrs ∧
    ∃ r, descriptorFor (shadowApp.BeamFilesRules sampleConsts ⟨[], []⟩ none selfRefParser).1
        "src/a.erl".toList = some r ∧
      fooHrl ∉ r.AttrStrings "hdrs" := by
  refine ⟨by decide, _, descriptorFor_BeamFilesRules _ _ _ _ _ _ (by decide), ?_⟩
  rw [erlangBytecode_hdrs]
  decide

/-- C3 (amended): in an application named `N`, with no separator in `N`,
that has `include/foo.hrl` classified as a public header, a
library-qualified reference `N/include/foo.hrl` of a source file that the
plain chain does not resolve verbatim puts `include/foo.hrl` in the `hdrs`
of the file's descriptor, and the `deps` of the descriptor are those of the
run without the reference: it adds no cross-application dependency.  This
holds for `BeamFilesRules` and `testBeamFilesRules`. -/
theorem self_include_lib (erlangApp : ErlangApp) (k : Consts) (erlangConfig : ErlangConfig)
    (loaded : Option Moduleindex) (erlParser : Str → ErlAttrs) (f : Str)
    (hname : '/' ∉ erlangApp.Name) (hpub : fooHrl ∈ erlangApp.PublicHdrs)
    (hf : f ∈ erlangApp.Srcs) (href : selfRef erlangApp.Name ∈ (erlParser f).IncludeLib)
    (hplain : erlangApp.pathFor f (selfRef erlangApp.Name) = []) :
    (∃ r r',
      descriptorFor (erlangApp.BeamFilesRules k erlangConfig loaded erlParser).1 f = some r ∧
      descriptorFor (erlangApp.BeamFilesRules k erlangConfig loaded
        (dropIncludeLib erlParser (selfRef erlangApp.Name))).1 f = some r' ∧
      fooHrl ∈ r.AttrStrings "hdrs" ∧ r.AttrStrings "deps" = r'.AttrStrings "deps") ∧
    (∃ r r',
      descriptorFor (erlangApp.testBeamFilesRules k erlangConfig loaded erlParser).1 f =
        some r ∧
      descriptorFor (erlangApp.testBeamFilesRules k erlangConfig loaded
        (dropIncludeLib erlParser (selfRef erlangApp.Name))).1 f = some r' ∧
      fooHrl ∈ r.AttrStrings "hdrs" ∧ r.AttrStrings "deps" = r'.AttrStrings "deps") := by
  have hstep := addIncludeLib_selfRef erlangApp erlangConfig f hname hpub hplain
  have hhdr : fooHrl ∈ (fileSets erlangApp erlangConfig (moduleindexOr erlangApp loaded) f
      (erlParser f)).1 := by
    unfold fileSets
    simp only
    refine foldl_reaches (addIncludeLib erlangApp erlangConfig f) (fun st => fooHrl ∈ st.1)
      (fun s a h => addIncludeLib_mono_fst erlangApp erlangConfig f fooHrl s a h)
      (selfRef erlangApp.Name) ?_ _ href _
    intro s
    rw [hstep]
    exact (MutableSet.mem_Add _ _ _).mpr (Or.inr rfl)
  have hdeps := fileSets_deps_dropIncludeLib erlangApp erlangConfig
    (moduleindexOr erlangApp loaded) f (selfRef erlangApp.Name) (erlParser f)
    (fun st => by rw [hstep])
  refine ⟨⟨_, _, descriptorFor_BeamFilesRules erlangApp k erlangConfig loaded erlParser f hf,
    descriptorFor_BeamFilesRules erlangApp k erlangConfig loaded _ f hf, ?_, ?_⟩,
    ⟨_, _, descriptorFor_testBeamFilesRules erlangApp k erlangConfig loaded erlParser f hf,
    descriptorFor_testBeamFilesRules erlangApp k erlangConfig loaded _ f hf, ?_, ?_⟩⟩
  · rw [erlangBytecode_hdrs, MutableSet.mem_Values]; exact hhdr
  · rw [erlangBytecode_deps, erlangBytecode_deps, hdeps]; rfl
  · rw [testErlangBytecode_hdrs, MutableSet.mem_Values]; exact hhdr
  · rw [testErlangBytecode_deps, testErlangBytecode_deps, hdeps]; rfl

/-- Witness of C3 (amended) on `sampleApp`, named `myapp`, and the file
`src/a.erl`. -/
theorem self_include_lib_witness :
    '/' ∉ sampleApp.Name ∧ fooHrl ∈ sampleApp.PublicHdrs ∧
    "src/a.erl".toList ∈ sampleApp.Srcs ∧
    selfRef sampleApp.Name ∈ (selfRefParser "src/a.erl".toList).IncludeLib ∧
    sampleApp.pathFor "src/a.erl".toList (selfRef sampleApp.Name) = [] ∧
    ((∃ r r',
      descriptorFor (sampleApp.BeamFilesRules sampleConsts ⟨[], []⟩ none selfRefParser).1
        "src/a.erl".toList = some r ∧
      descriptorFor (sampleApp.BeamFilesRules sampleConsts ⟨[], []⟩ none
        (dropIncludeLib selfRefParser (selfRef sampleApp.Name))).1 "src/a.erl".toList =
          some r' ∧
      fooHrl ∈ r.AttrStrings "hdrs" ∧ r.AttrStrings "deps" = r'.AttrStrings "deps") ∧
    (∃ r r',
      descriptorFor (sampleApp.testBeamFilesRules sampleConsts ⟨[], []⟩ none selfRefParser).1
        "src/a.erl".toList = some r ∧
      descriptorFor (sampleApp.testBeamFilesRules sampleConsts ⟨[], []⟩ none
        (dropIncludeLib selfRefParser (selfRef sampleApp.Name))).1 "src/a.erl".toList =
          some r' ∧
      fooHrl ∈ r.AttrStrings "hdrs" ∧ r.AttrStrings "deps" = r'.AttrStrings "deps")) :=
  ⟨by decide, by decide, by decide, by decide, by decide,
    self_include_lib sampleApp sampleConsts ⟨[], []⟩ none selfRefParser "src/a.erl".toList
      (by decide) (by decide) (by decide) (by decide) (by decide)⟩

/-! ## Referenced modules resolved to sibling artifacts (C4) -/

section modules

variable (erlangApp : ErlangApp) (erlangConfig : ErlangConfig) (moduleindex : Moduleindex)

theorem addModule_mono_fst (x : Str) (st : MutableSet × MutableSet) (mod : Str)
    (h : x ∈ st.1) : x ∈ (addModule erlangApp erlangConfig moduleindex st mod).1 := by
  unfold addModule
  simp only
  repeat' split
  all_goals first | exact h | exact (MutableSet.mem_Add _ _ _).mpr (Or.inl h)

/-- The scan of the sorted sources finds the one source that defines the
module. -/
theorem find_sibling (g m : Str) (hg : g ∈ erlangApp.Srcs) (hgm : moduleName g = m)
    (huniq : ∀ g' ∈ erlangApp.Srcs, moduleName g' = m → g' = g) :
    erlangApp.Srcs.Values.find? (fun other_src => decide (moduleName other_src = m)) =
      some g := by
  apply find?_unique
  · exact (MutableSet.mem_Values _ _).mpr hg
  · simpa using hgm
  · intro x hx hpx
    exact huniq x ((MutableSet.mem_Values _ _).mp hx) (by simpa using hpx)

/-- The step of a referenced module that a source `g` of the application
defines: the artifact of `g` is recorded, the dependency set stays. -/
theorem addModule_sibling (g m : Str) (hg : g ∈ erlangApp.Srcs) (hgm : moduleName g = m)
    (huniq : ∀ g' ∈ erlangApp.Srcs, moduleName g' = m → g' = g)
    (st : MutableSet × MutableSet) :
    addModule erlangApp erlangConfig moduleindex st m = (st.1.Add (beamFile g), st.2) := by
  unfold addModule
  rw [find_sibling erlangApp g m hg hgm huniq]

/-- Removing a module whose step leaves the dependency set alone from the
referenced modules does not change the dependency set. -/
theorem modules_deps_filter (m : Str)
    (hstep : ∀ st, (addModule erlangApp erlangConfig moduleindex st m).2 = st.2)
    (l : List Str) (st : MutableSet × MutableSet) :
    (l.foldl (addModule erlangApp erlangConfig moduleindex) st).2 =
      ((l.filter (fun x => decide (x ≠ m))).foldl
        (addModule erlangApp erlangConfig moduleindex) st).2 := by
  rw [foldl_snd _ [] (addModule_snd erlangApp erlangConfig moduleindex),
    foldl_snd _ [] (addModule_snd erlangApp erlangConfig moduleindex)]
  apply foldl_filter_noop
  intro d a ha
  have : a = m := by simpa using ha
  subst this
  exact hstep _

theorem fileSets_deps_dropModule (src m : Str) (erlParser : Str → ErlAttrs)
    (hstep : ∀ st, (addModule erlangApp erlangConfig moduleindex st m).2 = st.2) :
    (fileSets erlangApp erlangConfig moduleindex src (erlParser src)).2.2 =
      (fileSets erlangApp erlangConfig moduleindex src (dropModule erlParser m src)).2.2 := by
  unfold fileSets
  simp only
  rw [modules_deps_filter erlangApp erlangConfig moduleindex m hstep]
  simp [ErlAttrs.modules, dropModule, List.filter_append]

theorem testFileSets_deps_dropModule (src m : Str) (erlParser : Str → ErlAttrs)
    (hstep : ∀ st, (addModule erlangApp erlangConfig moduleindex st m).2 = st.2) :
    (testFileSets erlangApp erlangConfig moduleindex src (erlParser src)).2.2 =
      (testFileSets erlangApp erlangConfig moduleindex src (dropModule erlParser m src)).2.2 := by
  unfold testFileSets
  simp only
  rw [modules_deps_filter erlangApp erlangConfig moduleindex m hstep]
  simp [ErlAttrs.modules, dropModule, List.filter_append]

/-- The artifact of the defining source is in the sibling set of a file
that references the module. -/
theorem modules_beam_mem (g m : Str) (hg : g ∈ erlangApp.Srcs) (hgm : moduleName g = m)
    (huniq : ∀ g' ∈ erlangApp.Srcs, moduleName g' = m → g' = g)
    (l : List Str) (hm : m ∈ l) (st : MutableSet × MutableSet) :
    beamFile g ∈ (l.foldl (addModule erlangApp erlangConfig moduleindex) st).1 := by
  refine foldl_reaches (addModule erlangApp erlangConfig moduleindex)
    (fun st => beamFile g ∈ st.1)
    (fun s a h => addModule_mono_fst erlangApp erlangConfig moduleindex _ s a h) m ?_ l hm st
  intro s
  rw [addModule_sibling erlangApp erlangConfig moduleindex g m hg hgm huniq]
  exact (MutableSet.mem_Add _ _ _).mpr (Or.inr rfl)

end modules

/-- C4: when exactly one source `g` of the application defines module `m`,
the descriptor of every source file `f` that references `m` (in
`BeamFilesRules` and in `testBeamFilesRules`) and of every test-directory
file `t` that references `m` (in `TestDirBeamFilesRules`) lists `beamFile g`
in its `beam`, and its `deps` are those of the run without the reference to
`m`, for every module mapping and every module index.  (The statement does
not need `f` to differ from `g`.) -/
theorem sibling_module_reference (erlangApp : ErlangApp) (k : Consts)
    (erlangConfig : ErlangConfig) (loaded : Option Moduleindex) (erlParser : Str → ErlAttrs)
    (g m : Str) (hg : g ∈ erlangApp.Srcs) (hgm : moduleName g = m)
    (huniq : ∀ g' ∈ erlangApp.Srcs, moduleName g' = m → g' = g) :
    (∀ f ∈ erlangApp.Srcs, m ∈ (erlParser f).modules → ∃ r r',
      descriptorFor (erlangApp.BeamFilesRules k erlangConfig loaded erlParser).1 f = some r ∧
      descriptorFor (erlangApp.BeamFilesRules k erlangConfig loaded
        (dropModule erlParser m)).1 f = some r' ∧
      beamFile g ∈ r.AttrStrings "beam" ∧ r.AttrStrings "deps" = r'.AttrStrings "deps") ∧
    (∀ f ∈ erlangApp.Srcs, m ∈ (erlParser f).modules → ∃ r r',
      descriptorFor (erlangApp.testBeamFilesRules k erlangConfig loaded erlParser).1 f =
        some r ∧
      descriptorFor (erlangApp.testBeamFilesRules k erlangConfig loaded
        (dropModule erlParser m)).1 f = some r' ∧
      beamFile g ∈ r.AttrStrings "beam" ∧ r.AttrStrings "deps" = r'.AttrStrings "deps") ∧
    (∀ t ∈ erlangApp.TestSrcs, m ∈ (erlParser t).modules → ∃ r r',
      descriptorFor (erlangApp.TestDirBeamFilesRules k erlangConfig loaded erlParser).1 t =
        some r ∧
      descriptorFor (erlangApp.TestDirBeamFilesRules k erlangConfig loaded
        (dropModule erlParser m)).1 t = some r' ∧
      beamFile g ∈ r.AttrStrings "beam" ∧ r.AttrStrings "deps" = r'.AttrStrings "deps") := by
  have hstep : ∀ st, (addModule erlangApp erlangConfig (moduleindexOr erlangApp loaded) st m).2
      = st.2 := by
    intro st
    rw [addModule_sibling erlangApp erlangConfig _ g m hg hgm huniq]
  have hbeamf : ∀ f, m ∈ (erlParser f).modules →
      beamFile g ∈ (fileSets erlangApp erlangConfig (moduleindexOr erlangApp loaded)
        f (erlParser f)).2.1 := by
    intro f hfm
    unfold fileSets
    exact modules_beam_mem erlangApp erlangConfig _ g m hg hgm huniq _ hfm _
  have hbeamt : ∀ t, m ∈ (erlParser t).modules →
      beamFile g ∈ (testFileSets erlangApp erlangConfig
        (moduleindexOr erlangApp loaded) t (erlParser t)).2.1 := by
    intro t htm
    unfold testFileSets
    exact modules_beam_mem erlangApp erlangConfig _ g m hg hgm huniq _ htm _
  have hdepsf := fun f => fileSets_deps_dropModule erlangApp erlangConfig
    (moduleindexOr erlangApp loaded) f m erlParser hstep
  have hdepst := fun t => testFileSets_deps_dropModule erlangApp erlangConfig
    (moduleindexOr erlangApp loaded) t m erlParser hstep
  refine ⟨?_, ?_, ?_⟩
  · intro f hf hfm
    refine ⟨_, _, descriptorFor_BeamFilesRules erlangApp k erlangConfig loaded erlParser f hf,
      descriptorFor_BeamFilesRules erlangApp k erlangConfig loaded _ f hf, ?_, ?_⟩
    · rw [erlangBytecode_beam, MutableSet.mem_Values]; exact hbeamf f hfm
    · rw [erlangBytecode_deps, erlangBytecode_deps, hdepsf f]
  · intro f hf hfm
    refine ⟨_, _, descriptorFor_testBeamFilesRules erlangApp k erlangConfig loaded erlParser f
      hf, descriptorFor_testBeamFilesRules erlangApp k erlangConfig loaded _ f hf, ?_, ?_⟩
    · rw [testErlangBytecode_beam, MutableSet.mem_Values]; exact hbeamf f hfm
    · rw [testErlangBytecode_deps, testErlangBytecode_deps, hdepsf f]
  · intro t ht htm
    refine ⟨_, _, descriptorFor_TestDirBeamFilesRules erlangApp k erlangConfig loaded erlParser
      t ht, descriptorFor_TestDirBeamFilesRules erlangApp k erlangConfig loaded _ t ht, ?_, ?_⟩
    · rw [testDirDescriptor, testDirErlangBytecode_beam, MutableSet.mem_Values]
      exact hbeamt t htm
    · rw [testDirDescriptor, testDirDescriptor, testDirErlangBytecode_deps,
        testDirErlangBytecode_deps, hdepst t]

/-- Witness of C4 on `sampleApp`: `src/b.erl` is the one source defining
`b`, which `src/a.erl` and `test/x_SUITE.erl` declare as behaviour. -/
theorem sibling_module_reference_witness :
    "src/b.erl".toList ∈ sampleApp.Srcs ∧ moduleName "src/b.erl".toList = "b".toList ∧
    (∀ g' ∈ sampleApp.Srcs, moduleName g' = "b".toList → g' = "src/b.erl".toList) ∧
    "src/a.erl".toList ∈ sampleApp.Srcs ∧
    "b".toList ∈ (behaviourParser "src/a.erl".toList).modules ∧
    "test/x_SUITE.erl".toList ∈ sampleApp.TestSrcs ∧
    "b".toList ∈ (behaviourParser "test/x_SUITE.erl".toList).modules ∧
    ((∀ f ∈ sampleApp.Srcs, "b".toList ∈ (behaviourParser f).modules → ∃ r r',
      descriptorFor (sampleApp.BeamFilesRules sampleConsts ⟨[], []⟩ none behaviourParser).1
        f = some r ∧
      descriptorFor (sampleApp.BeamFilesRules sampleConsts ⟨[], []⟩ none
        (dropModule behaviourParser "b".toList)).1 f = some r' ∧
      beamFile "src/b.erl".toList ∈ r.AttrStrings "beam" ∧
      r.AttrStrings "deps" = r'.AttrStrings "deps") ∧
    (∀ f ∈ sampleApp.Srcs, "b".toList ∈ (behaviourParser f).modules → ∃ r r',
      descriptorFor (sampleApp.testBeamFilesRules sampleConsts ⟨[], []⟩ none
        behaviourParser).1 f = some r ∧
      descriptorFor (sampleApp.testBeamFilesRules sampleConsts ⟨[], []⟩ none
        (dropModule behaviourParser "b".toList)).1 f = some r' ∧
      beamFile "src/b.erl".toList ∈ r.AttrStrings "beam" ∧
      r.AttrStrings "deps" = r'.AttrStrings "deps") ∧
    (∀ t ∈ sampleApp.TestSrcs, "b".toList ∈ (behaviourParser t).modules → ∃ r r',
      descriptorFor (sampleApp.TestDirBeamFilesRules sampleConsts ⟨[], []⟩ none
        behaviourParser).1 t = some r ∧
      descriptorFor (sampleApp.TestDirBeamFilesRules sampleConsts ⟨[], []⟩ none
        (dropModule behaviourParser "b".toList)).1 t = some r' ∧
      beamFile "src/b.erl".toList ∈ r.AttrStrings "beam" ∧
      r.AttrStrings "deps" = r'.AttrStrings "deps")) :=
  ⟨by decide, by decide, by decide, by decide, by decide, by decide, by decide,
    sibling_module_reference sampleApp sampleConsts ⟨[], []⟩ none behaviourParser
      "src/b.erl".toList "b".toList (by decide) (by decide) (by decide)⟩

/-! ## The example of a call to a sibling module (C5) -/

/-- C5, as stated, fails: in the application with sources `src/a.erl` and
`src/b.erl`, where `src/a.erl` calls `b`, the descriptor of `src/a.erl` does
not list `ebin/b.beam` in its `beam`: the loop over the calls records
nothing in the descriptor. -/
theorem call_is_no_sibling_dependency :
    ∃ r, descriptorFor ((abApp "myapp".toList).BeamFilesRules sampleConsts ⟨[], []⟩ none
        abParser).1 "src/a.erl".toList = some r ∧
      "ebin/b.beam".toList ∉ r.AttrStrings "beam" := by
  refine ⟨_, descriptorFor_BeamFilesRules _ _ _ _ _ _ (by decide), ?_⟩
  rw [erlangBytecode_beam]
  decide

/-- C5 (amended): in the application with sources `src/a.erl` and
`src/b.erl`, when the fact record of `src/a.erl` calls `b` and holds no
library-qualified include and no behaviour or parse-transform reference,
the descriptor `BeamFilesRules` produces for `src/a.erl` lists no sibling
dependency (the call does not put `ebin/b.beam` in `beam`) and no
cross-application dependency, whatever the configuration and the index. -/
theorem call_adds_nothing_to_descriptor (name : Str) (k : Consts)
    (erlangConfig : ErlangConfig) (loaded : Option Moduleindex) (erlParser : Str → ErlAttrs)
    (_hcall : "b".toList ∈ (erlParser "src/a.erl".toList).Call)
    (hlib : (erlParser "src/a.erl".toList).IncludeLib = [])
    (hmods : (erlParser "src/a.erl".toList).modules = []) :
    ∃ r, descriptorFor ((abApp name).BeamFilesRules k erlangConfig loaded erlParser).1
        "src/a.erl".toList = some r ∧
      r.AttrStrings "beam" = [] ∧ r.AttrStrings "deps" = [] := by
  have hsrc : "src/a.erl".toList ∈ (abApp name).Srcs := by
    show "src/a.erl".toList ∈ (abApp []).Srcs
    decide
  refine ⟨_, descriptorFor_BeamFilesRules _ _ _ _ _ _ hsrc, ?_, ?_⟩
  · rw [erlangBytecode_beam]
    unfold fileSets
    simp only [hlib, hmods, List.foldl]
    rfl
  · rw [erlangBytecode_deps]
    unfold fileSets
    simp only [hlib, hmods, List.foldl]
    rfl

/-- Witness of C5 (amended) for the application named `myapp`. -/
theorem call_adds_nothing_to_descriptor_witness :
    "b".toList ∈ (abParser "src/a.erl".toList).Call ∧
    (abParser "src/a.erl".toList).IncludeLib = [] ∧
    (abParser "src/a.erl".toList).modules = [] ∧
    ∃ r, descriptorFor ((abApp "myapp".toList).BeamFilesRules sampleConsts ⟨[], []⟩ none
        abParser).1 "src/a.erl".toList = some r ∧
      r.AttrStrings "beam" = [] ∧ r.AttrStrings "deps" = [] :=
  ⟨by decide, rfl, rfl,
    call_adds_nothing_to_descriptor "myapp".toList sampleConsts ⟨[], []⟩ none abParser
      (by decide) rfl rfl⟩

/-! ## Calls (C6, C7, C8) -/

section calls

variable (erlangConfig : ErlangConfig) (moduleindex : Moduleindex)

theorem callDeps_mono (name x : Str) (d : MutableSet) (mod : Str) (h : x ∈ d) :
    x ∈ callDeps erlangConfig moduleindex name d mod := by
  unfold callDeps
  simp only
  split
  · exact (MutableSet.mem_Add _ _ _).mpr (Or.inl h)
  · exact h

theorem foldl_callDeps_mono (name x : Str) (calls : List Str) (d : MutableSet) (h : x ∈ d) :
    x ∈ calls.foldl (callDeps erlangConfig moduleindex name) d :=
  foldl_invariant (callDeps erlangConfig moduleindex name) (fun d => x ∈ d)
    (fun s a hs => callDeps_mono erlangConfig moduleindex name x s a hs) calls d h

/-- A call whose owner is the application itself, or an ignored
application, leaves the dependency set as it is. -/
theorem callDeps_noop (name : Str) (d : MutableSet) (mod : Str)
    (h : callOwner erlangConfig moduleindex mod = name ∨
      callOwner erlangConfig moduleindex mod ∈ erlangConfig.IgnoredDeps) :
    callDeps erlangConfig moduleindex name d mod = d := by
  unfold callDeps
  simp only
  split
  · rename_i hc
    obtain ⟨_, h2, h3⟩ := hc
    rcases h with h | h
    · exact absurd h h2
    · simp [MutableSet.Contains, h] at h3
  · rfl

/-- A call whose owner is found, is not the application and is not ignored
puts the owner in the dependency set. -/
theorem callDeps_adds (name : Str) (d : MutableSet) (mod : Str)
    (hne : callOwner erlangConfig moduleindex mod ≠ [])
    (hname : callOwner erlangConfig moduleindex mod ≠ name)
    (hign : callOwner erlangConfig moduleindex mod ∉ erlangConfig.IgnoredDeps) :
    callOwner erlangConfig moduleindex mod ∈ callDeps erlangConfig moduleindex name d mod := by
  unfold callDeps
  simp only
  have hc : callOwner erlangConfig moduleindex mod ≠ [] ∧
      callOwner erlangConfig moduleindex mod ≠ name ∧
      (!erlangConfig.IgnoredDeps.Contains (callOwner erlangConfig moduleindex mod)) = true := by
    refine ⟨hne, hname, ?_⟩
    simp [MutableSet.Contains, hign]
  rw [if_pos hc]
  exact (MutableSet.mem_Add _ _ _).mpr (Or.inr rfl)

/-- An ignored application enters the dependency set by no call. -/
theorem callDeps_ignored (name x : Str) (d : MutableSet) (mod : Str)
    (hx : x ∈ erlangConfig.IgnoredDeps)
    (h : x ∈ callDeps erlangConfig moduleindex name d mod) : x ∈ d := by
  unfold callDeps at h
  simp only at h
  split at h
  · rename_i hc
    rcases (MutableSet.mem_Add _ _ _).mp h with h' | h'
    · exact h'
    · subst h'
      simp [MutableSet.Contains, hx] at hc
  · exact h

theorem runDeps_dropCall (erlParser : Str → ErlAttrs) (name m : Str)
    (hnoop : ∀ d, callDeps erlangConfig moduleindex name d m = d) (l : List Str)
    (d : MutableSet) :
    runDeps erlangConfig moduleindex erlParser name d l =
      runDeps erlangConfig moduleindex (dropCall erlParser m) name d l := by
  unfold runDeps
  have e : (fun d src => (erlParser src).Call.foldl (callDeps erlangConfig moduleindex name) d)
      = (fun d src => (dropCall erlParser m src).Call.foldl
          (callDeps erlangConfig moduleindex name) d) := by
    funext d src
    unfold dropCall
    simp only
    apply foldl_filter_noop
    intro s a ha
    have : a = m := by simpa using ha
    subst this
    exact hnoop s
  rw [e]

theorem runDeps_ignored (erlParser : Str → ErlAttrs) (name x : Str)
    (hx : x ∈ erlangConfig.IgnoredDeps) (l : List Str) (d0 d : MutableSet)
    (hd : x ∈ d → x ∈ d0)
    (h : x ∈ runDeps erlangConfig moduleindex erlParser name d l) : x ∈ d0 := by
  have key := foldl_invariant
    (fun d src => (erlParser src).Call.foldl (callDeps erlangConfig moduleindex name) d)
    (fun d => x ∈ d → x ∈ d0)
    (fun s src hs =>
      foldl_invariant (callDeps erlangConfig moduleindex name) (fun d => x ∈ d → x ∈ d0)
        (fun s' a hs' hmem => hs' (callDeps_ignored erlangConfig moduleindex name x s' a hx hmem))
        (erlParser src).Call s hs)
    l d hd
  exact key h

theorem runDeps_adds (erlParser : Str → ErlAttrs) (name f m : Str) (l : List Str)
    (hf : f ∈ l) (hm : m ∈ (erlParser f).Call)
    (hne : callOwner erlangConfig moduleindex m ≠ [])
    (hname : callOwner erlangConfig moduleindex m ≠ name)
    (hign : callOwner erlangConfig moduleindex m ∉ erlangConfig.IgnoredDeps) (d : MutableSet) :
    callOwner erlangConfig moduleindex m ∈
      runDeps erlangConfig moduleindex erlParser name d l := by
  unfold runDeps
  refine foldl_reaches
    (fun d src => (erlParser src).Call.foldl (callDeps erlangConfig moduleindex name) d)
    (fun d => callOwner erlangConfig moduleindex m ∈ d)
    (fun s src hs => foldl_callDeps_mono erlangConfig moduleindex name _ _ s hs)
    f ?_ l hf d
  intro s
  exact foldl_reaches (callDeps erlangConfig moduleindex name)
    (fun d => callOwner erlangConfig moduleindex m ∈ d)
    (fun s' a hs' => callDeps_mono erlangConfig moduleindex name _ s' a hs')
    m (fun s' => callDeps_adds erlangConfig moduleindex name s' m hne hname hign)
    (erlParser f).Call hm s

end calls

/-- The sets `fileSets` resolves do not depend on the called modules. -/
theorem fileSets_congr (erlangApp : ErlangApp) (erlangConfig : ErlangConfig)
    (moduleindex : Moduleindex) (src : Str) (a b : ErlAttrs) (h : SameButCall a b) :
    fileSets erlangApp erlangConfig moduleindex src a =
      fileSets erlangApp erlangConfig moduleindex src b := by
  obtain ⟨h1, h2, h3, h4⟩ := h
  unfold fileSets ErlAttrs.modules
  rw [h1, h2, h3, h4]

/-- The sets `testFileSets` resolves do not depend on the called modules. -/
theorem testFileSets_congr (erlangApp : ErlangApp) (erlangConfig : ErlangConfig)
    (moduleindex : Moduleindex) (src : Str) (a b : ErlAttrs) (h : SameButCall a b) :
    testFileSets erlangApp erlangConfig moduleindex src a =
      testFileSets erlangApp erlangConfig moduleindex src b := by
  obtain ⟨h1, h2, h3, h4⟩ := h
  unfold testFileSets ErlAttrs.modules
  rw [h1, h2, h3, h4]

theorem sameButCall_dropCall (erlParser : Str → ErlAttrs) (m src : Str) :
    SameButCall (dropCall erlParser m src) (erlParser src) :=
  ⟨rfl, rfl, rfl, rfl⟩

/-- C6: a called module whose resolved owner (the explicit mapping's value
when present and not empty, else the owner in the index) is the application
itself adds no dependency edge: the call's step leaves the application,
whatever its `Deps`, unchanged, and the application `BeamFilesRules` and
`testBeamFilesRules` leave is the one they leave when the call is removed
from every fact record. -/
theorem own_call_adds_no_edge (erlangApp : ErlangApp) (k : Consts)
    (erlangConfig : ErlangConfig) (loaded : Option Moduleindex) (erlParser : Str → ErlAttrs)
    (m : Str)
    (h : callOwner erlangConfig (moduleindexOr erlangApp loaded) m = erlangApp.Name) :
    (∀ deps, addCall erlangConfig (moduleindexOr erlangApp loaded)
      { erlangApp with Deps := deps } m = { erlangApp with Deps := deps }) ∧
    (erlangApp.BeamFilesRules k erlangConfig loaded erlParser).2 =
      (erlangApp.BeamFilesRules k erlangConfig loaded (dropCall erlParser m)).2 ∧
    (erlangApp.testBeamFilesRules k erlangConfig loaded erlParser).2 =
      (erlangApp.testBeamFilesRules k erlangConfig loaded (dropCall erlParser m)).2 := by
  have hnoop : ∀ d, callDeps erlangConfig (moduleindexOr erlangApp loaded) erlangApp.Name d m
      = d := fun d => callDeps_noop _ _ _ d m (Or.inl h)
  refine ⟨?_, ?_, ?_⟩
  · intro deps
    rw [addCall_eq]
    show { erlangApp with
      Deps := callDeps erlangConfig (moduleindexOr erlangApp loaded) erlangApp.Name deps m } = _
    rw [hnoop]
  · rw [BeamFilesRules_app, BeamFilesRules_app,
      runDeps_dropCall erlangConfig _ erlParser erlangApp.Name m hnoop]
  · rw [testBeamFilesRules_app, testBeamFilesRules_app,
      runDeps_dropCall erlangConfig _ erlParser erlangApp.Name m hnoop]

/-- Witness of C6: application `foo` calls module `bar`, which the index
assigns to `foo`. -/
theorem own_call_adds_no_edge_witness :
    callOwner ⟨[], []⟩ (moduleindexOr fooApp (some [("foo".toList, ["bar".toList])]))
      "bar".toList = fooApp.Name ∧
    ((∀ deps, addCall ⟨[], []⟩ (moduleindexOr fooApp (some [("foo".toList, ["bar".toList])]))
      { fooApp with Deps := deps } "bar".toList = { fooApp with Deps := deps }) ∧
    (fooApp.BeamFilesRules sampleConsts ⟨[], []⟩ (some [("foo".toList, ["bar".toList])])
        (callParser "bar".toList)).2 =
      (fooApp.BeamFilesRules sampleConsts ⟨[], []⟩ (some [("foo".toList, ["bar".toList])])
        (dropCall (callParser "bar".toList) "bar".toList)).2 ∧
    (fooApp.testBeamFilesRules sampleConsts ⟨[], []⟩ (some [("foo".toList, ["bar".toList])])
        (callParser "bar".toList)).2 =
      (fooApp.testBeamFilesRules sampleConsts ⟨[], []⟩ (some [("foo".toList, ["bar".toList])])
        (dropCall (callParser "bar".toList) "bar".toList)).2) :=
  ⟨by decide,
    own_call_adds_no_edge fooApp sampleConsts ⟨[], []⟩
      (some [("foo".toList, ["bar".toList])]) (callParser "bar".toList) "bar".toList
      (by decide)⟩

section testCalls

variable (erlangApp : ErlangApp) (erlangConfig : ErlangConfig) (moduleindex : Moduleindex)

theorem addTestCall_mono_fst (x : Str) (st : MutableSet × MutableSet) (mod : Str)
    (h : x ∈ st.1) : x ∈ (addTestCall erlangApp erlangConfig moduleindex st mod).1 := by
  unfold addTestCall
  simp only
  repeat' split
  all_goals first | exact h | exact (MutableSet.mem_Add _ _ _).mpr (Or.inl h)

theorem addTestCall_mono_snd (x : Str) (st : MutableSet × MutableSet) (mod : Str)
    (h : x ∈ st.2) : x ∈ (addTestCall erlangApp erlangConfig moduleindex st mod).2 := by
  unfold addTestCall
  simp only
  repeat' split
  all_goals first | exact h | exact (MutableSet.mem_Add _ _ _).mpr (Or.inl h)

/-- An ignored application enters the runtime-only dependency set by no
call. -/
theorem addTestCall_ignored (x : Str) (st : MutableSet × MutableSet) (mod : Str)
    (hx : x ∈ erlangConfig.IgnoredDeps)
    (h : x ∈ (addTestCall erlangApp erlangConfig moduleindex st mod).2) : x ∈ st.2 := by
  unfold addTestCall at h
  simp only at h
  split at h
  · exact h
  · split at h
    · rename_i hc
      rcases (MutableSet.mem_Add _ _ _).mp h with h' | h'
      · exact h'
      · subst h'
        simp [MutableSet.Contains, hx] at hc
    · exact h

/-- A call whose owner is ignored leaves the runtime-only dependency set as
it is. -/
theorem addTestCall_ignored_snd (st : MutableSet × MutableSet) (mod : Str)
    (h : callOwner erlangConfig moduleindex mod ∈ erlangConfig.IgnoredDeps) :
    (addTestCall erlangApp erlangConfig moduleindex st mod).2 = st.2 := by
  unfold addTestCall
  simp only
  split
  · rfl
  · split
    · rename_i hc
      simp [MutableSet.Contains, h] at hc
    · rfl

theorem testCalls_ignored (x : Str) (hx : x ∈ erlangConfig.IgnoredDeps) (calls : List Str) :
    x ∉ (calls.foldl (addTestCall erlangApp erlangConfig moduleindex)
      (NewMutableSet, NewMutableSet)).2 := by
  refine foldl_invariant (addTestCall erlangApp erlangConfig moduleindex)
    (fun st => x ∉ st.2) ?_ calls _ ?_
  · intro s a hs hmem
    exact hs (addTestCall_ignored erlangApp erlangConfig moduleindex x s a hx hmem)
  · simp [NewMutableSet]

end testCalls

/-- C7: a called module whose resolved owner is in the ignore-list
`IgnoredDeps` produces no dependency edge: the step of the call leaves the
application and the runtime-only dependency set unchanged, the owner is in
`Deps` after `BeamFilesRules` or `testBeamFilesRules` only if it was there
before, and it is in the `runtime_deps` of no descriptor of
`TestDirBeamFilesRules`. -/
theorem ignored_call_adds_no_edge (erlangApp : ErlangApp) (k : Consts)
    (erlangConfig : ErlangConfig) (loaded : Option Moduleindex) (erlParser : Str → ErlAttrs)
    (m : Str)
    (h : callOwner erlangConfig (moduleindexOr erlangApp loaded) m ∈
      erlangConfig.IgnoredDeps) :
    (∀ deps, addCall erlangConfig (moduleindexOr erlangApp loaded)
      { erlangApp with Deps := deps } m = { erlangApp with Deps := deps }) ∧
    (∀ st, (addTestCall erlangApp erlangConfig (moduleindexOr erlangApp loaded) st m).2 =
      st.2) ∧
    (callOwner erlangConfig (moduleindexOr erlangApp loaded) m ∈
        (erlangApp.BeamFilesRules k erlangConfig loaded erlParser).2.Deps →
      callOwner erlangConfig (moduleindexOr erlangApp loaded) m ∈ erlangApp.Deps) ∧
    (callOwner erlangConfig (moduleindexOr erlangApp loaded) m ∈
        (erlangApp.testBeamFilesRules k erlangConfig loaded erlParser).2.Deps →
      callOwner erlangConfig (moduleindexOr erlangApp loaded) m ∈ erlangApp.Deps) ∧
    (∀ t ∈ erlangApp.TestSrcs, ∃ r,
      descriptorFor (erlangApp.TestDirBeamFilesRules k erlangConfig loaded erlParser).1 t =
        some r ∧
      callOwner erlangConfig (moduleindexOr erlangApp loaded) m ∉
        r.PrivateAttr "runtime_deps") := by
  refine ⟨?_, ?_, ?_, ?_, ?_⟩
  · intro deps
    rw [addCall_eq]
    show { erlangApp with
      Deps := callDeps erlangConfig (moduleindexOr erlangApp loaded) erlangApp.Name deps m } = _
    rw [callDeps_noop _ _ _ deps m (Or.inr h)]
  · intro st
    exact addTestCall_ignored_snd erlangApp erlangConfig _ st m h
  · rw [BeamFilesRules_app]
    exact runDeps_ignored erlangConfig _ erlParser erlangApp.Name _ h _ erlangApp.Deps
      erlangApp.Deps id
  · rw [testBeamFilesRules_app]
    exact runDeps_ignored erlangConfig _ erlParser erlangApp.Name _ h _ erlangApp.Deps
      erlangApp.Deps id
  · intro t ht
    refine ⟨_, descriptorFor_TestDirBeamFilesRules erlangApp k erlangConfig loaded erlParser t
      ht, ?_⟩
    rw [testDirDescriptor, testDirErlangBytecode_runtime_deps, MutableSet.mem_Values]
    exact testCalls_ignored erlangApp erlangConfig _ _ h _

/-- Witness of C7: `kernel` is ignored and owns the called module
`gen_server`. -/
theorem ignored_call_adds_no_edge_witness :
    callOwner kernelIgnored (moduleindexOr sampleApp (some otpIndex)) "gen_server".toList ∈
      kernelIgnored.IgnoredDeps ∧
    ((∀ deps, addCall kernelIgnored (moduleindexOr sampleApp (some otpIndex))
      { sampleApp with Deps := deps } "gen_server".toList = { sampleApp with Deps := deps }) ∧
    (∀ st, (addTestCall sampleApp kernelIgnored (moduleindexOr sampleApp (some otpIndex)) st
      "gen_server".toList).2 = st.2) ∧
    (callOwner kernelIgnored (moduleindexOr sampleApp (some otpIndex)) "gen_server".toList ∈
        (sampleApp.BeamFilesRules sampleConsts kernelIgnored (some otpIndex)
          (callParser "gen_server".toList)).2.Deps →
      callOwner kernelIgnored (moduleindexOr sampleApp (some otpIndex)) "gen_server".toList ∈
        sampleApp.Deps) ∧
    (callOwner kernelIgnored (moduleindexOr sampleApp (some otpIndex)) "gen_server".toList ∈
        (sampleApp.testBeamFilesRules sampleConsts kernelIgnored (some otpIndex)
          (callParser "gen_server".toList)).2.Deps →
      callOwner kernelIgnored (moduleindexOr sampleApp (some otpIndex)) "gen_server".toList ∈
        sampleApp.Deps) ∧
    (∀ t ∈ sampleApp.TestSrcs, ∃ r,
      descriptorFor (sampleApp.TestDirBeamFilesRules sampleConsts kernelIgnored (some otpIndex)
        (callParser "gen_server".toList)).1 t = some r ∧
      callOwner kernelIgnored (moduleindexOr sampleApp (some otpIndex)) "gen_server".toList ∉
        r.PrivateAttr "runtime_deps")) :=
  ⟨by decide,
    ignored_call_adds_no_edge sampleApp sampleConsts kernelIgnored (some otpIndex)
      (callParser "gen_server".toList) "gen_server".toList (by decide)⟩

/-- C8: in `BeamFilesRules` and `testBeamFilesRules`, a called module whose
owner is found, is not the application itself and is not ignored has its
owner in the application's `Deps` after the run; and calls never affect the
descriptors: for every parser whose fact records differ from those of
`erlParser` only in the called-module sets, the two generators yield the
same list of rules (so the same `hdrs`, `beam` and `deps` of every
descriptor). -/
theorem calls_only_application_level (erlangApp : ErlangApp) (k : Consts)
    (erlangConfig : ErlangConfig) (loaded : Option Moduleindex)
    (erlParser : Str → ErlAttrs) :
    (∀ f ∈ erlangApp.Srcs, ∀ m ∈ (erlParser f).Call,
      callOwner erlangConfig (moduleindexOr erlangApp loaded) m ≠ [] →
      callOwner erlangConfig (moduleindexOr erlangApp loaded) m ≠ erlangApp.Name →
      callOwner erlangConfig (moduleindexOr erlangApp loaded) m ∉ erlangConfig.IgnoredDeps →
      callOwner erlangConfig (moduleindexOr erlangApp loaded) m ∈
        (erlangApp.BeamFilesRules k erlangConfig loaded erlParser).2.Deps ∧
      callOwner erlangConfig (moduleindexOr erlangApp loaded) m ∈
        (erlangApp.testBeamFilesRules k erlangConfig loaded erlParser).2.Deps) ∧
    (∀ erlParser' : Str → ErlAttrs, (∀ src, SameButCall (erlParser' src) (erlParser src)) →
      (erlangApp.BeamFilesRules k erlangConfig loaded erlParser').1 =
        (erlangApp.BeamFilesRules k erlangConfig loaded erlParser).1 ∧
      (erlangApp.testBeamFilesRules k erlangConfig loaded erlParser').1 =
        (erlangApp.testBeamFilesRules k erlangConfig loaded erlParser).1) := by
  refine ⟨?_, ?_⟩
  · intro f hf m hm hne hname hign
    have hfv : f ∈ erlangApp.Srcs.Values := (MutableSet.mem_Values _ _).mpr hf
    refine ⟨?_, ?_⟩
    · rw [BeamFilesRules_app]
      exact runDeps_adds erlangConfig _ erlParser erlangApp.Name f m _ hfv hm hne hname hign _
    · rw [testBeamFilesRules_app]
      exact runDeps_adds erlangConfig _ erlParser erlangApp.Name f m _ hfv hm hne hname hign _
  · intro erlParser' hsame
    have hsets : ∀ src, fileSets erlangApp erlangConfig (moduleindexOr erlangApp loaded) src
        (erlParser' src) = fileSets erlangApp erlangConfig (moduleindexOr erlangApp loaded) src
        (erlParser src) := fun src => fileSets_congr _ _ _ _ _ _ (hsame src)
    refine ⟨?_, ?_⟩
    · rw [BeamFilesRules_rules, BeamFilesRules_rules]
      simp only [hsets]
    · rw [testBeamFilesRules_rules, testBeamFilesRules_rules]
      simp only [hsets]

/-- Witness of C8: `src/a.erl` of `sampleApp` calls `lists`, which `stdlib`
owns, and `stdlib` is in `Deps` after both runs; the parser that records no
call yields the same rules. -/
theorem calls_only_application_level_witness :
    "src/a.erl".toList ∈ sampleApp.Srcs ∧
    "lists".toList ∈ (callParser "lists".toList "src/a.erl".toList).Call ∧
    callOwner kernelIgnored (moduleindexOr sampleApp (some otpIndex)) "lists".toList =
      "stdlib".toList ∧
    (∀ src, SameButCall (emptyParser src) (callParser "lists".toList src)) ∧
    (callOwner kernelIgnored (moduleindexOr sampleApp (some otpIndex)) "lists".toList ∈
      (sampleApp.BeamFilesRules sampleConsts kernelIgnored (some otpIndex)
        (callParser "lists".toList)).2.Deps ∧
    callOwner kernelIgnored (moduleindexOr sampleApp (some otpIndex)) "lists".toList ∈
      (sampleApp.testBeamFilesRules sampleConsts kernelIgnored (some otpIndex)
        (callParser "lists".toList)).2.Deps) ∧
    ((sampleApp.BeamFilesRules sampleConsts kernelIgnored (some otpIndex) emptyParser).1 =
      (sampleApp.BeamFilesRules sampleConsts kernelIgnored (some otpIndex)
        (callParser "lists".toList)).1 ∧
    (sampleApp.testBeamFilesRules sampleConsts kernelIgnored (some otpIndex) emptyParser).1 =
      (sampleApp.testBeamFilesRules sampleConsts kernelIgnored (some otpIndex)
        (callParser "lists".toList)).1) :=
  ⟨by decide, by decide, by decide, fun _ => ⟨rfl, rfl, rfl, rfl⟩,
    (calls_only_application_level sampleApp sampleConsts kernelIgnored (some otpIndex)
      (callParser "lists".toList)).1 "src/a.erl".toList (by decide) "lists".toList
      (by decide) (by decide) (by decide) (by decide),
    (calls_only_application_level sampleApp sampleConsts kernelIgnored (some otpIndex)
      (callParser "lists".toList)).2 emptyParser (fun _ => ⟨rfl, rfl, rfl, rfl⟩)⟩

/-! ## Calls in test-directory resolution (C9, C10) -/

section testDirCalls

variable (erlangApp : ErlangApp) (erlangConfig : ErlangConfig) (moduleindex : Moduleindex)

/-- The step of a call to a module that the test-directory source `h`
alone defines: the artifact of `h` is recorded as runtime-only. -/
theorem addTestCall_helper (h m : Str) (hh : h ∈ erlangApp.TestSrcs)
    (hhm : moduleName h = m)
    (huniq : ∀ h' ∈ erlangApp.TestSrcs, moduleName h' = m → h' = h)
    (st : MutableSet × MutableSet) :
    addTestCall erlangApp erlangConfig moduleindex st m =
      (st.1.Add (testDirArtifact h), st.2) := by
  have hfind : erlangApp.TestSrcs.Values.find?
      (fun other_src => decide (moduleName other_src = m)) = some h := by
    apply find?_unique
    · exact (MutableSet.mem_Values _ _).mpr hh
    · simpa using hhm
    · intro x hx hpx
      exact huniq x ((MutableSet.mem_Values _ _).mp hx) (by simpa using hpx)
  unfold addTestCall
  rw [hfind]
  rfl

/-- The step of a call to a module that no test-directory source defines
and whose owner is found, is not the application and is not ignored: the
owner is recorded as a runtime-only dependency. -/
theorem addTestCall_owner (m : Str) (hno : ∀ t ∈ erlangApp.TestSrcs, moduleName t ≠ m)
    (hne : callOwner erlangConfig moduleindex m ≠ [])
    (hname : callOwner erlangConfig moduleindex m ≠ erlangApp.Name)
    (hign : callOwner erlangConfig moduleindex m ∉ erlangConfig.IgnoredDeps)
    (st : MutableSet × MutableSet) :
    addTestCall erlangApp erlangConfig moduleindex st m =
      (st.1, st.2.Add (callOwner erlangConfig moduleindex m)) := by
  have hfind : erlangApp.TestSrcs.Values.find?
      (fun other_src => decide (moduleName other_src = m)) = none := by
    rw [List.find?_eq_none]
    intro x hx
    simpa using hno x ((MutableSet.mem_Values _ _).mp hx)
  have hc : callOwner erlangConfig moduleindex m ≠ [] ∧
      callOwner erlangConfig moduleindex m ≠ erlangApp.Name ∧
      (!erlangConfig.IgnoredDeps.Contains (callOwner erlangConfig moduleindex m)) = true := by
    refine ⟨hne, hname, ?_⟩
    simp [MutableSet.Contains, hign]
  unfold addTestCall
  rw [hfind]
  simp only
  rw [if_pos hc]

end testDirCalls

/-- Outside the specification's assumption that module names are unique
within an application: in `twoHelpersApp` two test-directory sources define
module `helper`, which `test/x_SUITE.erl` calls, and the artifact
`test/sub/helper.beam` of the second is not in the `runtime_beam` of the
descriptor: the scan stops at `test/helper.erl`, the first source in sorted
order that defines `helper`. -/
theorem second_helper_not_listed :
    "test/sub/helper.erl".toList ∈ twoHelpersApp.TestSrcs ∧
    moduleName "test/sub/helper.erl".toList = "helper".toList ∧
    ∃ r, descriptorFor (twoHelpersApp.TestDirBeamFilesRules sampleConsts ⟨[], []⟩ none
        (callParser "helper".toList)).1 "test/x_SUITE.erl".toList = some r ∧
      testDirArtifact "test/sub/helper.erl".toList ∉ r.PrivateAttr "runtime_beam" := by
  refine ⟨by decide, by decide, _,
    descriptorFor_TestDirBeamFilesRules _ _ _ _ _ _ (by decide), ?_⟩
  rw [testDirDescriptor, testDirErlangBytecode_runtime_beam]
  decide

/-- C9: when the test-directory source `h` defines module `m` (module names
being unique within the application, as the specification assumes: `h` is
the only test-directory source that defines `m`), the descriptor
`TestDirBeamFilesRules` produces for a test-directory file `f` that calls
`m` lists the artifact of `h` (`h` with `.erl` replaced by `.beam`) in its
`runtime_beam`, and its `beam` is that of the run without the call. -/
theorem test_helper_call_is_runtime_beam (erlangApp : ErlangApp) (k : Consts)
    (erlangConfig : ErlangConfig) (loaded : Option Moduleindex) (erlParser : Str → ErlAttrs)
    (h m f : Str) (hh : h ∈ erlangApp.TestSrcs) (hhm : moduleName h = m)
    (huniq : ∀ h' ∈ erlangApp.TestSrcs, moduleName h' = m → h' = h)
    (hf : f ∈ erlangApp.TestSrcs) (hfm : m ∈ (erlParser f).Call) :
    ∃ r r',
      descriptorFor (erlangApp.TestDirBeamFilesRules k erlangConfig loaded erlParser).1 f =
        some r ∧
      descriptorFor (erlangApp.TestDirBeamFilesRules k erlangConfig loaded
        (dropCall erlParser m)).1 f = some r' ∧
      testDirArtifact h ∈ r.PrivateAttr "runtime_beam" ∧
      r.AttrStrings "beam" = r'.AttrStrings "beam" := by
  refine ⟨_, _,
    descriptorFor_TestDirBeamFilesRules erlangApp k erlangConfig loaded erlParser f hf,
    descriptorFor_TestDirBeamFilesRules erlangApp k erlangConfig loaded _ f hf, ?_, ?_⟩
  · rw [testDirDescriptor, testDirErlangBytecode_runtime_beam, MutableSet.mem_Values]
    refine foldl_reaches (addTestCall erlangApp erlangConfig (moduleindexOr erlangApp loaded))
      (fun st => testDirArtifact h ∈ st.1)
      (fun s a hs => addTestCall_mono_fst erlangApp erlangConfig _ _ s a hs) m ?_ _ hfm _
    intro s
    rw [addTestCall_helper erlangApp erlangConfig _ h m hh hhm huniq]
    exact (MutableSet.mem_Add _ _ _).mpr (Or.inr rfl)
  · rw [testDirDescriptor, testDirDescriptor, testDirErlangBytecode_beam,
      testDirErlangBytecode_beam,
      testFileSets_congr erlangApp erlangConfig _ f _ _ (sameButCall_dropCall erlParser m f)]

/-- Witness of C9: `test/x_SUITE.erl` of `sampleApp` calls
`helper`, which `test/helper.erl` alone defines. -/
theorem test_helper_call_is_runtime_beam_witness :
    "test/helper.erl".toList ∈ sampleApp.TestSrcs ∧
    moduleName "test/helper.erl".toList = "helper".toList ∧
    (∀ h' ∈ sampleApp.TestSrcs, moduleName h' = "helper".toList →
      h' = "test/helper.erl".toList) ∧
    "test/x_SUITE.erl".toList ∈ sampleApp.TestSrcs ∧
    "helper".toList ∈ (callParser "helper".toList "test/x_SUITE.erl".toList).Call ∧
    testDirArtifact "test/helper.erl".toList = "test/helper.beam".toList ∧
    ∃ r r',
      descriptorFor (sampleApp.TestDirBeamFilesRules sampleConsts ⟨[], []⟩ none
        (callParser "helper".toList)).1 "test/x_SUITE.erl".toList = some r ∧
      descriptorFor (sampleApp.TestDirBeamFilesRules sampleConsts ⟨[], []⟩ none
        (dropCall (callParser "helper".toList) "helper".toList)).1
          "test/x_SUITE.erl".toList = some r' ∧
      testDirArtifact "test/helper.erl".toList ∈ r.PrivateAttr "runtime_beam" ∧
      r.AttrStrings "beam" = r'.AttrStrings "beam" :=
  ⟨by decide, by decide, by decide, by decide, by decide, by decide,
    test_helper_call_is_runtime_beam sampleApp sampleConsts ⟨[], []⟩ none
      (callParser "helper".toList) "test/helper.erl".toList "helper".toList
      "test/x_SUITE.erl".toList (by decide) (by decide) (by decide) (by decide) (by decide)⟩

/-- C10: in `TestDirBeamFilesRules`, a called module that no test-directory
source defines and whose owner (explicit mapping, then index) is found, is
not the application and is not ignored is recorded in the descriptor's
`runtime_deps`; the descriptor's `deps` are those of the run without the
call, and the application, so its `Deps`, is the same after the run as
before. -/
theorem test_call_is_runtime_dep (erlangApp : ErlangApp) (k : Consts)
    (erlangConfig : ErlangConfig) (loaded : Option Moduleindex) (erlParser : Str → ErlAttrs)
    (f m : Str) (hf : f ∈ erlangApp.TestSrcs) (hfm : m ∈ (erlParser f).Call)
    (hno : ∀ t ∈ erlangApp.TestSrcs, moduleName t ≠ m)
    (hne : callOwner erlangConfig (moduleindexOr erlangApp loaded) m ≠ [])
    (hname : callOwner erlangConfig (moduleindexOr erlangApp loaded) m ≠ erlangApp.Name)
    (hign : callOwner erlangConfig (moduleindexOr erlangApp loaded) m ∉
      erlangConfig.IgnoredDeps) :
    (∃ r r',
      descriptorFor (erlangApp.TestDirBeamFilesRules k erlangConfig loaded erlParser).1 f =
        some r ∧
      descriptorFor (erlangApp.TestDirBeamFilesRules k erlangConfig loaded
        (dropCall erlParser m)).1 f = some r' ∧
      callOwner erlangConfig (moduleindexOr erlangApp loaded) m ∈
        r.PrivateAttr "runtime_deps" ∧
      r.AttrStrings "deps" = r'.AttrStrings "deps") ∧
    (erlangApp.TestDirBeamFilesRules k erlangConfig loaded erlParser).2 = erlangApp ∧
    (erlangApp.TestDirBeamFilesRules k erlangConfig loaded erlParser).2.Deps =
      erlangApp.Deps := by
  refine ⟨⟨_, _,
    descriptorFor_TestDirBeamFilesRules erlangApp k erlangConfig loaded erlParser f hf,
    descriptorFor_TestDirBeamFilesRules erlangApp k erlangConfig loaded _ f hf, ?_, ?_⟩,
    TestDirBeamFilesRules_app _ _ _ _ _, by rw [TestDirBeamFilesRules_app]⟩
  · rw [testDirDescriptor, testDirErlangBytecode_runtime_deps, MutableSet.mem_Values]
    refine foldl_reaches (addTestCall erlangApp erlangConfig (moduleindexOr erlangApp loaded))
      (fun st => callOwner erlangConfig (moduleindexOr erlangApp loaded) m ∈ st.2)
      (fun s a hs => addTestCall_mono_snd erlangApp erlangConfig _ _ s a hs) m ?_ _ hfm _
    intro s
    rw [addTestCall_owner erlangApp erlangConfig _ m hno hne hname hign]
    exact (MutableSet.mem_Add _ _ _).mpr (Or.inr rfl)
  · rw [testDirDescriptor, testDirDescriptor, testDirErlangBytecode_deps,
      testDirErlangBytecode_deps,
      testFileSets_congr erlangApp erlangConfig _ f _ _ (sameButCall_dropCall erlParser m f)]

/-- Witness of C10: `test/x_SUITE.erl` of `sampleApp` calls `lists`, which
no test-directory source defines and `stdlib` owns. -/
theorem test_call_is_runtime_dep_witness :
    "test/x_SUITE.erl".toList ∈ sampleApp.TestSrcs ∧
    "lists".toList ∈ (callParser "lists".toList "test/x_SUITE.erl".toList).Call ∧
    (∀ t ∈ sampleApp.TestSrcs, moduleName t ≠ "lists".toList) ∧
    callOwner kernelIgnored (moduleindexOr sampleApp (some otpIndex)) "lists".toList =
      "stdlib".toList ∧
    ((∃ r r',
      descriptorFor (sampleApp.TestDirBeamFilesRules sampleConsts kernelIgnored
        (some otpIndex) (callParser "lists".toList)).1 "test/x_SUITE.erl".toList = some r ∧
      descriptorFor (sampleApp.TestDirBeamFilesRules sampleConsts kernelIgnored
        (some otpIndex) (dropCall (callParser "lists".toList) "lists".toList)).1
          "test/x_SUITE.erl".toList = some r' ∧
      callOwner kernelIgnored (moduleindexOr sampleApp (some otpIndex)) "lists".toList ∈
        r.PrivateAttr "runtime_deps" ∧
      r.AttrStrings "deps" = r'.AttrStrings "deps") ∧
    (sampleApp.TestDirBeamFilesRules sampleConsts kernelIgnored (some otpIndex)
      (callParser "lists".toList)).2 = sampleApp ∧
    (sampleApp.TestDirBeamFilesRules sampleConsts kernelIgnored (some otpIndex)
      (callParser "lists".toList)).2.Deps = sampleApp.Deps) :=
  ⟨by decide, by decide, by decide, by decide,
    test_call_is_runtime_dep sampleApp sampleConsts kernelIgnored (some otpIndex)
      (callParser "lists".toList) "test/x_SUITE.erl".toList "lists".toList
      (by decide) (by decide) (by decide) (by decide) (by decide) (by decide)⟩

/-! ## Test-context include resolution (C11, C12) -/

/-- C11 fails on the code at its own witness: with `TestHdrs` holding
`test/common.hrl`, the reference `common.hrl` from `test/sub/x_SUITE.erl` is
not resolved by the plain chain, `Join("test", "common.hrl")` is a
classified test header, and `testPathFor` returns the empty string: its
last tier looks `Join("test", r)` up in `PrivateHdrs`, not in `TestHdrs`. -/
theorem testPathFor_misses_test_root :
    testHdrApp.TestHdrs = ["test/common.hrl".toList] ∧
    testHdrApp.pathFor "test/sub/x_SUITE.erl".toList "common.hrl".toList = [] ∧
    filepath.Join ["test".toList, "common.hrl".toList] ∈ testHdrApp.TestHdrs ∧
    testHdrApp.testPathFor "test/sub/x_SUITE.erl".toList "common.hrl".toList = [] := by
  decide

/-- C12, as stated, fails: in `twoCommonApp` steps 1 and 2 do not resolve
`common.hrl` from `test/x_SUITE.erl`, `Join(Dir(f), r)` is the classified
test header `test/common.hrl`, and `testPathFor` returns the private header
`src/common.hrl`, which step 3 of the plain chain finds first. -/
theorem testPathFor_plain_chain_first :
    "common.hrl".toList ∉ twoCommonApp.PrivateHdrs ∧
    "common.hrl".toList ∉ twoCommonApp.PublicHdrs ∧
    filepath.Join [filepath.Dir "test/x_SUITE.erl".toList, "common.hrl".toList] ∉
      twoCommonApp.PrivateHdrs ∧
    filepath.Join [filepath.Dir "test/x_SUITE.erl".toList, "common.hrl".toList] ∉
      twoCommonApp.PublicHdrs ∧
    filepath.Join [filepath.Dir "test/x_SUITE.erl".toList, "common.hrl".toList] ∈
      twoCommonApp.TestHdrs ∧
    twoCommonApp.testPathFor "test/x_SUITE.erl".toList "common.hrl".toList ≠
      filepath.Join [filepath.Dir "test/x_SUITE.erl".toList, "common.hrl".toList] := by
  decide

/-- C12 (amended): the test-only header tier is tried after the whole
plain chain: when the plain chain (steps 1 to 4) does not resolve `r` from
`f` and `Join(Dir(f), r)` is a classified test header, `testPathFor`
returns `Join(Dir(f), r)`; and whenever the plain chain resolves `r`, also
by its steps 3 and 4, `testPathFor` returns the result of the plain
chain. -/
theorem testPathFor_after_plain_chain (erlangApp : ErlangApp) (f r : Str) :
    (erlangApp.pathFor f r = [] →
      filepath.Join [filepath.Dir f, r] ∈ erlangApp.TestHdrs →
      erlangApp.testPathFor f r = filepath.Join [filepath.Dir f, r]) ∧
    (erlangApp.pathFor f r ≠ [] → erlangApp.testPathFor f r = erlangApp.pathFor f r) := by
  constructor
  · intro hplain hmem
    unfold ErlangApp.testPathFor
    simp only [hplain, MutableSet.Contains_iff, ne_eq, not_true_eq_false, if_false]
    generalize filepath.Join [filepath.Dir f, r] = d at hmem ⊢
    simp [hmem]
  · intro hplain
    unfold ErlangApp.testPathFor
    simp only [ne_eq, hplain, not_false_eq_true, if_true]

/-- Witness of C12 (amended): in `testHdrApp` the plain chain fails and the
test header beside the file is returned; in `twoCommonApp` the plain chain
resolves the reference. -/
theorem testPathFor_after_plain_chain_witness :
    testHdrApp.pathFor "test/y_SUITE.erl".toList "common.hrl".toList = [] ∧
    filepath.Join [filepath.Dir "test/y_SUITE.erl".toList, "common.hrl".toList] ∈
      testHdrApp.TestHdrs ∧
    testHdrApp.testPathFor "test/y_SUITE.erl".toList "common.hrl".toList =
      filepath.Join [filepath.Dir "test/y_SUITE.erl".toList, "common.hrl".toList] ∧
    twoCommonApp.pathFor "test/x_SUITE.erl".toList "common.hrl".toList ≠ [] ∧
    twoCommonApp.testPathFor "test/x_SUITE.erl".toList "common.hrl".toList =
      twoCommonApp.pathFor "test/x_SUITE.erl".toList "common.hrl".toList :=
  ⟨by decide, by decide,
    (testPathFor_after_plain_chain testHdrApp "test/y_SUITE.erl".toList
      "common.hrl".toList).1 (by decide) (by decide),
    by decide,
    (testPathFor_after_plain_chain twoCommonApp "test/x_SUITE.erl".toList
      "common.hrl".toList).2 (by decide)⟩

/-! ## Facts about suffixes, base names and module names -/

theorem strings.HasSuffix_append (w s : Str) : strings.HasSuffix (w ++ s) s = true := by
  unfold strings.HasSuffix
  rw [List.isSuffixOf_iff_suffix]
  exact List.suffix_append w s

theorem strings.TrimSuffix_append (w s : Str) : strings.TrimSuffix (w ++ s) s = w := by
  unfold strings.TrimSuffix
  rw [if_pos (strings.HasSuffix_append w s)]
  simp

theorem strings.HasSuffix_iff (x s : Str) :
    strings.HasSuffix x s = true ↔ ∃ w, x = w ++ s := by
  unfold strings.HasSuffix
  rw [List.isSuffixOf_iff_suffix]
  constructor
  · rintro ⟨w, hw⟩; exact ⟨w, hw.symm⟩
  · rintro ⟨w, hw⟩; exact ⟨w, hw.symm⟩

/-- Two suffixes of the same length of one string are equal. -/
theorem strings.suffix_unique (x s s' : Str) (h : strings.HasSuffix x s = true)
    (h' : strings.HasSuffix x s' = true) (hlen : s.length = s'.length) : s = s' := by
  unfold strings.HasSuffix at h h'
  rw [List.isSuffixOf_iff_suffix] at h h'
  have h1 : s <:+ s' := List.suffix_of_suffix_length_le h h' (le_of_eq hlen)
  exact h1.eq_of_length hlen

/-- A string that ends in `s'` does not end in another string `s` that is
not a suffix of `s'` and is not longer. -/
theorem strings.not_HasSuffix (w s s' : Str) (hlen : s.length ≤ s'.length)
    (hns : strings.HasSuffix s' s = false) : strings.HasSuffix (w ++ s') s = false := by
  cases hc : strings.HasSuffix (w ++ s') s with
  | false => rfl
  | true =>
    exfalso
    have h' := strings.HasSuffix_append w s'
    unfold strings.HasSuffix at hc h' hns
    rw [List.isSuffixOf_iff_suffix] at hc h'
    have h1 : s <:+ s' := List.suffix_of_suffix_length_le hc h' hlen
    have h2 : s.isSuffixOf s' = true := List.isSuffixOf_iff_suffix.mpr h1
    rw [hns] at h2
    exact Bool.false_ne_true h2

theorem TrimSuffix_of_not (x s : Str) (h : strings.HasSuffix x s = false) :
    strings.TrimSuffix x s = x := by
  unfold strings.TrimSuffix
  simp [h]

/-- The base name of a path that ends in a non-empty string without
separator. -/
theorem filepath.Base_append (w e : Str) (hne : e ≠ []) (hsep : ∀ c ∈ e, c ≠ '/') :
    filepath.Base (w ++ e) = stem w ++ e := by
  have hrev : (w ++ e).reverse = e.reverse ++ w.reverse := List.reverse_append _ _
  obtain ⟨c, cs, hcs⟩ : ∃ c cs, e.reverse = c :: cs := by
    cases h : e.reverse with
    | nil => exact absurd (List.reverse_eq_nil_iff.mp h) hne
    | cons c cs => exact ⟨c, cs, rfl⟩
  have hc : c ≠ '/' := hsep c (by
    have : c ∈ e.reverse := by rw [hcs]; exact List.mem_cons_self _ _
    exact List.mem_reverse.mp this)
  have hdrop : ((w ++ e).reverse.dropWhile (fun c => decide (c = '/'))).reverse = w ++ e := by
    have hd : (e.reverse ++ w.reverse).dropWhile (fun c => decide (c = '/')) =
        e.reverse ++ w.reverse := by
      rw [hcs]
      simp [List.dropWhile, hc]
    rw [hrev, hd, ← hrev, List.reverse_reverse]
  have htake : ((w ++ e).reverse.takeWhile (fun c => decide (c ≠ '/'))).reverse =
      (w.reverse.takeWhile (fun c => decide (c ≠ '/'))).reverse ++ e := by
    rw [hrev, List.takeWhile_append_of_pos, List.reverse_append, List.reverse_reverse]
    intro x hx
    simpa using hsep x (List.mem_reverse.mp hx)
  have hnil : w ++ e ≠ [] := by
    intro h
    exact hne (List.append_eq_nil.mp h).2
  have hb : (w.reverse.takeWhile (fun c => decide (c ≠ '/'))).reverse ++ e ≠ [] := by
    intro h
    exact hne (List.append_eq_nil.mp h).2
  unfold filepath.Base stem
  rw [if_neg hnil]
  simp only [hdrop, htake]
  rw [if_neg hb]

theorem moduleName_erl (w : Str) : moduleName (w ++ ".erl".toList) = stem w := by
  unfold moduleName
  rw [filepath.Base_append w ".erl".toList (by decide) (by decide)]
  simp only
  rw [if_pos (strings.HasSuffix_append _ _), strings.TrimSuffix_append]

theorem moduleName_beam (w : Str) : moduleName (w ++ ".beam".toList) = stem w := by
  unfold moduleName
  rw [filepath.Base_append w ".beam".toList (by decide) (by decide)]
  simp only
  have h : strings.HasSuffix (stem w ++ ".beam".toList) ".erl".toList = false :=
    strings.not_HasSuffix _ _ _ (by decide) (by decide)
  rw [h]
  simp only [Bool.false_eq_true, if_false]
  exact strings.TrimSuffix_append _ _

theorem beamFile_erl (w : Str) :
    beamFile (w ++ ".erl".toList) = "ebin/".toList ++ stem w ++ ".beam".toList := by
  unfold beamFile
  rw [filepath.Base_append w ".erl".toList (by decide) (by decide)]
  simp only
  rw [← List.append_assoc, strings.TrimSuffix_append]

theorem testDirArtifact_erl (w : Str) :
    testDirArtifact (w ++ ".erl".toList) = w ++ ".beam".toList := by
  unfold testDirArtifact
  rw [strings.TrimSuffix_append]

/-- The module name of the test-directory artifact of a source ending in
`.erl` is the module name of the source. -/
theorem moduleName_testDirArtifact (src : Str)
    (h : strings.HasSuffix src ".erl".toList = true) :
    moduleName (testDirArtifact src) = moduleName src := by
  obtain ⟨w, rfl⟩ := (strings.HasSuffix_iff _ _).mp h
  rw [testDirArtifact_erl, moduleName_beam, moduleName_erl]

/-! ## Go maps as association lists -/

theorem lookup_mapPut_same {β : Type} (l : List (Str × β)) (k : Str) (v : β) :
    (mapPut l k v).lookup k = some v := by
  induction l with
  | nil => simp [mapPut, List.lookup]
  | cons e rest ih =>
    obtain ⟨k', v'⟩ := e
    unfold mapPut
    by_cases h : k' = k
    · simp [h, List.lookup]
    · have hb : (k == k') = false := by simpa using fun h' => h h'.symm
      simp only [h, if_false, List.lookup, hb]
      exact ih

theorem lookup_mapPut_other {β : Type} (l : List (Str × β)) (k k' : Str) (v : β)
    (h : k' ≠ k) : (mapPut l k v).lookup k' = l.lookup k' := by
  induction l with
  | nil =>
    have hb : (k' == k) = false := by simpa using h
    simp [mapPut, List.lookup, hb]
  | cons e rest ih =>
    obtain ⟨k0, v0⟩ := e
    unfold mapPut
    by_cases h0 : k0 = k
    · subst h0
      have hb : (k' == k0) = false := by simpa using h
      simp [List.lookup, hb]
    · by_cases h1 : k' = k0
      · subst h1
        simp [h0, List.lookup]
      · have hb : (k' == k0) = false := by simpa using h1
        simp only [h0, if_false, List.lookup, hb]
        exact ih

/-- A loop that keeps an invariant `I`, whose steps on the members of the
list keep `P` under `I`, and whose step at `a0` establishes `P` under `I`,
ends with `P` when `a0` is in the list. -/
theorem foldl_reaches_inv {σ α : Type} (f : σ → α → σ) (I P : σ → Prop) (a0 : α) :
    ∀ (l : List α), (∀ s, ∀ a ∈ l, I s → I (f s a)) →
      (∀ s, ∀ a ∈ l, I s → P s → P (f s a)) → (∀ s, I s → P (f s a0)) → a0 ∈ l →
      ∀ s, I s → P (l.foldl f s) := by
  intro l
  induction l with
  | nil => intro _ _ _ h; simp at h
  | cons a t ih =>
    intro hI hP hit hmem s hs
    simp only [List.foldl]
    have hI' : ∀ s, ∀ b ∈ t, I s → I (f s b) :=
      fun s b hb => hI s b (List.mem_cons_of_mem _ hb)
    have hP' : ∀ s, ∀ b ∈ t, I s → P s → P (f s b) :=
      fun s b hb => hP s b (List.mem_cons_of_mem _ hb)
    have hIa : I (f s a) := hI s a (List.mem_cons_self _ _) hs
    by_cases hat : a0 ∈ t
    · exact ih hI' hP' hit hat _ hIa
    · have ha : a0 = a := by
        rcases List.mem_cons.mp hmem with h | h
        · exact h
        · exact absurd h hat
      subst ha
      have key : ∀ (t' : List α), (∀ s, ∀ b ∈ t', I s → I (f s b)) →
          (∀ s, ∀ b ∈ t', I s → P s → P (f s b)) → ∀ s, I s → P s → P (t'.foldl f s) := by
        intro t'
        induction t' with
        | nil => intro _ _ s _ hp; exact hp
        | cons b t'' ih' =>
          intro h1 h2 s hi hp
          simp only [List.foldl]
          exact ih' (fun s c hc => h1 s c (List.mem_cons_of_mem _ hc))
            (fun s c hc => h2 s c (List.mem_cons_of_mem _ hc)) _
            (h1 s b (List.mem_cons_self _ _) hi) (h2 s b (List.mem_cons_self _ _) hi hp)
      exact key t hI' hP' _ hIa (hit s hs)

/-- The entry of a key after a loop of assignments, all of whose
assignments to that key store the same value. -/
theorem lookup_foldl_mapPut {α β : Type} (key : α → Str) (val : α → β) (a0 : α)
    (l : List α) (h0 : a0 ∈ l) (hsame : ∀ a ∈ l, key a = key a0 → val a = val a0)
    (m0 : List (Str × β)) :
    (l.foldl (fun m a => mapPut m (key a) (val a)) m0).lookup (key a0) = some (val a0) := by
  refine foldl_reaches_inv (fun m a => mapPut m (key a) (val a)) (fun _ => True)
    (fun m => m.lookup (key a0) = some (val a0)) a0 l (fun _ _ _ _ => trivial) ?_ ?_ h0 m0
    trivial
  · intro s a ha _ hp
    by_cases hk : key a = key a0
    · simp only [hk, hsame a ha hk]
      exact lookup_mapPut_same _ _ _
    · simp only
      rw [lookup_mapPut_other _ _ _ _ (fun h => hk h.symm)]
      exact hp
  · intro s _
    exact lookup_mapPut_same _ _ _

/-- Two strings whose last characters differ are different. -/
theorem append_ne_of_last (a b s s' : Str) (c c' : Char) (cs cs' : Str)
    (hs : s.reverse = c :: cs) (hs' : s'.reverse = c' :: cs') (hne : c ≠ c') :
    a ++ s ≠ b ++ s' := by
  intro h
  have h' := congrArg List.reverse h
  rw [List.reverse_append, List.reverse_append, hs, hs'] at h'
  simp only [List.cons_append, List.cons.injEq] at h'
  exact hne h'.1

theorem ruleName_append (a b : Str) : ruleName (a ++ b) = ruleName a ++ ruleName b := by
  simp [ruleName, strings.ReplaceAll]

/-- The rule name of a test-directory artifact that is no suite ends in
`_beam`. -/
theorem ruleName_beam (w : Str) :
    ruleName (w ++ ".beam".toList) = ruleName w ++ "_beam".toList := by
  rw [ruleName_append]
  rfl

/-! ## Suite aggregation (C14) -/

theorem name_setNonEmpty (r : Rule) (key : String) (s : MutableSet) :
    (setNonEmpty r key s).name = r.name := by
  unfold setNonEmpty
  split <;> rfl

theorem privateAttrs_setNonEmpty (r : Rule) (key : String) (s : MutableSet) :
    (setNonEmpty r key s).privateAttrs = r.privateAttrs := by
  unfold setNonEmpty
  split <;> rfl

section testDirDescriptorFacts

variable (k : Consts) (erlangConfig : ErlangConfig) (moduleindex : Moduleindex)
  (erlParser : Str → ErlAttrs) (erlangApp : ErlangApp) (src : Str)

theorem testDirDescriptor_name :
    (testDirDescriptor k erlangConfig moduleindex erlParser erlangApp src).name =
      ruleNameForTestSrc (testDirArtifact src) := by
  simp [testDirDescriptor, testDirErlangBytecode, Rule.SetAttr, Rule.SetPrivateAttr,
    name_setNonEmpty, NewRule, testDirArtifact]

theorem testDirDescriptor_runtimeBeam :
    runtimeBeam (testDirDescriptor k erlangConfig moduleindex erlParser erlangApp src) =
      some ((testDirDescriptor k erlangConfig moduleindex erlParser erlangApp src).PrivateAttr
        "runtime_beam") := by
  simp [testDirDescriptor, testDirErlangBytecode, Rule.SetAttr, Rule.SetPrivateAttr,
    privateAttrs_setNonEmpty, NewRule, runtimeBeam, Rule.PrivateAttr, lookup_setKey_same,
    lookup_setKey_other]

theorem testDirDescriptor_runtimeDeps :
    runtimeDeps (testDirDescriptor k erlangConfig moduleindex erlParser erlangApp src) =
      some ((testDirDescriptor k erlangConfig moduleindex erlParser erlangApp src).PrivateAttr
        "runtime_deps") := by
  simp [testDirDescriptor, testDirErlangBytecode, Rule.SetAttr, Rule.SetPrivateAttr,
    privateAttrs_setNonEmpty, NewRule, runtimeDeps, Rule.PrivateAttr, lookup_setKey_same]

/-- The key of `rulesByName` under which the descriptor of a suite is
stored is the module name of the suite. -/
theorem testDirDescriptor_key_suite (hsrc : strings.HasSuffix src ".erl".toList = true)
    (hsuite : isSuite src = true) :
    (testDirDescriptor k erlangConfig moduleindex erlParser erlangApp src).name =
      moduleName src ++ "_beam_files".toList ∧
    strings.TrimSuffix
      (testDirDescriptor k erlangConfig moduleindex erlParser erlangApp src).name
      "_beam_files".toList = moduleName src := by
  have hname : (testDirDescriptor k erlangConfig moduleindex erlParser erlangApp src).name =
      moduleName src ++ "_beam_files".toList := by
    rw [testDirDescriptor_name]
    unfold ruleNameForTestSrc
    simp only
    rw [moduleName_testDirArtifact src hsrc]
    unfold isSuite at hsuite
    rw [if_pos hsuite]
  exact ⟨hname, by rw [hname, strings.TrimSuffix_append]⟩

/-- The key under which the descriptor of a test-directory source that is
no suite is stored is the module name of no suite. -/
theorem testDirDescriptor_key_other (hsrc : strings.HasSuffix src ".erl".toList = true)
    (hsuite : isSuite src = false) (m : Str)
    (hm : strings.HasSuffix m "_SUITE".toList = true) :
    strings.TrimSuffix
      (testDirDescriptor k erlangConfig moduleindex erlParser erlangApp src).name
      "_beam_files".toList ≠ m := by
  obtain ⟨w, rfl⟩ := (strings.HasSuffix_iff _ _).mp hsrc
  obtain ⟨u, rfl⟩ := (strings.HasSuffix_iff _ _).mp hm
  have hname : (testDirDescriptor k erlangConfig moduleindex erlParser erlangApp
      (w ++ ".erl".toList)).name = ruleName w ++ "_beam".toList := by
    rw [testDirDescriptor_name]
    unfold ruleNameForTestSrc
    simp only
    rw [moduleName_testDirArtifact _ hsrc]
    unfold isSuite at hsuite
    rw [hsuite]
    simp only [Bool.false_eq_true, if_false]
    rw [testDirArtifact_erl, ruleName_beam]
  rw [hname]
  have hno : strings.HasSuffix (ruleName w ++ "_beam".toList) "_beam_files".toList = false := by
    cases hc : strings.HasSuffix (ruleName w ++ "_beam".toList) "_beam_files".toList with
    | false => rfl
    | true =>
      exfalso
      obtain ⟨v, hv⟩ := (strings.HasSuffix_iff _ _).mp hc
      exact append_ne_of_last (ruleName w) v "_beam".toList "_beam_files".toList 'm' 's'
        "aeb_".toList "elif_maeb_".toList (by decide) (by decide) (by decide) hv
  rw [TrimSuffix_of_not _ _ hno]
  exact append_ne_of_last (ruleName w) u "_beam".toList "_SUITE".toList 'm' 'E'
    "aeb_".toList "TIUS_".toList (by decide) (by decide) (by decide)

end testDirDescriptorFacts

/-- The entry of `rulesByName` for the module of a suite is the suite's own
descriptor, when the suites have pairwise different module names. -/
theorem rulesByName_suite (k : Consts) (erlangConfig : ErlangConfig)
    (moduleindex : Moduleindex) (erlParser : Str → ErlAttrs) (erlangApp : ErlangApp)
    (hsuf : ∀ x ∈ erlangApp.TestSrcs, strings.HasSuffix x ".erl".toList = true)
    (huniq : SuitesUnique erlangApp) (t : Str) (ht : t ∈ erlangApp.TestSrcs)
    (hsuite : isSuite t = true) :
    (rulesByName (erlangApp.TestSrcs.Values.map
      (testDirDescriptor k erlangConfig moduleindex erlParser erlangApp))).lookup
        (moduleName t) =
      some (testDirDescriptor k erlangConfig moduleindex erlParser erlangApp t) := by
  have hkey := (testDirDescriptor_key_suite k erlangConfig moduleindex erlParser erlangApp t
    (hsuf t ht) hsuite).2
  have h := lookup_foldl_mapPut
    (fun r : Rule => strings.TrimSuffix r.name "_beam_files".toList) (fun r => r)
    (testDirDescriptor k erlangConfig moduleindex erlParser erlangApp t)
    (erlangApp.TestSrcs.Values.map
      (testDirDescriptor k erlangConfig moduleindex erlParser erlangApp))
    (List.mem_map.mpr ⟨t, (MutableSet.mem_Values _ _).mpr ht, rfl⟩) ?_ []
  · simp only [hkey] at h
    exact h
  · intro r hr hk
    obtain ⟨a, ha, rfl⟩ := List.mem_map.mp hr
    have ha' : a ∈ erlangApp.TestSrcs := (MutableSet.mem_Values _ _).mp ha
    simp only [hkey] at hk
    cases hs : isSuite a with
    | true =>
      have hka := (testDirDescriptor_key_suite k erlangConfig moduleindex erlParser erlangApp a
        (hsuf a ha') hs).2
      rw [hka] at hk
      rw [huniq t ht a ha' hsuite hk]
    | false =>
      exact absurd hk (testDirDescriptor_key_other k erlangConfig moduleindex erlParser
        erlangApp a (hsuf a ha') hs (moduleName t) hsuite)

/-- The loop of `CtSuiteRules` when every suite of the list finds its rule
in `rulesByName`. -/
theorem ctSuiteLoop (k : Consts) (byName : List (Str × Rule)) (g : Str → Rule) :
    ∀ (l : List Str) (rs : List Rule),
      (∀ t ∈ l, isSuite t = true →
        ∃ d rb rd, byName.lookup (moduleName t) = some d ∧ runtimeBeam d = some rb ∧
          runtimeDeps d = some rd ∧ ctTest k (moduleName t) d.name rb rd = g t) →
      l.foldl (ctSuiteStep k byName) (some rs) =
        some (rs ++ (l.filter isSuite).map g) := by
  intro l
  induction l with
  | nil => intro rs _; simp
  | cons a t ih =>
    intro rs h
    have ht : ∀ u ∈ t, isSuite u = true →
        ∃ d rb rd, byName.lookup (moduleName u) = some d ∧ runtimeBeam d = some rb ∧
          runtimeDeps d = some rd ∧ ctTest k (moduleName u) d.name rb rd = g u :=
      fun u hu => h u (List.mem_cons_of_mem _ hu)
    simp only [List.foldl]
    cases hs : isSuite a with
    | true =>
      obtain ⟨d, rb, rd, h1, h2, h3, h4⟩ := h a (List.mem_cons_self _ _) hs
      have hstep : ctSuiteStep k byName (some rs) a = some (rs ++ [g a]) := by
        unfold ctSuiteStep
        unfold isSuite at hs
        simp only [hs, if_true, h1, h2, h3, h4]
      rw [hstep, ih _ ht]
      simp [List.filter, hs]
    | false =>
      have hstep : ctSuiteStep k byName (some rs) a = some rs := by
        unfold ctSuiteStep
        unfold isSuite at hs
        simp only [hs, Bool.false_eq_true, if_false]
      rw [hstep, ih _ ht]
      simp [List.filter, hs]

theorem ctSummary_ctTest (k : Consts) (modName name : Str) (rb rd : List Str) :
    ctSummary (ctTest k modName name rb rd) =
      some (k.ctTestKind, modName, (':' :: name) :: rb, ":test_erlang_app".toList :: rd,
        some (AttrValue.glob ["test/".toList ++ modName ++ "_data/**/*".toList])) := by
  have h1 : (ctTest k modName name rb rd).AttrStrings "compiled_suites" =
      (':' :: name) :: rb := by
    simp [ctTest, AttrStrings_SetAttr_other, AttrStrings_SetAttr_same]
  have h2 : (ctTest k modName name rb rd).AttrStrings "deps" =
      ":test_erlang_app".toList :: rd := by
    unfold ctTest
    exact AttrStrings_SetAttr_same _ _ _
  have h3 : (ctTest k modName name rb rd).Attr "data" =
      some (AttrValue.glob ["test/".toList ++ modName ++ "_data/**/*".toList]) := by
    unfold ctTest
    simp only
    rw [Attr_SetAttr_other _ _ _ _ (by decide), Attr_SetAttr_same]
  unfold ctSummary
  rw [h1, h2, h3]
  rfl

/-- Outside the specification's assumption that module names are unique
within an application: in `twoSuitesApp` two suites have the module name
`a_SUITE`, the suite `test/a_SUITE.erl` has the runtime-only artifact
`test/helper.beam`, and `CtSuiteRules` gives both descriptors named
`a_SUITE` the `compiled_suites` of the descriptor stored last under that
name, which hold the label alone. -/
theorem suite_with_shared_name :
    (descriptorFor (twoSuitesApp.TestDirBeamFilesRules sampleConsts ⟨[], []⟩ none
        suiteHelperParser).1 "test/a_SUITE.erl".toList).map
      (fun d => d.PrivateAttr "runtime_beam") = some ["test/helper.beam".toList] ∧
    (twoSuitesApp.CtSuiteRules sampleConsts
        (twoSuitesApp.TestDirBeamFilesRules sampleConsts ⟨[], []⟩ none
          suiteHelperParser).1).map
      (fun out => out.map (fun r => r.AttrStrings "compiled_suites")) =
      some [[":a_SUITE_beam_files".toList], [":a_SUITE_beam_files".toList]] := by
  decide

/-- C14, as stated, fails: in `compiledSuiteApp` exactly one test-directory
source, `test/b_SUITE.beam`, has a module name ending in `_SUITE`, and
`CtSuiteRules`, given the descriptors of `TestDirBeamFilesRules` for the
same application, returns no test-execution descriptor for it: the
compilation descriptors are named `test_b_SUITE_beam_beam` and
`test_helper_beam`, none is found under `b_SUITE` and the run fails. -/
theorem suite_source_without_descriptor :
    compiledSuiteApp.TestSrcs.Values.filter isSuite = ["test/b_SUITE.beam".toList] ∧
    (compiledSuiteApp.TestDirBeamFilesRules sampleConsts ⟨[], []⟩ none emptyParser).1.map
      (fun r => r.name) = ["test_b_SUITE_beam_beam".toList, "test_helper_beam".toList] ∧
    compiledSuiteApp.CtSuiteRules sampleConsts
      (compiledSuiteApp.TestDirBeamFilesRules sampleConsts ⟨[], []⟩ none emptyParser).1 =
        none := by
  decide

/-- C14 (amended): for an application whose role sets were built by
`AddFile` and whose suites have pairwise different module names (module
names being unique within an application, as the specification assumes),
`CtSuiteRules`, given the descriptors of `TestDirBeamFilesRules` for the
same application, returns (without failing) exactly one test-execution
descriptor for each test-directory source whose module name ends in
`_SUITE`, in sorted source order, and none for the others; the descriptor
is named by the module, its `compiled_suites` is the label
`:<module>_beam_files` followed by the runtime-only artifacts of that
suite's descriptor, its `deps` is `:test_erlang_app` followed by that
suite's runtime-only dependencies, its `data` the glob
`test/<module>_data/**/*`. -/
theorem CtSuiteRules_descriptors (erlangApp : ErlangApp) (k : Consts)
    (erlangConfig : ErlangConfig) (loaded : Option Moduleindex) (erlParser : Str → ErlAttrs)
    (hbuilt : BuiltByAddFile erlangApp) (huniq : SuitesUnique erlangApp) :
    ∃ out,
      erlangApp.CtSuiteRules k
        (erlangApp.TestDirBeamFilesRules k erlangConfig loaded erlParser).1 = some out ∧
      out.map ctSummary =
        (erlangApp.TestSrcs.Values.filter isSuite).map
          (suiteExpectation k
            (erlangApp.TestDirBeamFilesRules k erlangConfig loaded erlParser).1) := by
  obtain ⟨_, hsuf, _, _, _⟩ := hbuilt.suffixes
  have hloop := ctSuiteLoop k
    (rulesByName (erlangApp.TestSrcs.Values.map
      (testDirDescriptor k erlangConfig (moduleindexOr erlangApp loaded) erlParser erlangApp)))
    (suiteRule k erlangConfig (moduleindexOr erlangApp loaded) erlParser erlangApp)
    erlangApp.TestSrcs.Values [] (by
      intro t ht hs
      have ht' : t ∈ erlangApp.TestSrcs := (MutableSet.mem_Values _ _).mp ht
      refine ⟨_, _, _, rulesByName_suite k erlangConfig _ erlParser erlangApp hsuf huniq t ht'
        hs, testDirDescriptor_runtimeBeam _ _ _ _ _ _, testDirDescriptor_runtimeDeps _ _ _ _ _ _,
        ?_⟩
      rw [(testDirDescriptor_key_suite k erlangConfig _ erlParser erlangApp t (hsuf t ht')
        hs).1]
      rfl)
  refine ⟨(erlangApp.TestSrcs.Values.filter isSuite).map
    (suiteRule k erlangConfig (moduleindexOr erlangApp loaded) erlParser erlangApp), ?_, ?_⟩
  · unfold ErlangApp.CtSuiteRules
    rw [TestDirBeamFilesRules_rules, hloop, List.nil_append]
  · rw [List.map_map]
    apply List.map_congr_left
    intro t ht
    have ht' : t ∈ erlangApp.TestSrcs :=
      (MutableSet.mem_Values _ _).mp (List.mem_filter.mp ht).1
    simp only [Function.comp, suiteRule]
    rw [ctSummary_ctTest]
    unfold suiteExpectation
    rw [descriptorFor_TestDirBeamFilesRules erlangApp k erlangConfig loaded erlParser t ht']
    rfl

/-- Witness of C14 (amended) on `sampleApp`, whose one suite is
`test/x_SUITE.erl`. -/
theorem CtSuiteRules_descriptors_witness :
    BuiltByAddFile sampleApp ∧ SuitesUnique sampleApp ∧
    ∃ out,
      sampleApp.CtSuiteRules sampleConsts
        (sampleApp.TestDirBeamFilesRules sampleConsts ⟨[], []⟩ none
          (callParser "helper".toList)).1 = some out ∧
      out.map ctSummary =
        (sampleApp.TestSrcs.Values.filter isSuite).map
          (suiteExpectation sampleConsts
            (sampleApp.TestDirBeamFilesRules sampleConsts ⟨[], []⟩ none
              (callParser "helper".toList)).1) :=
  ⟨sampleApp_built, by unfold SuitesUnique; decide,
    CtSuiteRules_descriptors sampleApp sampleConsts ⟨[], []⟩ none (callParser "helper".toList)
      sampleApp_built (by unfold SuitesUnique; decide)⟩

/-! ## Unit-test aggregation (C13) -/

theorem MutableSet.mem_Range (s : MutableSet) (x : Str) : x ∈ s.Range ↔ x ∈ s := by
  unfold MutableSet.Range
  exact List.mem_dedup

theorem isSome_lookup_mapPut {β : Type} (l : List (Str × β)) (k k' : Str) (v : β)
    (h : (l.lookup k').isSome = true) : ((mapPut l k v).lookup k').isSome = true := by
  by_cases hk : k' = k
  · subst hk
    rw [lookup_mapPut_same]
    rfl
  · rw [lookup_mapPut_other _ _ _ _ hk]
    exact h

theorem mem_of_lookup {β : Type} (l : List (Str × β)) (k : Str) (v : β)
    (h : l.lookup k = some v) : (k, v) ∈ l := by
  induction l with
  | nil => simp [List.lookup] at h
  | cons e rest ih =>
    obtain ⟨k', v'⟩ := e
    by_cases hk : k = k'
    · subst hk
      simp [List.lookup] at h
      subst h
      exact List.mem_cons_self _ _
    · have hb : (k == k') = false := by simpa using hk
      simp only [List.lookup, hb] at h
      exact List.mem_cons_of_mem _ (ih h)

theorem tests_not_suite (p : Str) :
    strings.HasSuffix (p ++ "_tests".toList) "_SUITE".toList = false :=
  strings.not_HasSuffix p _ _ (by decide) (by decide)

/-- The key a step of the second loop of `EunitRule` writes is the module
name of the test source or that name without `_tests`. -/
theorem eunitTestStep_other (modMap : List (Str × Str)) (u key : Str)
    (h1 : moduleName u ≠ key) (h2 : moduleName u ≠ key ++ "_tests".toList) :
    (eunitTestStep modMap u).lookup key = modMap.lookup key := by
  have htrim : strings.HasSuffix (moduleName u) "_tests".toList = true →
      strings.TrimSuffix (moduleName u) "_tests".toList ≠ key := by
    intro hs hk
    obtain ⟨w, hw⟩ := (strings.HasSuffix_iff _ _).mp hs
    rw [hw, strings.TrimSuffix_append] at hk
    exact h2 (by rw [hw, hk])
  unfold eunitTestStep
  simp only
  split
  · split
    · rename_i hs
      split
      · exact lookup_mapPut_other _ _ _ _ (fun h => htrim hs h.symm)
      · exact lookup_mapPut_other _ _ _ _ (fun h => h1 h.symm)
    · exact lookup_mapPut_other _ _ _ _ (fun h => h1 h.symm)
  · rfl

/-- A test module `p_tests` is associated with `p` when `p` is a key of the
map. -/
theorem eunitTestStep_tests (modMap : List (Str × Str)) (t p : Str)
    (htp : moduleName t = p ++ "_tests".toList) (hp : (modMap.lookup p).isSome = true) :
    (eunitTestStep modMap t).lookup p = some (testLabel t) := by
  unfold eunitTestStep
  simp only [htp, tests_not_suite, strings.HasSuffix_append, strings.TrimSuffix_append, hp,
    Bool.not_false, if_true]
  exact lookup_mapPut_same _ _ _

/-- A test module that is no suite and whose name without `_tests` is no
key of the map gets an entry of its own. -/
theorem eunitTestStep_standalone (modMap : List (Str × Str)) (u : Str)
    (hsuite : isSuite u = false)
    (hfree : strings.HasSuffix (moduleName u) "_tests".toList = true →
      modMap.lookup (strings.TrimSuffix (moduleName u) "_tests".toList) = none) :
    (eunitTestStep modMap u).lookup (moduleName u) = some (testLabel u) := by
  unfold isSuite at hsuite
  unfold eunitTestStep
  simp only [hsuite, Bool.not_false, if_true]
  split
  · rename_i hs
    rw [hfree hs]
    simp only [Option.isSome_none, Bool.false_eq_true, if_false]
    exact lookup_mapPut_same _ _ _
  · exact lookup_mapPut_same _ _ _

theorem eunitTestStep_isSome (modMap : List (Str × Str)) (u key : Str)
    (h : (modMap.lookup key).isSome = true) :
    ((eunitTestStep modMap u).lookup key).isSome = true := by
  unfold eunitTestStep
  simp only
  repeat' split
  all_goals first | exact h | exact isSome_lookup_mapPut _ _ _ _ h

/-- A step writes the module name of its test source or a key that is
already in the map. -/
theorem eunitTestStep_none (modMap : List (Str × Str)) (u key : Str)
    (h : modMap.lookup key = none) (hu : moduleName u ≠ key) :
    (eunitTestStep modMap u).lookup key = none := by
  unfold eunitTestStep
  simp only
  split
  · split
    · split
      · rename_i hk
        rw [lookup_mapPut_other _ _ _ _ (by
          intro he
          rw [← he, h] at hk
          simp at hk)]
        exact h
      · rw [lookup_mapPut_other _ _ _ _ (fun he => hu he.symm)]
        exact h
    · rw [lookup_mapPut_other _ _ _ _ (fun he => hu he.symm)]
      exact h
  · exact h

theorem eunitSrcLoop_isSome (l : List Str) (g : Str) (hg : g ∈ l)
    (modMap : List (Str × Str)) :
    ((l.foldl eunitSrcStep modMap).lookup (moduleName g)).isSome = true := by
  refine foldl_reaches eunitSrcStep (fun m => (m.lookup (moduleName g)).isSome = true)
    (fun s a hs => isSome_lookup_mapPut _ _ _ _ hs) g ?_ l hg modMap
  intro s
  unfold eunitSrcStep
  rw [lookup_mapPut_same]
  rfl

theorem eunitSrcLoop_none (l : List Str) (key : Str) (h : ∀ g ∈ l, moduleName g ≠ key) :
    (l.foldl eunitSrcStep []).lookup key = none := by
  have key' : ∀ (l : List Str), (∀ g ∈ l, moduleName g ≠ key) →
      ∀ m : List (Str × Str), m.lookup key = none →
        (l.foldl eunitSrcStep m).lookup key = none := by
    intro l
    induction l with
    | nil => intro _ m hm; exact hm
    | cons a t ih =>
      intro hl m hm
      simp only [List.foldl]
      apply ih (fun g hg => hl g (List.mem_cons_of_mem _ hg))
      unfold eunitSrcStep
      rw [lookup_mapPut_other _ _ _ _ (fun he => hl a (List.mem_cons_self _ _) he.symm)]
      exact hm
  exact key' l h [] rfl

theorem eunitCollect_mem (modMap : List (Str × Str)) (key v : Str)
    (h : modMap.lookup key = some v) (hv : v ≠ []) (st : MutableSet × MutableSet) :
    v ∈ (modMap.foldl eunitCollect st).2 := by
  refine foldl_reaches eunitCollect (fun st => v ∈ st.2) ?_ (key, v) ?_ modMap
    (mem_of_lookup _ _ _ h) st
  · intro s a hs
    unfold eunitCollect
    simp only
    split
    · exact (MutableSet.mem_Add _ _ _).mpr (Or.inl hs)
    · exact hs
  · intro s
    unfold eunitCollect
    simp only [ne_eq, hv, not_false_eq_true, if_true]
    exact (MutableSet.mem_Add _ _ _).mpr (Or.inr rfl)

theorem EunitRule_compiled_suites (erlangApp : ErlangApp) (k : Consts) :
    (erlangApp.EunitRule k).AttrStrings "compiled_suites" =
      ((eunitModMap erlangApp).foldl eunitCollect (NewMutableSet, NewMutableSet)).2.Values := by
  unfold ErlangApp.EunitRule
  simp only
  rw [AttrStrings_SetAttr_other _ _ _ _ (by decide),
    AttrStrings_setNonEmpty_same _ _ _ (AttrStrings_NewRule _ _ _)]

theorem testLabel_ne_nil (t : Str) : testLabel t ≠ [] := by
  unfold testLabel
  exact List.cons_ne_nil _ _

/-- Outside the specification's assumption that module names are unique
within an application: in `twoShopTestsApp` two test-directory sources
define `shop_tests`, and the map does not associate `shop` with the label of
`test/shop_tests.erl`, nor is that label in `compiled_suites`: the entry of
`shop` is overwritten by the other source that defines `shop_tests`. -/
theorem tests_label_overwritten :
    "src/shop.erl".toList ∈ twoShopTestsApp.Srcs ∧
    moduleName "src/shop.erl".toList = "shop".toList ∧
    "test/shop_tests.erl".toList ∈ twoShopTestsApp.TestSrcs ∧
    moduleName "test/shop_tests.erl".toList = "shop".toList ++ "_tests".toList ∧
    (eunitModMap twoShopTestsApp).lookup "shop".toList ≠
      some (testLabel "test/shop_tests.erl".toList) ∧
    testLabel "test/shop_tests.erl".toList ∉
      (twoShopTestsApp.EunitRule sampleConsts).AttrStrings "compiled_suites" := by
  decide

/-- The association of `EunitRule` for a production module: when a
production source defines module `p`, no production source defines
`p_tests`, and `t` is the only test-directory source whose module is `p` or
`p_tests`, its module being `p_tests`, the map of `EunitRule` associates `p`
with the label of the compiled artifact of `t`, has no entry keyed
`p_tests`, and the label is in `compiled_suites`, in every enumeration
order. -/
theorem eunit_tests_association (erlangApp : ErlangApp) (k : Consts) (s p t : Str)
    (hs : s ∈ erlangApp.Srcs) (hsp : moduleName s = p)
    (ht : t ∈ erlangApp.TestSrcs) (htp : moduleName t = p ++ "_tests".toList)
    (honly : ∀ v ∈ erlangApp.TestSrcs,
      moduleName v = p ∨ moduleName v = p ++ "_tests".toList → v = t)
    (hnoprod : ∀ g ∈ erlangApp.Srcs, moduleName g ≠ p ++ "_tests".toList) :
    (eunitModMap erlangApp).lookup p = some (testLabel t) ∧
    (eunitModMap erlangApp).lookup (p ++ "_tests".toList) = none ∧
    testLabel t ∈ (erlangApp.EunitRule k).AttrStrings "compiled_suites" := by
  have hp0 : ((erlangApp.Srcs.Range.foldl eunitSrcStep []).lookup p).isSome = true := by
    rw [← hsp]
    exact eunitSrcLoop_isSome _ s ((MutableSet.mem_Range _ _).mpr hs) _
  have hpt0 : (erlangApp.Srcs.Range.foldl eunitSrcStep []).lookup (p ++ "_tests".toList) =
      none :=
    eunitSrcLoop_none _ _ (fun g hg => hnoprod g ((MutableSet.mem_Range _ _).mp hg))
  have hpne : p ≠ p ++ "_tests".toList := by
    intro h
    have := congrArg List.length h
    simp at this
  -- the entry of `p`
  have h1 : (eunitModMap erlangApp).lookup p = some (testLabel t) := by
    unfold eunitModMap
    refine foldl_reaches_inv eunitTestStep (fun m => (m.lookup p).isSome = true)
      (fun m => m.lookup p = some (testLabel t)) t erlangApp.TestSrcs.Range
      (fun m a _ hm => eunitTestStep_isSome m a p hm) ?_
      (fun m hm => eunitTestStep_tests m t p htp hm)
      ((MutableSet.mem_Range _ _).mpr ht) _ hp0
    intro m a ha hI hP
    by_cases hat : a = t
    · subst hat
      exact eunitTestStep_tests m a p htp hI
    · have ha' : a ∈ erlangApp.TestSrcs := (MutableSet.mem_Range _ _).mp ha
      rw [eunitTestStep_other m a p (fun h => hat (honly a ha' (Or.inl h)))
        (fun h => hat (honly a ha' (Or.inr h)))]
      exact hP
  -- no entry of `p_tests`
  have h2 : (eunitModMap erlangApp).lookup (p ++ "_tests".toList) = none := by
    unfold eunitModMap
    have inv := foldl_invariant eunitTestStep
      (fun m => (m.lookup p).isSome = true ∧ m.lookup (p ++ "_tests".toList) = none)
      (fun m a hm => by
        refine ⟨eunitTestStep_isSome m a p hm.1, ?_⟩
        by_cases ha : moduleName a = p ++ "_tests".toList
        · -- the step of a module `p_tests` writes the key `p`
          unfold eunitTestStep
          simp only [ha, tests_not_suite, strings.HasSuffix_append,
            strings.TrimSuffix_append, hm.1, Bool.not_false, if_true]
          rw [lookup_mapPut_other _ _ _ _ (fun e => hpne e.symm)]
          exact hm.2
        · exact eunitTestStep_none m a _ hm.2 ha)
      erlangApp.TestSrcs.Range _ ⟨hp0, hpt0⟩
    exact inv.2
  refine ⟨h1, h2, ?_⟩
  rw [EunitRule_compiled_suites, MutableSet.mem_Values]
  exact eunitCollect_mem _ p _ h1 (testLabel_ne_nil t) _

/-- The standalone entry of `EunitRule`: a test-directory source `u` that is
no suite, whose module name without `_tests` is the name of no production
module and of no test-directory module, and that is the only test-directory
source of module `m` or `m_tests`, `m` being its module, has the entry `m` of
the map with its own label, in every enumeration order. -/
theorem eunit_standalone_entry (erlangApp : ErlangApp) (u : Str)
    (hu : u ∈ erlangApp.TestSrcs) (husuite : isSuite u = false)
    (hufree : strings.HasSuffix (moduleName u) "_tests".toList = true →
      (∀ g ∈ erlangApp.Srcs,
        moduleName g ≠ strings.TrimSuffix (moduleName u) "_tests".toList) ∧
      (∀ v ∈ erlangApp.TestSrcs,
        moduleName v ≠ strings.TrimSuffix (moduleName u) "_tests".toList))
    (huonly : ∀ v ∈ erlangApp.TestSrcs,
      moduleName v = moduleName u ∨ moduleName v = moduleName u ++ "_tests".toList → v = u) :
    (eunitModMap erlangApp).lookup (moduleName u) = some (testLabel u) := by
  unfold eunitModMap
  have hfree0 : strings.HasSuffix (moduleName u) "_tests".toList = true →
      (erlangApp.Srcs.Range.foldl eunitSrcStep []).lookup
        (strings.TrimSuffix (moduleName u) "_tests".toList) = none := by
    intro hsuf
    exact eunitSrcLoop_none _ _
      (fun g hg => (hufree hsuf).1 g ((MutableSet.mem_Range _ _).mp hg))
  refine foldl_reaches_inv eunitTestStep
    (fun m => strings.HasSuffix (moduleName u) "_tests".toList = true →
      m.lookup (strings.TrimSuffix (moduleName u) "_tests".toList) = none)
    (fun m => m.lookup (moduleName u) = some (testLabel u)) u erlangApp.TestSrcs.Range
    ?_ ?_ (fun m hm => eunitTestStep_standalone m u husuite hm)
    ((MutableSet.mem_Range _ _).mpr hu) _ hfree0
  · intro m a ha hI hsuf
    exact eunitTestStep_none m a _ (hI hsuf)
      ((hufree hsuf).2 a ((MutableSet.mem_Range _ _).mp ha))
  · intro m a ha hI hP
    by_cases hau : a = u
    · subst hau
      exact eunitTestStep_standalone m a husuite hI
    · have ha' : a ∈ erlangApp.TestSrcs := (MutableSet.mem_Range _ _).mp ha
      rw [eunitTestStep_other m a (moduleName u)
        (fun h => hau (huonly a ha' (Or.inl h)))
        (fun h => hau (huonly a ha' (Or.inr h)))]
      exact hP

/-- The association on `shopApp`: production module `shop`, test module
`shop_tests` in `test/shop_tests.erl`. -/
theorem eunit_tests_association_shop :
    (eunitModMap shopApp).lookup "shop".toList =
      some (testLabel "test/shop_tests.erl".toList) ∧
    (eunitModMap shopApp).lookup ("shop".toList ++ "_tests".toList) = none ∧
    testLabel "test/shop_tests.erl".toList ∈
      (shopApp.EunitRule sampleConsts).AttrStrings "compiled_suites" :=
  eunit_tests_association shopApp sampleConsts "src/shop.erl".toList "shop".toList
    "test/shop_tests.erl".toList
    (by decide) (by decide) (by decide) (by decide) (by decide) (by decide)

/-- C13 fails on the code for `EunitRule`: the test on line 718 reads the
map as filled so far, test-directory modules included, where the comment on
lines 707-708 and the specification name the production modules.  In
`utilTestsApp` (production module `shop`, test-directory modules
`shop_tests`, `util` and `util_tests`, enumerated in sorted order) the
module `shop` is associated with the label of `shop_tests`, as the claim
says; but `util_tests`, whose name is no production module name plus
`_tests`, gets no entry of its own: its label replaces that of `util` under
the key `util`, and the label of `util` is not in `compiled_suites`. -/
theorem test_module_absorbs_tests :
    utilTestsApp.TestSrcs.Range = utilTestsApp.TestSrcs.Values ∧
    utilTestsApp.Srcs.Values.map moduleName = ["shop".toList] ∧
    utilTestsApp.TestSrcs.Values.map moduleName =
      ["shop_tests".toList, "util".toList, "util_tests".toList] ∧
    (eunitModMap utilTestsApp).lookup "shop".toList =
      some (testLabel "test/shop_tests.erl".toList) ∧
    (eunitModMap utilTestsApp).lookup "util_tests".toList = none ∧
    (eunitModMap utilTestsApp).lookup "util".toList =
      some (testLabel "test/util_tests.erl".toList) ∧
    (utilTestsApp.EunitRule sampleConsts).AttrStrings "compiled_suites" =
      [":test_shop_tests_beam".toList, ":test_util_tests_beam".toList] ∧
    testLabel "test/util.erl".toList ∉
      (utilTestsApp.EunitRule sampleConsts).AttrStrings "compiled_suites" := by
  decide

/-! ## Evaluations of the generators on `sampleApp` -/

/-- The library-qualified self-reference in test-directory resolution: in
`sampleApp`, named `myapp`, the test-directory file `test/x_SUITE.erl` with
the library-qualified include `myapp/include/foo.hrl` gets `myapp` itself
in the `deps` of its descriptor (and no header), while `BeamFilesRules` on
the same reference from `src/a.erl` resolves the header through the
self-reference branch and adds no dependency. -/
theorem test_dir_names_own_application :
    (descriptorFor (sampleApp.TestDirBeamFilesRules sampleConsts ⟨[], []⟩ none
        selfRefParser).1 "test/x_SUITE.erl".toList).map
      (fun r => (r.AttrStrings "hdrs", r.AttrStrings "deps")) =
      some ([], [sampleApp.Name]) ∧
    (descriptorFor (sampleApp.BeamFilesRules sampleConsts ⟨[], []⟩ none
        selfRefParser).1 "src/a.erl".toList).map
      (fun r => (r.AttrStrings "hdrs", r.AttrStrings "deps")) =
      some ([fooHrl], []) := by
  decide

/-- C18, as stated, fails: with `kernel` in `IgnoredDeps` and `kernel` the
owner of `gen_server` in the index, the behaviour `gen_server` of
`src/a.erl` puts `kernel` in the `deps` of the descriptor: the loop over the
referenced modules does not consult the ignore-list. -/
theorem ignored_owner_of_behaviour_in_deps :
    "kernel".toList ∈ kernelIgnored.IgnoredDeps ∧
    (descriptorFor (sampleApp.BeamFilesRules sampleConsts kernelIgnored (some otpIndex)
        genServerParser).1 "src/a.erl".toList).map (fun r => r.AttrStrings "deps") =
      some ["kernel".toList] := by
  decide

/-- C19 fails on the code for `TestDirBeamFilesRules`: on `sampleApp` it
returns the two per-file descriptors and nothing else, while
`BeamFilesRules` and `testBeamFilesRules` end with the group of the
artifacts of their descriptors. -/
theorem test_dir_emits_no_aggregate :
    (sampleApp.TestDirBeamFilesRules sampleConsts ⟨[], []⟩ none emptyParser).1.map
      (fun r => (r.name, r.AttrStrings "srcs", r.AttrStrings "outs")) =
      [("test_helper_beam".toList, ["test/helper.erl".toList], ["test/helper.beam".toList]),
       ("x_SUITE_beam_files".toList, ["test/x_SUITE.erl".toList],
         ["test/x_SUITE.beam".toList])] ∧
    (sampleApp.BeamFilesRules sampleConsts ⟨[], []⟩ none emptyParser).1.map
      (fun r => (r.name, r.AttrStrings "srcs", r.AttrStrings "outs")) =
      [("ebin_a_beam".toList, ["src/a.erl".toList], ["ebin/a.beam".toList]),
       ("ebin_b_beam".toList, ["src/b.erl".toList], ["ebin/b.beam".toList]),
       ("beam_files".toList, ["ebin/a.beam".toList, "ebin/b.beam".toList], [])] ∧
    (sampleApp.testBeamFilesRules sampleConsts ⟨[], []⟩ none emptyParser).1.map
      (fun r => (r.name, r.AttrStrings "srcs", r.AttrStrings "outs")) =
      [("test_a_beam".toList, ["src/a.erl".toList], ["test/a.beam".toList]),
       ("test_b_beam".toList, ["src/b.erl".toList], ["test/b.beam".toList]),
       ("test_beam_files".toList, ["test/a.beam".toList, "test/b.beam".toList], [])] := by
  decide

/-! ## Where the dependencies of a descriptor come from -/

/-- An invariant that the steps on the members of the list keep holds after
the loop. -/
theorem foldl_invariant_mem {σ α : Type} (f : σ → α → σ) (I : σ → Prop) :
    ∀ (l : List α), (∀ s, ∀ a ∈ l, I s → I (f s a)) → ∀ s, I s → I (l.foldl f s) := by
  intro l
  induction l with
  | nil => intro _ s hs; exact hs
  | cons a t ih =>
    intro h s hs
    simp only [List.foldl]
    exact ih (fun s b hb => h s b (List.mem_cons_of_mem _ hb)) _
      (h s a (List.mem_cons_self _ _) hs)

section origin

variable (erlangApp : ErlangApp) (erlangConfig : ErlangConfig) (moduleindex : Moduleindex)
  (src : Str)

theorem addIncludeLib_origin (incs : List Str) (Q : Str → Prop)
    (hQ : ∀ x, (∃ inc ∈ incs, (strings.Split inc '/').head? = some x ∧
      x ≠ erlangApp.Name ∧ x ∉ erlangConfig.IgnoredDeps) → Q x)
    (st : MutableSet × MutableSet) (hst : ∀ x ∈ st.2, Q x) :
    ∀ x ∈ (incs.foldl (addIncludeLib erlangApp erlangConfig src) st).2, Q x := by
  refine foldl_invariant_mem (addIncludeLib erlangApp erlangConfig src)
    (fun st => ∀ x ∈ st.2, Q x) incs ?_ st hst
  intro s a ha hs x hx
  unfold addIncludeLib at hx
  simp only at hx
  split at hx
  · exact hs x hx
  · split at hx
    · exact hs x hx
    · rename_i p0 rest hsplit
      split at hx
      · split at hx <;> exact hs x hx
      · rename_i hname
        split at hx
        · rename_i hign
          rcases (MutableSet.mem_Add _ _ _).mp hx with hx' | hx'
          · exact hs x hx'
          · subst hx'
            refine hQ x ⟨a, ha, by rw [hsplit]; rfl, hname, ?_⟩
            simpa [MutableSet.Contains] using hign
        · exact hs x hx

theorem addTestIncludeLib_origin (incs : List Str) (Q : Str → Prop)
    (hQ : ∀ x, (∃ inc ∈ incs, (strings.Split inc '/').head? = some x ∧
      x ∉ erlangConfig.IgnoredDeps) → Q x)
    (st : MutableSet × MutableSet) (hst : ∀ x ∈ st.2, Q x) :
    ∀ x ∈ (incs.foldl (addTestIncludeLib erlangApp erlangConfig src) st).2, Q x := by
  refine foldl_invariant_mem (addTestIncludeLib erlangApp erlangConfig src)
    (fun st => ∀ x ∈ st.2, Q x) incs ?_ st hst
  intro s a ha hs x hx
  unfold addTestIncludeLib at hx
  simp only at hx
  split at hx
  · exact hs x hx
  · split at hx
    · exact hs x hx
    · rename_i p0 rest hsplit
      split at hx
      · rename_i hign
        rcases (MutableSet.mem_Add _ _ _).mp hx with hx' | hx'
        · exact hs x hx'
        · subst hx'
          refine hQ x ⟨a, ha, by rw [hsplit]; rfl, ?_⟩
          simpa [MutableSet.Contains] using hign
      · exact hs x hx

theorem addModule_origin (mods : List Str) (Q : Str → Prop)
    (hmap : ∀ x, (∃ m ∈ mods, erlangConfig.ModuleMappings.lookup m = some x) → Q x)
    (hidx : ∀ x, (∃ m ∈ mods, erlangConfig.ModuleMappings.lookup m = none ∧
      FindModule moduleindex m = x ∧ x ≠ [] ∧ x ≠ erlangApp.Name) → Q x)
    (st : MutableSet × MutableSet) (hst : ∀ x ∈ st.2, Q x) :
    ∀ x ∈ (mods.foldl (addModule erlangApp erlangConfig moduleindex) st).2, Q x := by
  refine foldl_invariant_mem (addModule erlangApp erlangConfig moduleindex)
    (fun st => ∀ x ∈ st.2, Q x) mods ?_ st hst
  intro s a ha hs x hx
  unfold addModule at hx
  simp only at hx
  split at hx
  · exact hs x hx
  · split at hx
    · rename_i dep hdep
      rcases (MutableSet.mem_Add _ _ _).mp hx with hx' | hx'
      · exact hs x hx'
      · subst hx'
        exact hmap x ⟨a, ha, hdep⟩
    · rename_i hnone
      split at hx
      · rename_i hc
        rcases (MutableSet.mem_Add _ _ _).mp hx with hx' | hx'
        · exact hs x hx'
        · subst hx'
          exact hidx _ ⟨a, ha, hnone, rfl, hc.1, hc.2⟩
      · exact hs x hx

/-- Every name in the dependency set `fileSets` resolves has one of the
three origins. -/
theorem fileSets_deps_origin (erlAttrs : ErlAttrs) :
    ∀ x ∈ (fileSets erlangApp erlangConfig moduleindex src erlAttrs).2.2,
      DepOrigin erlangApp erlangConfig moduleindex erlAttrs x := by
  unfold fileSets
  simp only
  apply addModule_origin
  · intro x h; exact Or.inr (Or.inl h)
  · intro x h; exact Or.inr (Or.inr h)
  · apply addIncludeLib_origin
    · intro x h; exact Or.inl h
    · intro x hx; simp [NewMutableSet] at hx

theorem testFileSets_deps_origin (erlAttrs : ErlAttrs) :
    ∀ x ∈ (testFileSets erlangApp erlangConfig moduleindex src erlAttrs).2.2,
      TestDepOrigin erlangApp erlangConfig moduleindex erlAttrs x := by
  unfold testFileSets
  simp only
  apply addModule_origin
  · intro x h; exact Or.inr (Or.inl h)
  · intro x h; exact Or.inr (Or.inr h)
  · apply addTestIncludeLib_origin
    · intro x h; exact Or.inl h
    · intro x hx; simp [NewMutableSet] at hx

/-- The application itself enters the runtime-only dependency set by no
call. -/
theorem testCalls_not_self (calls : List Str) :
    erlangApp.Name ∉ (calls.foldl (addTestCall erlangApp erlangConfig moduleindex)
      (NewMutableSet, NewMutableSet)).2 := by
  refine foldl_invariant (addTestCall erlangApp erlangConfig moduleindex)
    (fun st => erlangApp.Name ∉ st.2) ?_ calls _ ?_
  · intro s a hs hmem
    unfold addTestCall at hmem
    simp only at hmem
    split at hmem
    · exact hs hmem
    · split at hmem
      · rename_i hc
        rcases (MutableSet.mem_Add _ _ _).mp hmem with h' | h'
        · exact hs h'
        · exact hc.2.1 h'.symm
      · exact hs hmem
  · simp [NewMutableSet]

end origin

/-! ## Self-dependency (C15) -/

/-- C15, as stated, fails: with the explicit mapping of `gen_server` to
`myapp`, the behaviour `gen_server` of `src/a.erl` in the application
`myapp` puts `myapp` in the `deps` of the descriptor of `BeamFilesRules`:
the explicit mapping is followed unconditionally. -/
theorem mapping_names_own_application :
    (descriptorFor (sampleApp.BeamFilesRules sampleConsts selfMapping none
        genServerParser).1 "src/a.erl".toList).map (fun r => r.AttrStrings "deps") =
      some [sampleApp.Name] := by
  decide

/-- C15 (amended): the `runtime_deps` of no descriptor of
`TestDirBeamFilesRules` contain the application's own name, and the `deps`
of the descriptor of a source file in `BeamFilesRules` or
`testBeamFilesRules` do not contain it when the explicit mapping maps none
of the file's referenced modules to the application itself. -/
theorem own_application_only_by_mapping (erlangApp : ErlangApp) (k : Consts)
    (erlangConfig : ErlangConfig) (loaded : Option Moduleindex) (erlParser : Str → ErlAttrs) :
    (∀ f ∈ erlangApp.Srcs,
      (∀ m ∈ (erlParser f).modules,
        erlangConfig.ModuleMappings.lookup m ≠ some erlangApp.Name) →
      ∃ r,
        descriptorFor (erlangApp.BeamFilesRules k erlangConfig loaded erlParser).1 f = some r ∧
        erlangApp.Name ∉ r.AttrStrings "deps") ∧
    (∀ f ∈ erlangApp.Srcs,
      (∀ m ∈ (erlParser f).modules,
        erlangConfig.ModuleMappings.lookup m ≠ some erlangApp.Name) →
      ∃ r,
        descriptorFor (erlangApp.testBeamFilesRules k erlangConfig loaded erlParser).1 f =
          some r ∧
        erlangApp.Name ∉ r.AttrStrings "deps") ∧
    (∀ t ∈ erlangApp.TestSrcs, ∃ r,
      descriptorFor (erlangApp.TestDirBeamFilesRules k erlangConfig loaded erlParser).1 t =
        some r ∧
      erlangApp.Name ∉ r.PrivateAttr "runtime_deps") ∧
    (∀ r ∈ (erlangApp.TestDirBeamFilesRules k erlangConfig loaded erlParser).1,
      erlangApp.Name ∉ r.PrivateAttr "runtime_deps") := by
  have hno : ∀ f, (∀ m ∈ (erlParser f).modules,
        erlangConfig.ModuleMappings.lookup m ≠ some erlangApp.Name) →
      erlangApp.Name ∉ (fileSets erlangApp erlangConfig (moduleindexOr erlangApp loaded)
        f (erlParser f)).2.2 := by
    intro f hmap hmem
    rcases fileSets_deps_origin erlangApp erlangConfig _ f (erlParser f) _ hmem with
      ⟨_, _, _, h, _⟩ | ⟨m, hm, h⟩ | ⟨_, _, _, _, _, h⟩
    · exact h rfl
    · exact hmap m hm h
    · exact h rfl
  have hrt : ∀ t, erlangApp.Name ∉
      (testDirDescriptor k erlangConfig (moduleindexOr erlangApp loaded) erlParser erlangApp
        t).PrivateAttr "runtime_deps" := by
    intro t
    rw [testDirDescriptor, testDirErlangBytecode_runtime_deps, MutableSet.mem_Values]
    exact testCalls_not_self erlangApp erlangConfig _ _
  refine ⟨?_, ?_, ?_, ?_⟩
  · intro f hf hmap
    refine ⟨_, descriptorFor_BeamFilesRules erlangApp k erlangConfig loaded erlParser f hf, ?_⟩
    rw [erlangBytecode_deps, MutableSet.mem_Values]; exact hno f hmap
  · intro f hf hmap
    refine ⟨_, descriptorFor_testBeamFilesRules erlangApp k erlangConfig loaded erlParser f hf,
      ?_⟩
    rw [testErlangBytecode_deps, MutableSet.mem_Values]; exact hno f hmap
  · intro t ht
    exact ⟨_, descriptorFor_TestDirBeamFilesRules erlangApp k erlangConfig loaded erlParser t
      ht, hrt t⟩
  · intro r hr
    rw [TestDirBeamFilesRules_rules] at hr
    obtain ⟨t, _, rfl⟩ := List.mem_map.mp hr
    exact hrt t

/-- Witness of C15 (amended) on `sampleApp` with an empty explicit mapping:
the descriptors of `src/a.erl`, which declares the behaviour `gen_server`,
and of `test/x_SUITE.erl`. -/
theorem own_application_only_by_mapping_witness :
    "src/a.erl".toList ∈ sampleApp.Srcs ∧ "test/x_SUITE.erl".toList ∈ sampleApp.TestSrcs ∧
    (∀ m ∈ (genServerParser "src/a.erl".toList).modules,
      kernelIgnored.ModuleMappings.lookup m ≠ some sampleApp.Name) ∧
    (∃ r,
      descriptorFor (sampleApp.BeamFilesRules sampleConsts kernelIgnored (some otpIndex)
        genServerParser).1 "src/a.erl".toList = some r ∧
      sampleApp.Name ∉ r.AttrStrings "deps") ∧
    (∃ r,
      descriptorFor (sampleApp.testBeamFilesRules sampleConsts kernelIgnored (some otpIndex)
        genServerParser).1 "src/a.erl".toList = some r ∧
      sampleApp.Name ∉ r.AttrStrings "deps") ∧
    (∃ r,
      descriptorFor (sampleApp.TestDirBeamFilesRules sampleConsts kernelIgnored (some otpIndex)
        genServerParser).1 "test/x_SUITE.erl".toList = some r ∧
      sampleApp.Name ∉ r.PrivateAttr "runtime_deps") ∧
    (∀ r ∈ (sampleApp.TestDirBeamFilesRules sampleConsts kernelIgnored (some otpIndex)
        genServerParser).1,
      sampleApp.Name ∉ r.PrivateAttr "runtime_deps") :=
  ⟨by decide, by decide, by decide,
    (own_application_only_by_mapping sampleApp sampleConsts kernelIgnored (some otpIndex)
      genServerParser).1 "src/a.erl".toList (by decide) (by decide),
    (own_application_only_by_mapping sampleApp sampleConsts kernelIgnored (some otpIndex)
      genServerParser).2.1 "src/a.erl".toList (by decide) (by decide),
    (own_application_only_by_mapping sampleApp sampleConsts kernelIgnored (some otpIndex)
      genServerParser).2.2.1 "test/x_SUITE.erl".toList (by decide),
    (own_application_only_by_mapping sampleApp sampleConsts kernelIgnored (some otpIndex)
      genServerParser).2.2.2⟩

/-! ## Ignored dependencies (C18) -/

/-- C18 (amended): an application name of `IgnoredDeps` is in the `deps` of
a descriptor only as the resolution of one of the file's referenced
modules, through the explicit mapping or the module index; no
library-qualified include puts it there.  This holds for the descriptor of
every source file in `BeamFilesRules` and `testBeamFilesRules` and of every
test-directory file in `TestDirBeamFilesRules`. -/
theorem ignored_only_by_referenced_module (erlangApp : ErlangApp) (k : Consts)
    (erlangConfig : ErlangConfig) (loaded : Option Moduleindex) (erlParser : Str → ErlAttrs)
    (x : Str) (hx : x ∈ erlangConfig.IgnoredDeps) :
    (∀ f ∈ erlangApp.Srcs, ∃ r,
      descriptorFor (erlangApp.BeamFilesRules k erlangConfig loaded erlParser).1 f = some r ∧
      (x ∈ r.AttrStrings "deps" → ∃ m ∈ (erlParser f).modules,
        erlangConfig.ModuleMappings.lookup m = some x ∨
        (erlangConfig.ModuleMappings.lookup m = none ∧
          FindModule (moduleindexOr erlangApp loaded) m = x))) ∧
    (∀ f ∈ erlangApp.Srcs, ∃ r,
      descriptorFor (erlangApp.testBeamFilesRules k erlangConfig loaded erlParser).1 f =
        some r ∧
      (x ∈ r.AttrStrings "deps" → ∃ m ∈ (erlParser f).modules,
        erlangConfig.ModuleMappings.lookup m = some x ∨
        (erlangConfig.ModuleMappings.lookup m = none ∧
          FindModule (moduleindexOr erlangApp loaded) m = x))) ∧
    (∀ t ∈ erlangApp.TestSrcs, ∃ r,
      descriptorFor (erlangApp.TestDirBeamFilesRules k erlangConfig loaded erlParser).1 t =
        some r ∧
      (x ∈ r.AttrStrings "deps" → ∃ m ∈ (erlParser t).modules,
        erlangConfig.ModuleMappings.lookup m = some x ∨
        (erlangConfig.ModuleMappings.lookup m = none ∧
          FindModule (moduleindexOr erlangApp loaded) m = x))) := by
  have hsrc : ∀ f, x ∈ (fileSets erlangApp erlangConfig (moduleindexOr erlangApp loaded)
      f (erlParser f)).2.2 → ∃ m ∈ (erlParser f).modules,
        erlangConfig.ModuleMappings.lookup m = some x ∨
        (erlangConfig.ModuleMappings.lookup m = none ∧
          FindModule (moduleindexOr erlangApp loaded) m = x) := by
    intro f hmem
    rcases fileSets_deps_origin erlangApp erlangConfig _ f (erlParser f) _ hmem with
      ⟨_, _, _, _, h⟩ | ⟨m, hm, h⟩ | ⟨m, hm, h1, h2, _⟩
    · exact absurd hx h
    · exact ⟨m, hm, Or.inl h⟩
    · exact ⟨m, hm, Or.inr ⟨h1, h2⟩⟩
  have htest : ∀ t, x ∈ (testFileSets erlangApp erlangConfig (moduleindexOr erlangApp loaded)
      t (erlParser t)).2.2 → ∃ m ∈ (erlParser t).modules,
        erlangConfig.ModuleMappings.lookup m = some x ∨
        (erlangConfig.ModuleMappings.lookup m = none ∧
          FindModule (moduleindexOr erlangApp loaded) m = x) := by
    intro t hmem
    rcases testFileSets_deps_origin erlangApp erlangConfig _ t (erlParser t) _ hmem with
      ⟨_, _, _, h⟩ | ⟨m, hm, h⟩ | ⟨m, hm, h1, h2, _⟩
    · exact absurd hx h
    · exact ⟨m, hm, Or.inl h⟩
    · exact ⟨m, hm, Or.inr ⟨h1, h2⟩⟩
  refine ⟨?_, ?_, ?_⟩
  · intro f hf
    refine ⟨_, descriptorFor_BeamFilesRules erlangApp k erlangConfig loaded erlParser f hf, ?_⟩
    rw [erlangBytecode_deps, MutableSet.mem_Values]; exact hsrc f
  · intro f hf
    refine ⟨_, descriptorFor_testBeamFilesRules erlangApp k erlangConfig loaded erlParser f hf,
      ?_⟩
    rw [testErlangBytecode_deps, MutableSet.mem_Values]; exact hsrc f
  · intro t ht
    refine ⟨_, descriptorFor_TestDirBeamFilesRules erlangApp k erlangConfig loaded erlParser t
      ht, ?_⟩
    rw [testDirDescriptor, testDirErlangBytecode_deps, MutableSet.mem_Values]; exact htest t

/-- Witness of C18 (amended): `kernel` is ignored and owns the behaviour
`gen_server` that the files of `sampleApp` declare. -/
theorem ignored_only_by_referenced_module_witness :
    "src/a.erl".toList ∈ sampleApp.Srcs ∧ "test/x_SUITE.erl".toList ∈ sampleApp.TestSrcs ∧
    "kernel".toList ∈ kernelIgnored.IgnoredDeps ∧
    ((∀ f ∈ sampleApp.Srcs, ∃ r,
      descriptorFor (sampleApp.BeamFilesRules sampleConsts kernelIgnored (some otpIndex)
        genServerParser).1 f = some r ∧
      ("kernel".toList ∈ r.AttrStrings "deps" →
        ∃ m ∈ (genServerParser f).modules,
          kernelIgnored.ModuleMappings.lookup m = some "kernel".toList ∨
          (kernelIgnored.ModuleMappings.lookup m = none ∧
            FindModule (moduleindexOr sampleApp (some otpIndex)) m = "kernel".toList))) ∧
    (∀ f ∈ sampleApp.Srcs, ∃ r,
      descriptorFor (sampleApp.testBeamFilesRules sampleConsts kernelIgnored (some otpIndex)
        genServerParser).1 f = some r ∧
      ("kernel".toList ∈ r.AttrStrings "deps" →
        ∃ m ∈ (genServerParser f).modules,
          kernelIgnored.ModuleMappings.lookup m = some "kernel".toList ∨
          (kernelIgnored.ModuleMappings.lookup m = none ∧
            FindModule (moduleindexOr sampleApp (some otpIndex)) m = "kernel".toList))) ∧
    (∀ t ∈ sampleApp.TestSrcs, ∃ r,
      descriptorFor (sampleApp.TestDirBeamFilesRules sampleConsts kernelIgnored (some otpIndex)
        genServerParser).1 t = some r ∧
      ("kernel".toList ∈ r.AttrStrings "deps" →
        ∃ m ∈ (genServerParser t).modules,
          kernelIgnored.ModuleMappings.lookup m = some "kernel".toList ∨
          (kernelIgnored.ModuleMappings.lookup m = none ∧
            FindModule (moduleindexOr sampleApp (some otpIndex)) m = "kernel".toList)))) :=
  ⟨by decide, by decide, by decide,
    ignored_only_by_referenced_module sampleApp sampleConsts kernelIgnored (some otpIndex)
      genServerParser "kernel".toList (by decide)⟩

/-! ## Own output artifact (C16) -/

theorem AddFile_PrefixConvention (erlangApp : ErlangApp) (f : Str)
    (h : PrefixConvention erlangApp) : PrefixConvention (erlangApp.AddFile f) := by
  obtain ⟨h1, h2⟩ := h
  unfold ErlangApp.AddFile
  repeat' split
  all_goals
    refine ⟨?_, ?_⟩ <;> intro x hx <;>
      first
        | exact h1 x hx
        | exact h2 x hx
        | (rcases (MutableSet.mem_Add _ _ _).mp hx with hx' | hx'
           · first
              | exact h1 x hx'
              | exact h2 x hx'
           · subst hx'; assumption)

theorem BuiltByAddFile.prefixes {erlangApp : ErlangApp} (h : BuiltByAddFile erlangApp) :
    PrefixConvention erlangApp := by
  obtain ⟨repoRoot, rel, files, e1, _, _, e4, _⟩ := h
  have hb : PrefixConvention (files.foldl ErlangApp.AddFile (NewErlangApp repoRoot rel)) := by
    apply foldl_invariant ErlangApp.AddFile PrefixConvention AddFile_PrefixConvention
    refine ⟨?_, ?_⟩ <;> intro x hx <;> simp [NewErlangApp, NewMutableSet] at hx
  unfold PrefixConvention
  rw [e1, e4]
  exact hb

theorem AttrStrings_of_Attr (r : Rule) (key : String) (l : List Str)
    (h : r.Attr key = some (AttrValue.strs l)) : r.AttrStrings key = l := by
  unfold Rule.Attr at h
  unfold Rule.AttrStrings
  rw [h]

theorem testBeamFile_erl (w : Str) :
    testBeamFile (w ++ ".erl".toList) = "test/".toList ++ stem w ++ ".beam".toList := by
  unfold testBeamFile
  rw [filepath.Base_append w ".erl".toList (by decide) (by decide)]
  simp only
  rw [← List.append_assoc, strings.TrimSuffix_append]

section artifacts

variable (erlangApp : ErlangApp) (erlangConfig : ErlangConfig) (moduleindex : Moduleindex)

/-- Every sibling artifact the loop over the referenced modules records is
the artifact of a source that defines one of the referenced modules. -/
theorem addModule_beam_origin (mods : List Str) (st : MutableSet × MutableSet)
    (hst : ∀ x ∈ st.1, ∃ g ∈ erlangApp.Srcs, moduleName g ∈ mods ∧ x = beamFile g) :
    ∀ x ∈ (mods.foldl (addModule erlangApp erlangConfig moduleindex) st).1,
      ∃ g ∈ erlangApp.Srcs, moduleName g ∈ mods ∧ x = beamFile g := by
  refine foldl_invariant_mem (addModule erlangApp erlangConfig moduleindex)
    (fun st => ∀ x ∈ st.1, ∃ g ∈ erlangApp.Srcs, moduleName g ∈ mods ∧ x = beamFile g)
    mods ?_ st hst
  intro s a ha hs x hx
  unfold addModule at hx
  simp only at hx
  split at hx
  · rename_i o ho
    rcases (MutableSet.mem_Add _ _ _).mp hx with hx' | hx'
    · exact hs x hx'
    · have hmod : moduleName o = a := by simpa using List.find?_some ho
      refine ⟨o, (MutableSet.mem_Values _ _).mp (List.mem_of_find?_eq_some ho), ?_, hx'⟩
      rw [hmod]
      exact ha
  · split at hx
    · exact hs x hx
    · split at hx <;> exact hs x hx

/-- Every runtime-only artifact the loop over the calls records is the
artifact of a test-directory source that defines one of the called
modules. -/
theorem addTestCall_beam_origin (calls : List Str) (st : MutableSet × MutableSet)
    (hst : ∀ x ∈ st.1, ∃ o ∈ erlangApp.TestSrcs, moduleName o ∈ calls ∧
      x = testDirArtifact o) :
    ∀ x ∈ (calls.foldl (addTestCall erlangApp erlangConfig moduleindex) st).1,
      ∃ o ∈ erlangApp.TestSrcs, moduleName o ∈ calls ∧ x = testDirArtifact o := by
  refine foldl_invariant_mem (addTestCall erlangApp erlangConfig moduleindex)
    (fun st => ∀ x ∈ st.1, ∃ o ∈ erlangApp.TestSrcs, moduleName o ∈ calls ∧
      x = testDirArtifact o) calls ?_ st hst
  intro s a ha hs x hx
  unfold addTestCall at hx
  simp only at hx
  split at hx
  · rename_i o ho
    rcases (MutableSet.mem_Add _ _ _).mp hx with hx' | hx'
    · exact hs x hx'
    · have hmod : moduleName o = a := by simpa using List.find?_some ho
      refine ⟨o, (MutableSet.mem_Values _ _).mp (List.mem_of_find?_eq_some ho), ?_, hx'⟩
      rw [hmod]
      exact ha
  · split at hx <;> exact hs x hx

theorem fileSets_beam_origin (src : Str) (erlAttrs : ErlAttrs) :
    ∀ x ∈ (fileSets erlangApp erlangConfig moduleindex src erlAttrs).2.1,
      ∃ g ∈ erlangApp.Srcs, moduleName g ∈ erlAttrs.modules ∧ x = beamFile g := by
  unfold fileSets
  simp only
  apply addModule_beam_origin
  intro x hx
  simp [NewMutableSet] at hx

theorem testFileSets_beam_origin (src : Str) (erlAttrs : ErlAttrs) :
    ∀ x ∈ (testFileSets erlangApp erlangConfig moduleindex src erlAttrs).2.1,
      ∃ g ∈ erlangApp.Srcs, moduleName g ∈ erlAttrs.modules ∧ x = beamFile g := by
  unfold testFileSets
  simp only
  apply addModule_beam_origin
  intro x hx
  simp [NewMutableSet] at hx

end artifacts

/-- The artifacts of two sources ending in `.erl` agree only when their
module names agree. -/
theorem beamFile_inj_moduleName (f g : Str) (hf : strings.HasSuffix f ".erl".toList = true)
    (hg : strings.HasSuffix g ".erl".toList = true) (h : beamFile f = beamFile g) :
    moduleName f = moduleName g := by
  obtain ⟨wf, rfl⟩ := (strings.HasSuffix_iff _ _).mp hf
  obtain ⟨wg, rfl⟩ := (strings.HasSuffix_iff _ _).mp hg
  rw [beamFile_erl, beamFile_erl] at h
  rw [moduleName_erl, moduleName_erl]
  have h1 := List.append_cancel_right h
  exact List.append_cancel_left h1

/-- An artifact under `test/` is no artifact under `ebin/`. -/
theorem testBeamFile_ne_beamFile (f g : Str) (hf : strings.HasSuffix f ".erl".toList = true)
    (hg : strings.HasSuffix g ".erl".toList = true) : testBeamFile f ≠ beamFile g := by
  obtain ⟨wf, rfl⟩ := (strings.HasSuffix_iff _ _).mp hf
  obtain ⟨wg, rfl⟩ := (strings.HasSuffix_iff _ _).mp hg
  rw [beamFile_erl, testBeamFile_erl]
  intro h
  have h' : ('t' :: ("est/".toList ++ stem wf ++ ".beam".toList)) =
      ('e' :: ("bin/".toList ++ stem wg ++ ".beam".toList)) := h
  have := (List.cons.inj h').1
  exact absurd this (by decide)

/-- The artifact of a test-directory source under `test/` is no artifact
under `ebin/`. -/
theorem testDirArtifact_ne_beamFile (t g : Str)
    (ht : strings.HasSuffix t ".erl".toList = true)
    (hp : strings.HasPrefix t "test/".toList = true)
    (hg : strings.HasSuffix g ".erl".toList = true) : testDirArtifact t ≠ beamFile g := by
  obtain ⟨w, rfl⟩ := (strings.HasSuffix_iff _ _).mp ht
  obtain ⟨wg, rfl⟩ := (strings.HasSuffix_iff _ _).mp hg
  rw [beamFile_erl, testDirArtifact_erl]
  unfold strings.HasPrefix at hp
  rw [List.isPrefixOf_iff_prefix] at hp
  obtain ⟨r, hr⟩ := hp
  intro h
  cases w with
  | nil =>
    have h' : ('.' :: "beam".toList) = ('e' :: ("bin/".toList ++ stem wg ++ ".beam".toList)) := h
    exact absurd (List.cons.inj h').1 (by decide)
  | cons c w' =>
    have hr' : ('t' :: ("est/".toList ++ r)) = c :: (w' ++ ".erl".toList) := hr
    have hc : c = 't' := (List.cons.inj hr').1.symm
    have h' : (c :: (w' ++ ".beam".toList)) =
        ('e' :: ("bin/".toList ++ stem wg ++ ".beam".toList)) := h
    have hc' : c = 'e' := (List.cons.inj h').1
    rw [hc] at hc'
    exact absurd hc' (by decide)

theorem testDirArtifact_inj (t o : Str) (ht : strings.HasSuffix t ".erl".toList = true)
    (ho : strings.HasSuffix o ".erl".toList = true)
    (h : testDirArtifact t = testDirArtifact o) : t = o := by
  obtain ⟨w, rfl⟩ := (strings.HasSuffix_iff _ _).mp ht
  obtain ⟨wo, rfl⟩ := (strings.HasSuffix_iff _ _).mp ho
  rw [testDirArtifact_erl, testDirArtifact_erl] at h
  rw [List.append_cancel_right h]

/-- C16, as stated, fails: when `src/a.erl` declares the behaviour `a`, the
`beam` of its descriptor holds its own output artifact `ebin/a.beam`, and
when `test/x_SUITE.erl` calls `x_SUITE`, the `runtime_beam` of its
descriptor holds its own output artifact `test/x_SUITE.beam`: the scans
over the sources do not leave the file itself out. -/
theorem own_artifact_listed :
    (descriptorFor (sampleApp.BeamFilesRules sampleConsts ⟨[], []⟩ none
        ownModuleParser).1 "src/a.erl".toList).map
      (fun r => (r.AttrStrings "outs", r.AttrStrings "beam")) =
      some (["ebin/a.beam".toList], ["ebin/a.beam".toList]) ∧
    (descriptorFor (sampleApp.TestDirBeamFilesRules sampleConsts ⟨[], []⟩ none
        ownModuleParser).1 "test/x_SUITE.erl".toList).map
      (fun r => (r.AttrStrings "outs", r.PrivateAttr "runtime_beam")) =
      some (["test/x_SUITE.beam".toList], ["test/x_SUITE.beam".toList]) := by
  decide

/-- C16 (amended): for an application whose role sets were built by
`AddFile`, the `beam` of the descriptor `BeamFilesRules` produces for a
source `f` does not contain `f`'s own output artifact when `f`'s own module
is not among its referenced modules; the `beam` of the descriptors of
`testBeamFilesRules` and `TestDirBeamFilesRules` never contains the
descriptor's own output artifact; and the `runtime_beam` of the descriptor
of a test-directory file `t` does not contain `t`'s own output artifact when
`t`'s own module is not among its called modules. -/
theorem own_artifact_not_listed (erlangApp : ErlangApp) (k : Consts)
    (erlangConfig : ErlangConfig) (loaded : Option Moduleindex) (erlParser : Str → ErlAttrs)
    (hbuilt : BuiltByAddFile erlangApp) :
    (∀ f ∈ erlangApp.Srcs, moduleName f ∉ (erlParser f).modules → ∃ r,
      descriptorFor (erlangApp.BeamFilesRules k erlangConfig loaded erlParser).1 f = some r ∧
      r.AttrStrings "outs" = [beamFile f] ∧ beamFile f ∉ r.AttrStrings "beam") ∧
    (∀ f ∈ erlangApp.Srcs, ∃ r,
      descriptorFor (erlangApp.testBeamFilesRules k erlangConfig loaded erlParser).1 f =
        some r ∧
      r.AttrStrings "outs" = [testBeamFile f] ∧ testBeamFile f ∉ r.AttrStrings "beam") ∧
    (∀ t ∈ erlangApp.TestSrcs, ∃ r,
      descriptorFor (erlangApp.TestDirBeamFilesRules k erlangConfig loaded erlParser).1 t =
        some r ∧
      r.AttrStrings "outs" = [testDirArtifact t] ∧
      testDirArtifact t ∉ r.AttrStrings "beam" ∧
      (moduleName t ∉ (erlParser t).Call →
        testDirArtifact t ∉ r.PrivateAttr "runtime_beam")) := by
  obtain ⟨hsrc, htest, _, _, _⟩ := hbuilt.suffixes
  obtain ⟨_, hpre⟩ := hbuilt.prefixes
  refine ⟨?_, ?_, ?_⟩
  · intro f hf hfm
    refine ⟨_, descriptorFor_BeamFilesRules erlangApp k erlangConfig loaded erlParser f hf,
      AttrStrings_of_Attr _ _ _ (erlangBytecode_outs _ _ _ _), ?_⟩
    rw [erlangBytecode_beam, MutableSet.mem_Values]
    intro hmem
    obtain ⟨g, hg, hgm, he⟩ := fileSets_beam_origin erlangApp erlangConfig _ f _ _ hmem
    have hfg := beamFile_inj_moduleName f g (hsrc f hf) (hsrc g hg) he
    rw [← hfg] at hgm
    exact hfm hgm
  · intro f hf
    refine ⟨_, descriptorFor_testBeamFilesRules erlangApp k erlangConfig loaded erlParser f hf,
      AttrStrings_of_Attr _ _ _ (testErlangBytecode_outs _ _ _ _), ?_⟩
    rw [testErlangBytecode_beam, MutableSet.mem_Values]
    intro hmem
    obtain ⟨g, hg, _, he⟩ := fileSets_beam_origin erlangApp erlangConfig _ f _ _ hmem
    exact testBeamFile_ne_beamFile f g (hsrc f hf) (hsrc g hg) he
  · intro t ht
    refine ⟨_, descriptorFor_TestDirBeamFilesRules erlangApp k erlangConfig loaded erlParser t
      ht, AttrStrings_of_Attr _ _ _ (testDirErlangBytecode_outs _ _ _ _ _), ?_, ?_⟩
    · rw [testDirDescriptor, testDirErlangBytecode_beam, MutableSet.mem_Values]
      intro hmem
      obtain ⟨g, hg, _, he⟩ := testFileSets_beam_origin erlangApp erlangConfig _ t _ _ hmem
      exact testDirArtifact_ne_beamFile t g (htest t ht) (hpre t ht) (hsrc g hg) he
    · intro htc
      rw [testDirDescriptor, testDirErlangBytecode_runtime_beam, MutableSet.mem_Values]
      intro hmem
      obtain ⟨o, ho, hom, he⟩ := addTestCall_beam_origin erlangApp erlangConfig _ _ _
        (by intro x hx; simp [NewMutableSet] at hx) _ hmem
      have hto : t = o := testDirArtifact_inj t o (htest t ht) (htest o ho) he
      rw [← hto] at hom
      exact htc hom

/-- Witness of C16 (amended) on `sampleApp`: `src/b.erl` declares the
behaviour `a`, `test/helper.erl` calls `x_SUITE`; `src/a.erl` declares its
own module and the `beam` of its descriptor in `testBeamFilesRules` still
does not hold `test/a.beam`. -/
theorem own_artifact_not_listed_witness :
    BuiltByAddFile sampleApp ∧ "src/b.erl".toList ∈ sampleApp.Srcs ∧
    "test/helper.erl".toList ∈ sampleApp.TestSrcs ∧
    moduleName "src/b.erl".toList ∉ (ownModuleParser "src/b.erl".toList).modules ∧
    moduleName "test/helper.erl".toList ∉ (ownModuleParser "test/helper.erl".toList).Call ∧
    moduleName "src/a.erl".toList ∈ (ownModuleParser "src/a.erl".toList).modules ∧
    (∃ r,
      descriptorFor (sampleApp.BeamFilesRules sampleConsts ⟨[], []⟩ none
        ownModuleParser).1 "src/b.erl".toList = some r ∧
      r.AttrStrings "outs" = [beamFile "src/b.erl".toList] ∧
      beamFile "src/b.erl".toList ∉ r.AttrStrings "beam") ∧
    (∃ r,
      descriptorFor (sampleApp.testBeamFilesRules sampleConsts ⟨[], []⟩ none
        ownModuleParser).1 "src/a.erl".toList = some r ∧
      r.AttrStrings "outs" = [testBeamFile "src/a.erl".toList] ∧
      testBeamFile "src/a.erl".toList ∉ r.AttrStrings "beam") ∧
    (∃ r,
      descriptorFor (sampleApp.TestDirBeamFilesRules sampleConsts ⟨[], []⟩ none
        ownModuleParser).1 "test/helper.erl".toList = some r ∧
      r.AttrStrings "outs" = [testDirArtifact "test/helper.erl".toList] ∧
      testDirArtifact "test/helper.erl".toList ∉ r.AttrStrings "beam" ∧
      (moduleName "test/helper.erl".toList ∉ (ownModuleParser "test/helper.erl".toList).Call →
        testDirArtifact "test/helper.erl".toList ∉ r.PrivateAttr "runtime_beam")) :=
  ⟨sampleApp_built, by decide, by decide, by decide, by decide, by decide,
    (own_artifact_not_listed sampleApp sampleConsts ⟨[], []⟩ none ownModuleParser
      sampleApp_built).1 "src/b.erl".toList (by decide) (by decide),
    (own_artifact_not_listed sampleApp sampleConsts ⟨[], []⟩ none ownModuleParser
      sampleApp_built).2.1 "src/a.erl".toList (by decide),
    (own_artifact_not_listed sampleApp sampleConsts ⟨[], []⟩ none ownModuleParser
      sampleApp_built).2.2 "test/helper.erl".toList (by decide)⟩

/-! ## The explicit mapping and the module index (C17) -/

section mapping

variable (erlangApp : ErlangApp) (erlangConfig : ErlangConfig) (moduleindex : Moduleindex)

theorem addModule_mono_snd (x : Str) (st : MutableSet × MutableSet) (mod : Str)
    (h : x ∈ st.2) : x ∈ (addModule erlangApp erlangConfig moduleindex st mod).2 := by
  unfold addModule
  simp only
  repeat' split
  all_goals first | exact h | exact (MutableSet.mem_Add _ _ _).mpr (Or.inl h)

theorem find_no_sibling (m : Str) (hno : ∀ g ∈ erlangApp.Srcs, moduleName g ≠ m) :
    erlangApp.Srcs.Values.find? (fun other_src => decide (moduleName other_src = m)) =
      none := by
  rw [List.find?_eq_none]
  intro x hx
  simpa using hno x ((MutableSet.mem_Values _ _).mp hx)

/-- The step of a referenced module that no source defines and that the
explicit mapping contains: the mapped application is recorded, whatever the
index. -/
theorem addModule_mapped (m X : Str) (hno : ∀ g ∈ erlangApp.Srcs, moduleName g ≠ m)
    (hmap : erlangConfig.ModuleMappings.lookup m = some X) (st : MutableSet × MutableSet) :
    addModule erlangApp erlangConfig moduleindex st m = (st.1, st.2.Add X) := by
  unfold addModule
  rw [find_no_sibling erlangApp m hno]
  simp only [hmap]

/-- The step of a referenced module that no source defines, that the
explicit mapping lacks and whose owner in the index is found and is not the
application: the owner is recorded. -/
theorem addModule_indexed (m : Str) (hno : ∀ g ∈ erlangApp.Srcs, moduleName g ≠ m)
    (hmap : erlangConfig.ModuleMappings.lookup m = none)
    (hne : FindModule moduleindex m ≠ [])
    (hname : FindModule moduleindex m ≠ erlangApp.Name) (st : MutableSet × MutableSet) :
    addModule erlangApp erlangConfig moduleindex st m =
      (st.1, st.2.Add (FindModule moduleindex m)) := by
  unfold addModule
  rw [find_no_sibling erlangApp m hno]
  simp only [hmap]
  rw [if_pos ⟨hne, hname⟩]

/-- The step of a referenced module that no source defines, that the
explicit mapping lacks and that the index does not assign to another
application: nothing is recorded. -/
theorem addModule_dropped (m : Str) (hno : ∀ g ∈ erlangApp.Srcs, moduleName g ≠ m)
    (hmap : erlangConfig.ModuleMappings.lookup m = none)
    (hidx : FindModule moduleindex m = [] ∨ FindModule moduleindex m = erlangApp.Name)
    (st : MutableSet × MutableSet) :
    addModule erlangApp erlangConfig moduleindex st m = st := by
  unfold addModule
  rw [find_no_sibling erlangApp m hno]
  simp only [hmap]
  rw [if_neg]
  rintro ⟨h1, h2⟩
  rcases hidx with h | h
  · exact h1 h
  · exact h2 h

/-- A name that the step of a referenced module of the file records is in
the dependency set of the file. -/
theorem fileSets_deps_mem (src m X : Str) (erlAttrs : ErlAttrs) (hm : m ∈ erlAttrs.modules)
    (hstep : ∀ st, X ∈ (addModule erlangApp erlangConfig moduleindex st m).2) :
    X ∈ (fileSets erlangApp erlangConfig moduleindex src erlAttrs).2.2 := by
  unfold fileSets
  simp only
  exact foldl_reaches (addModule erlangApp erlangConfig moduleindex) (fun st => X ∈ st.2)
    (fun s a h => addModule_mono_snd erlangApp erlangConfig moduleindex X s a h) m hstep
    _ hm _

end mapping

/-- C17: for a referenced module `m` of a source file `f` that no source of
the application defines: if the explicit mapping contains `m -> X`, the
step records `X` whatever the index is (the index is not consulted), and
`X` is in the `deps` of the descriptor of `f`; if the mapping lacks `m` and
the index gives an owner `Y`, found and not the application's name, `Y` is
recorded and is in the `deps`; otherwise the step records nothing and the
`deps` are those of the run without `m`. -/
theorem mapping_before_index (erlangApp : ErlangApp) (k : Consts)
    (erlangConfig : ErlangConfig) (loaded : Option Moduleindex) (erlParser : Str → ErlAttrs)
    (f m : Str) (hno : ∀ g ∈ erlangApp.Srcs, moduleName g ≠ m) (hf : f ∈ erlangApp.Srcs)
    (hm : m ∈ (erlParser f).modules) :
    (∀ X, erlangConfig.ModuleMappings.lookup m = some X →
      (∀ moduleindex st,
        addModule erlangApp erlangConfig moduleindex st m = (st.1, st.2.Add X)) ∧
      ∃ r,
        descriptorFor (erlangApp.BeamFilesRules k erlangConfig loaded erlParser).1 f =
          some r ∧
        X ∈ r.AttrStrings "deps") ∧
    (erlangConfig.ModuleMappings.lookup m = none →
      FindModule (moduleindexOr erlangApp loaded) m ≠ [] →
      FindModule (moduleindexOr erlangApp loaded) m ≠ erlangApp.Name →
      (∀ st, addModule erlangApp erlangConfig (moduleindexOr erlangApp loaded) st m =
        (st.1, st.2.Add (FindModule (moduleindexOr erlangApp loaded) m))) ∧
      ∃ r,
        descriptorFor (erlangApp.BeamFilesRules k erlangConfig loaded erlParser).1 f =
          some r ∧
        FindModule (moduleindexOr erlangApp loaded) m ∈ r.AttrStrings "deps") ∧
    (erlangConfig.ModuleMappings.lookup m = none →
      (FindModule (moduleindexOr erlangApp loaded) m = [] ∨
        FindModule (moduleindexOr erlangApp loaded) m = erlangApp.Name) →
      (∀ st, addModule erlangApp erlangConfig (moduleindexOr erlangApp loaded) st m = st) ∧
      ∃ r r',
        descriptorFor (erlangApp.BeamFilesRules k erlangConfig loaded erlParser).1 f =
          some r ∧
        descriptorFor (erlangApp.BeamFilesRules k erlangConfig loaded
          (dropModule erlParser m)).1 f = some r' ∧
        r.AttrStrings "deps" = r'.AttrStrings "deps") := by
  refine ⟨?_, ?_, ?_⟩
  · intro X hX
    refine ⟨fun idx st => addModule_mapped erlangApp erlangConfig idx m X hno hX st, _,
      descriptorFor_BeamFilesRules erlangApp k erlangConfig loaded erlParser f hf, ?_⟩
    rw [erlangBytecode_deps, MutableSet.mem_Values]
    apply fileSets_deps_mem erlangApp erlangConfig _ f m X _ hm
    intro st
    rw [addModule_mapped erlangApp erlangConfig _ m X hno hX]
    exact (MutableSet.mem_Add _ _ _).mpr (Or.inr rfl)
  · intro hnone hne hname
    refine ⟨fun st => addModule_indexed erlangApp erlangConfig _ m hno hnone hne hname st, _,
      descriptorFor_BeamFilesRules erlangApp k erlangConfig loaded erlParser f hf, ?_⟩
    rw [erlangBytecode_deps, MutableSet.mem_Values]
    apply fileSets_deps_mem erlangApp erlangConfig _ f m _ _ hm
    intro st
    rw [addModule_indexed erlangApp erlangConfig _ m hno hnone hne hname]
    exact (MutableSet.mem_Add _ _ _).mpr (Or.inr rfl)
  · intro hnone hidx
    have hstep := fun st => addModule_dropped erlangApp erlangConfig
      (moduleindexOr erlangApp loaded) m hno hnone hidx st
    refine ⟨hstep, _, _,
      descriptorFor_BeamFilesRules erlangApp k erlangConfig loaded erlParser f hf,
      descriptorFor_BeamFilesRules erlangApp k erlangConfig loaded _ f hf, ?_⟩
    rw [erlangBytecode_deps, erlangBytecode_deps,
      fileSets_deps_dropModule erlangApp erlangConfig _ f m erlParser
        (fun st => by rw [hstep])]

/-- Witness of C17: no source of `sampleApp` defines `gen_server`, which
`src/a.erl` declares as behaviour; the explicit mapping assigns it to
`my_otp` and the index to `kernel`. -/
theorem mapping_before_index_witness :
    (∀ g ∈ sampleApp.Srcs, moduleName g ≠ "gen_server".toList) ∧
    "src/a.erl".toList ∈ sampleApp.Srcs ∧
    "gen_server".toList ∈ (genServerParser "src/a.erl".toList).modules ∧
    otpMapping.ModuleMappings.lookup "gen_server".toList = some "my_otp".toList ∧
    FindModule (moduleindexOr sampleApp (some otpIndex)) "gen_server".toList =
      "kernel".toList ∧
    ((∀ moduleindex st,
        addModule sampleApp otpMapping moduleindex st "gen_server".toList =
          (st.1, st.2.Add "my_otp".toList)) ∧
      ∃ r,
        descriptorFor (sampleApp.BeamFilesRules sampleConsts otpMapping (some otpIndex)
          genServerParser).1 "src/a.erl".toList = some r ∧
        "my_otp".toList ∈ r.AttrStrings "deps") :=
  ⟨by decide, by decide, by decide, by decide, by decide,
    (mapping_before_index sampleApp sampleConsts otpMapping (some otpIndex) genServerParser
      "src/a.erl".toList "gen_server".toList (by decide) (by decide) (by decide)).1
      "my_otp".toList (by decide)⟩

/-! ## Resolution without a module index (C20) -/

theorem FindModule_single (n : Str) (mods : List Str) (m : Str) :
    FindModule [(n, mods)] m = if m ∈ mods then n else [] := by
  unfold FindModule
  by_cases h : m ∈ mods
  · simp [List.find?, h]
  · simp [List.find?, h]

theorem foldl_id {σ α : Type} (f : σ → α → σ) (h : ∀ s a, f s a = s) :
    ∀ (l : List α) (s : σ), l.foldl f s = s := by
  intro l
  induction l with
  | nil => intro s; rfl
  | cons a t ih => intro s; simp only [List.foldl]; rw [h, ih]

theorem ownModules_mem_aux (m : Str) :
    ∀ (l : List Str) (s : MutableSet),
      m ∈ l.foldl (fun s src => s.Add (moduleName src)) s ↔
        m ∈ s ∨ ∃ g ∈ l, moduleName g = m := by
  intro l
  induction l with
  | nil => intro s; simp
  | cons a t ih =>
    intro s
    simp only [List.foldl]
    rw [ih, MutableSet.mem_Add]
    constructor
    · rintro ((h | h) | ⟨g, hg, hgm⟩)
      · exact Or.inl h
      · exact Or.inr ⟨a, List.mem_cons_self _ _, h.symm⟩
      · exact Or.inr ⟨g, List.mem_cons_of_mem _ hg, hgm⟩
    · rintro (h | ⟨g, hg, hgm⟩)
      · exact Or.inl (Or.inl h)
      · rcases List.mem_cons.mp hg with h' | h'
        · subst h'
          exact Or.inl (Or.inr hgm.symm)
        · exact Or.inr ⟨g, h', hgm⟩

/-- The own modules are exactly the module names of the sources. -/
theorem ownModules_mem (erlangApp : ErlangApp) (m : Str) :
    m ∈ (ownModules erlangApp).Values ↔ ∃ g ∈ erlangApp.Srcs, moduleName g = m := by
  rw [MutableSet.mem_Values]
  unfold ownModules
  rw [ownModules_mem_aux]
  constructor
  · rintro (h | ⟨g, hg, hgm⟩)
    · simp [NewMutableSet] at h
    · exact ⟨g, (MutableSet.mem_Values _ _).mp hg, hgm⟩
  · rintro ⟨g, hg, hgm⟩
    exact Or.inr ⟨g, (MutableSet.mem_Values _ _).mpr hg, hgm⟩

section selfOnly

variable (erlangApp : ErlangApp) (erlangConfig : ErlangConfig)

/-- With the self-only index, an owner is the application itself or
unknown. -/
theorem FindModule_selfOnly (m : Str) :
    FindModule (moduleindexOr erlangApp none) m = [] ∨
      FindModule (moduleindexOr erlangApp none) m = erlangApp.Name := by
  unfold moduleindexOr
  simp only
  rw [FindModule_single]
  split
  · exact Or.inr rfl
  · exact Or.inl rfl

theorem callDeps_selfOnly (hmap : erlangConfig.ModuleMappings = []) (d : MutableSet)
    (m : Str) :
    callDeps erlangConfig (moduleindexOr erlangApp none) erlangApp.Name d m = d := by
  have hown : callOwner erlangConfig (moduleindexOr erlangApp none) m =
      FindModule (moduleindexOr erlangApp none) m := by
    unfold callOwner
    simp [hmap, List.lookup]
  unfold callDeps
  simp only [hown]
  rw [if_neg]
  rintro ⟨h1, h2, _⟩
  rcases FindModule_selfOnly erlangApp m with h | h
  · exact h1 h
  · exact h2 h

theorem addModule_selfOnly_snd (hmap : erlangConfig.ModuleMappings = [])
    (st : MutableSet × MutableSet) (m : Str) :
    (addModule erlangApp erlangConfig (moduleindexOr erlangApp none) st m).2 = st.2 := by
  unfold addModule
  simp only [hmap, List.lookup]
  split
  · rfl
  · rw [if_neg]
    rintro ⟨h1, h2⟩
    rcases FindModule_selfOnly erlangApp m with h | h
    · exact h1 h
    · exact h2 h

theorem modules_selfOnly_snd (hmap : erlangConfig.ModuleMappings = []) (l : List Str)
    (st : MutableSet × MutableSet) :
    (l.foldl (addModule erlangApp erlangConfig (moduleindexOr erlangApp none)) st).2 =
      st.2 := by
  induction l generalizing st with
  | nil => rfl
  | cons a t ih =>
    simp only [List.foldl]
    rw [ih, addModule_selfOnly_snd erlangApp erlangConfig hmap]

/-- The sibling artifacts a step records do not depend on the index. -/
theorem addModule_fst_index (idx idx' : Moduleindex) (st : MutableSet × MutableSet)
    (m : Str) :
    (addModule erlangApp erlangConfig idx st m).1 =
      (addModule erlangApp erlangConfig idx' st m).1 := by
  unfold addModule
  simp only
  repeat' split
  all_goals rfl

theorem fileSets_beam_index (idx idx' : Moduleindex) (src : Str) (erlAttrs : ErlAttrs) :
    (fileSets erlangApp erlangConfig idx src erlAttrs).2.1 =
      (fileSets erlangApp erlangConfig idx' src erlAttrs).2.1 := by
  unfold fileSets
  simp only
  rw [foldl_fst _ [] (addModule_fst erlangApp erlangConfig idx),
    foldl_fst _ [] (addModule_fst erlangApp erlangConfig idx')]
  have e : (fun d c => (addModule erlangApp erlangConfig idx (d, ([] : MutableSet)) c).1) =
      (fun d c => (addModule erlangApp erlangConfig idx' (d, ([] : MutableSet)) c).1) := by
    funext d c
    exact addModule_fst_index erlangApp erlangConfig idx idx' _ c
  rw [e]

end selfOnly

/-- C20: when the module index cannot be loaded, the index in use is the
single entry of the application's own name with exactly the module names of
its sources; with an empty explicit mapping `BeamFilesRules` then leaves
the application, so `erlangApp.Deps`, unchanged, the `deps` of every
descriptor are those of the run without any referenced module (they come
from library-qualified includes only), and the `beam` and `hdrs` of every
descriptor are those of the run with any loaded index. -/
theorem missing_index_self_only (erlangApp : ErlangApp) (k : Consts)
    (erlangConfig : ErlangConfig) (erlParser : Str → ErlAttrs)
    (hmap : erlangConfig.ModuleMappings = []) :
    moduleindexOr erlangApp none = [(erlangApp.Name, (ownModules erlangApp).Values)] ∧
    (∀ m, m ∈ (ownModules erlangApp).Values ↔ ∃ g ∈ erlangApp.Srcs, moduleName g = m) ∧
    (erlangApp.BeamFilesRules k erlangConfig none erlParser).2 = erlangApp ∧
    (∀ f ∈ erlangApp.Srcs, ∃ r r',
      descriptorFor (erlangApp.BeamFilesRules k erlangConfig none erlParser).1 f = some r ∧
      descriptorFor (erlangApp.BeamFilesRules k erlangConfig none
        (noModules erlParser)).1 f = some r' ∧
      r.AttrStrings "deps" = r'.AttrStrings "deps") ∧
    (∀ loaded, ∀ f ∈ erlangApp.Srcs, ∃ r r',
      descriptorFor (erlangApp.BeamFilesRules k erlangConfig none erlParser).1 f = some r ∧
      descriptorFor (erlangApp.BeamFilesRules k erlangConfig loaded erlParser).1 f =
        some r' ∧
      r.AttrStrings "beam" = r'.AttrStrings "beam" ∧
      r.AttrStrings "hdrs" = r'.AttrStrings "hdrs") := by
  refine ⟨rfl, ownModules_mem erlangApp, ?_, ?_, ?_⟩
  · rw [BeamFilesRules_app]
    have hrun : runDeps erlangConfig (moduleindexOr erlangApp none) erlParser erlangApp.Name
        erlangApp.Deps erlangApp.Srcs.Values = erlangApp.Deps := by
      unfold runDeps
      apply foldl_id
      intro s src
      exact foldl_id _ (fun d m => callDeps_selfOnly erlangApp erlangConfig hmap d m) _ _
    rw [hrun]
  · intro f hf
    refine ⟨_, _, descriptorFor_BeamFilesRules erlangApp k erlangConfig none erlParser f hf,
      descriptorFor_BeamFilesRules erlangApp k erlangConfig none _ f hf, ?_⟩
    rw [erlangBytecode_deps, erlangBytecode_deps]
    unfold fileSets
    simp only
    rw [modules_selfOnly_snd erlangApp erlangConfig hmap,
      modules_selfOnly_snd erlangApp erlangConfig hmap]
    rfl
  · intro loaded f hf
    refine ⟨_, _, descriptorFor_BeamFilesRules erlangApp k erlangConfig none erlParser f hf,
      descriptorFor_BeamFilesRules erlangApp k erlangConfig loaded _ f hf, ?_, ?_⟩
    · rw [erlangBytecode_beam, erlangBytecode_beam,
        fileSets_beam_index erlangApp erlangConfig (moduleindexOr erlangApp none)
          (moduleindexOr erlangApp loaded)]
    · rw [erlangBytecode_hdrs, erlangBytecode_hdrs]
      rfl

/-- Witness of C20 on `sampleApp` with an empty explicit mapping and a
parser whose files include by library, reference and call modules. -/
theorem missing_index_self_only_witness :
    kernelIgnored.ModuleMappings = [] ∧
    (moduleindexOr sampleApp none = [(sampleApp.Name, (ownModules sampleApp).Values)] ∧
    (∀ m, m ∈ (ownModules sampleApp).Values ↔ ∃ g ∈ sampleApp.Srcs, moduleName g = m) ∧
    (sampleApp.BeamFilesRules sampleConsts kernelIgnored none busyParser).2 = sampleApp ∧
    (∀ f ∈ sampleApp.Srcs, ∃ r r',
      descriptorFor (sampleApp.BeamFilesRules sampleConsts kernelIgnored none
        busyParser).1 f = some r ∧
      descriptorFor (sampleApp.BeamFilesRules sampleConsts kernelIgnored none
        (noModules busyParser)).1 f = some r' ∧
      r.AttrStrings "deps" = r'.AttrStrings "deps") ∧
    (∀ loaded, ∀ f ∈ sampleApp.Srcs, ∃ r r',
      descriptorFor (sampleApp.BeamFilesRules sampleConsts kernelIgnored none
        busyParser).1 f = some r ∧
      descriptorFor (sampleApp.BeamFilesRules sampleConsts kernelIgnored loaded
        busyParser).1 f = some r' ∧
      r.AttrStrings "beam" = r'.AttrStrings "beam" ∧
      r.AttrStrings "hdrs" = r'.AttrStrings "hdrs")) :=
  ⟨rfl, missing_index_self_only sampleApp sampleConsts kernelIgnored busyParser rfl⟩

/-! ## Artifact names (C21) -/

theorem stem_no_sep (w : Str) : ∀ c ∈ stem w, c ≠ '/' := by
  intro c hc
  unfold stem at hc
  have h := List.mem_takeWhile_imp (List.mem_reverse.mp hc)
  simpa using h

/-- The last element of a path made of a directory, a separator and a name
without separator is the name. -/
theorem stem_dir (d x : Str) (hx : ∀ c ∈ x, c ≠ '/') : stem (d ++ '/' :: x) = x := by
  unfold stem
  have hrev : (d ++ '/' :: x).reverse = x.reverse ++ '/' :: d.reverse := by
    simp
  rw [hrev, List.takeWhile_append_of_pos]
  · simp [List.takeWhile]
  · intro c hc
    simpa using hx c (List.mem_reverse.mp hc)

theorem moduleName_under (d x : Str) (hx : ∀ c ∈ x, c ≠ '/') :
    moduleName (d ++ '/' :: x ++ ".beam".toList) = x := by
  rw [moduleName_beam, stem_dir d x hx]

/-- C21: for every source path `s` ending in `.erl`, `beamFile s` is
`ebin/` followed by the module name and `.beam`, `testBeamFile s` is
`test/` followed by the module name and `.beam`, and the module name of
either artifact, and of `s` with `.erl` replaced by `.beam` (the
test-directory artifact), is the module name of `s`. -/
theorem artifact_names (s : Str) (h : strings.HasSuffix s ".erl".toList = true) :
    beamFile s = "ebin/".toList ++ moduleName s ++ ".beam".toList ∧
    testBeamFile s = "test/".toList ++ moduleName s ++ ".beam".toList ∧
    moduleName (beamFile s) = moduleName s ∧
    moduleName (testBeamFile s) = moduleName s ∧
    moduleName (strings.TrimSuffix s ".erl".toList ++ ".beam".toList) = moduleName s := by
  obtain ⟨w, rfl⟩ := (strings.HasSuffix_iff _ _).mp h
  have he : "ebin/".toList ++ stem w ++ ".beam".toList =
      "ebin".toList ++ '/' :: stem w ++ ".beam".toList := by
    simp
  have ht : "test/".toList ++ stem w ++ ".beam".toList =
      "test".toList ++ '/' :: stem w ++ ".beam".toList := by
    simp
  refine ⟨?_, ?_, ?_, ?_, ?_⟩
  · rw [beamFile_erl, moduleName_erl]
  · rw [testBeamFile_erl, moduleName_erl]
  · rw [beamFile_erl, moduleName_erl, he, moduleName_under _ _ (stem_no_sep w)]
  · rw [testBeamFile_erl, moduleName_erl, ht, moduleName_under _ _ (stem_no_sep w)]
  · rw [strings.TrimSuffix_append, moduleName_beam, moduleName_erl]

/-- Witness of C21 on the source `src/sub/a.erl`. -/
theorem artifact_names_witness :
    strings.HasSuffix "src/sub/a.erl".toList ".erl".toList = true ∧
    moduleName "src/sub/a.erl".toList = "a".toList ∧
    (beamFile "src/sub/a.erl".toList =
      "ebin/".toList ++ moduleName "src/sub/a.erl".toList ++ ".beam".toList ∧
    testBeamFile "src/sub/a.erl".toList =
      "test/".toList ++ moduleName "src/sub/a.erl".toList ++ ".beam".toList ∧
    moduleName (beamFile "src/sub/a.erl".toList) = moduleName "src/sub/a.erl".toList ∧
    moduleName (testBeamFile "src/sub/a.erl".toList) = moduleName "src/sub/a.erl".toList ∧
    moduleName (strings.TrimSuffix "src/sub/a.erl".toList ".erl".toList ++ ".beam".toList) =
      moduleName "src/sub/a.erl".toList) :=
  ⟨by decide, by decide, artifact_names "src/sub/a.erl".toList (by decide)⟩

/-! ## File roles (C22) -/

/-- `AddFile` adds the path to the set of its role and to no other. -/
theorem AddFile_eq_classify (erlangApp : ErlangApp) (f : Str) :
    erlangApp.AddFile f =
      match classify f with
      | some r => addRole erlangApp r f
      | none => erlangApp := by
  unfold ErlangApp.AddFile classify
  split_ifs <;> rfl

theorem roleSet_addRole (erlangApp : ErlangApp) (r r' : Role) (f : Str) :
    roleSet (addRole erlangApp r f) r' =
      if r' = r then (roleSet erlangApp r).Add f else roleSet erlangApp r' := by
  cases r <;> cases r' <;> rfl

theorem classify_convention (x : Str) (r : Role) (h : classify x = some r) :
    roleConvention r x := by
  unfold classify at h
  repeat' split at h
  all_goals first
    | (cases h; exact ⟨by assumption, by assumption⟩)
    | (cases h; unfold roleConvention; assumption)
    | (exact absurd h (by simp))

theorem AddFile_RolesClassified (erlangApp : ErlangApp) (f : Str)
    (h : RolesClassified erlangApp) : RolesClassified (erlangApp.AddFile f) := by
  rw [AddFile_eq_classify]
  cases hc : classify f with
  | none => exact h
  | some r0 =>
    intro r x hx
    simp only at hx
    rw [roleSet_addRole] at hx
    by_cases hr : r = r0
    · subst hr
      rw [if_pos rfl] at hx
      rcases (MutableSet.mem_Add _ _ _).mp hx with hx' | hx'
      · exact h r x hx'
      · rw [hx']; exact hc
    · rw [if_neg hr] at hx
      exact h r x hx

theorem NewErlangApp_RolesClassified (repoRoot rel : Str) :
    RolesClassified (NewErlangApp repoRoot rel) := by
  intro r x hx
  cases r <;> simp [roleSet, NewErlangApp, NewMutableSet] at hx

theorem foldl_AddFile_RolesClassified (repoRoot rel : Str) (files : List Str) :
    RolesClassified (files.foldl ErlangApp.AddFile (NewErlangApp repoRoot rel)) := by
  have key : ∀ (l : List Str) (a : ErlangApp), RolesClassified a →
      RolesClassified (l.foldl ErlangApp.AddFile a) := by
    intro l
    induction l with
    | nil => intro a h; exact h
    | cons f l ih => intro a h; exact ih _ (AddFile_RolesClassified a f h)
  exact key files _ (NewErlangApp_RolesClassified repoRoot rel)

/-- C22: starting from `NewErlangApp`, after any sequence of `AddFile`
calls the nine role sets (`Ebin`, `Srcs`, `PrivateHdrs`, `PublicHdrs`,
`AppSrc`, `TestSrcs`, `TestHdrs`, `Priv`, `LicenseFiles`) are pairwise
disjoint and every member has the prefix and suffix of its role; and
`AddFile f` on any application adds `f` to the set of the role of `f` and
changes nothing else (no set of another role, no other field), or changes
nothing at all when `f` has no role. -/
theorem role_sets_disjoint_and_conventional (repoRoot rel : Str) (files : List Str) :
    (∀ r r' x, x ∈ roleSet (files.foldl ErlangApp.AddFile (NewErlangApp repoRoot rel)) r →
      x ∈ roleSet (files.foldl ErlangApp.AddFile (NewErlangApp repoRoot rel)) r' → r = r') ∧
    (∀ r x, x ∈ roleSet (files.foldl ErlangApp.AddFile (NewErlangApp repoRoot rel)) r →
      roleConvention r x) ∧
    (∀ (a : ErlangApp) (f : Str),
      (a.AddFile f = match classify f with
        | some r => addRole a r f
        | none => a) ∧
      (∀ r, classify f ≠ some r → roleSet (a.AddFile f) r = roleSet a r) ∧
      (a.AddFile f).RepoRoot = a.RepoRoot ∧ (a.AddFile f).Rel = a.Rel ∧
      (a.AddFile f).Name = a.Name ∧ (a.AddFile f).Description = a.Description ∧
      (a.AddFile f).Version = a.Version ∧ (a.AddFile f).ErlcOpts = a.ErlcOpts ∧
      (a.AddFile f).TestErlcOpts = a.TestErlcOpts ∧ (a.AddFile f).Deps = a.Deps ∧
      (a.AddFile f).ExtraApps = a.ExtraApps) := by
  have hc := foldl_AddFile_RolesClassified repoRoot rel files
  refine ⟨?_, ?_, ?_⟩
  · intro r r' x hx hx'
    have h1 := hc r x hx
    have h2 := hc r' x hx'
    rw [h1] at h2
    exact Option.some.inj h2
  · intro r x hx
    exact classify_convention x r (hc r x hx)
  · intro a f
    refine ⟨AddFile_eq_classify a f, ?_, ?_⟩
    · intro r hr
      rw [AddFile_eq_classify]
      cases hf : classify f with
      | none => rfl
      | some r0 =>
        simp only
        rw [roleSet_addRole, if_neg]
        intro e
        exact hr (by rw [hf, e])
    · rw [AddFile_eq_classify]
      cases hf : classify f with
      | none => exact ⟨rfl, rfl, rfl, rfl, rfl, rfl, rfl, rfl, rfl⟩
      | some r0 => cases r0 <;> exact ⟨rfl, rfl, rfl, rfl, rfl, rfl, rfl, rfl, rfl⟩

/-! ## The unit-test descriptor and the order of enumeration (C23) -/

/-- C23 fails on the code for `EunitRule`: its two loops range over `Srcs`
and `TestSrcs` themselves, not over their sorted views as every other
generator does, and `compiled_suites` changes with the order in which the
same members come. With the test-directory modules `x` and `x_tests` the
attribute is the artifact of `x_tests` alone when `x` comes first, and the
artifacts of both when `x_tests` comes first; with a production module `p`
and the test-directory modules `p` and `p_tests` it is the artifact of
`p_tests` in one order and that of `p` in the other. -/
theorem eunit_depends_on_enumeration_order :
    eunitFirstApp.Srcs.Values = eunitSecondApp.Srcs.Values ∧
    eunitFirstApp.TestSrcs.Values = eunitSecondApp.TestSrcs.Values ∧
    (eunitFirstApp.EunitRule sampleConsts).AttrStrings "compiled_suites" =
      [":test_x_tests_beam".toList] ∧
    (eunitSecondApp.EunitRule sampleConsts).AttrStrings "compiled_suites" =
      [":test_x_beam".toList, ":test_x_tests_beam".toList] ∧
    eunitShadowFirstApp.Srcs.Values = eunitShadowSecondApp.Srcs.Values ∧
    eunitShadowFirstApp.TestSrcs.Values = eunitShadowSecondApp.TestSrcs.Values ∧
    (eunitShadowFirstApp.EunitRule sampleConsts).AttrStrings "compiled_suites" =
      [":test_p_tests_beam".toList] ∧
    (eunitShadowSecondApp.EunitRule sampleConsts).AttrStrings "compiled_suites" =
      [":test_p_beam".toList] := by
  decide

/-! ## The suite lookup of `CtSuiteRules` (C24) -/

theorem lookup_foldl_mapPut_untouched {α β : Type} (key : α → Str) (val : α → β) (k : Str) :
    ∀ (l : List α) (m0 : List (Str × β)), (∀ a ∈ l, key a ≠ k) →
      (l.foldl (fun m a => mapPut m (key a) (val a)) m0).lookup k = m0.lookup k := by
  intro l
  induction l with
  | nil => intro m0 _; rfl
  | cons a t ih =>
    intro m0 h
    simp only [List.foldl]
    rw [ih _ (fun b hb => h b (List.mem_cons_of_mem _ hb))]
    exact lookup_mapPut_other _ _ _ _ (fun e => h a (List.mem_cons_self _ _) e.symm)

/-- A key that some member of the list writes holds, after the loop, the
value of a member that writes it. -/
theorem lookup_foldl_mapPut_exists {α β : Type} (key : α → Str) (val : α → β) (k : Str) :
    ∀ (l : List α) (m0 : List (Str × β)), (∃ a ∈ l, key a = k) →
      ∃ a ∈ l, key a = k ∧
        (l.foldl (fun m a => mapPut m (key a) (val a)) m0).lookup k = some (val a) := by
  intro l
  induction l with
  | nil => intro _ h; obtain ⟨a, ha, _⟩ := h; simp at ha
  | cons a t ih =>
    intro m0 h
    simp only [List.foldl]
    by_cases ht : ∃ b ∈ t, key b = k
    · obtain ⟨b, hb, hk, hl⟩ := ih (mapPut m0 (key a) (val a)) ht
      exact ⟨b, List.mem_cons_of_mem _ hb, hk, hl⟩
    · have hno : ∀ b ∈ t, key b ≠ k := fun b hb e => ht ⟨b, hb, e⟩
      obtain ⟨c, hc, hck⟩ := h
      have hca : key a = k := by
        rcases List.mem_cons.mp hc with e | e
        · rw [← e]; exact hck
        · exact absurd hck (hno c e)
      refine ⟨a, List.mem_cons_self _ _, hca, ?_⟩
      rw [lookup_foldl_mapPut_untouched key val k t _ hno, ← hca]
      exact lookup_mapPut_same _ _ _

/-- C24, as stated, fails: in `beamSuiteApp` the test-directory source
`test/a_SUITE.beam` has the module name `a_SUITE`, its descriptor is named
`test_a_SUITE_beam_beam`, the table has no key `a_SUITE` and
`CtSuiteRules` fails. -/
theorem suite_lookup_misses :
    "test/a_SUITE.beam".toList ∈ beamSuiteApp.TestSrcs ∧
    moduleName "test/a_SUITE.beam".toList = "a_SUITE".toList ∧
    strings.HasSuffix (moduleName "test/a_SUITE.beam".toList) "_SUITE".toList = true ∧
    (beamSuiteApp.TestDirBeamFilesRules sampleConsts ⟨[], []⟩ none emptyParser).1.map
      (fun r => r.name) = ["test_a_SUITE_beam_beam".toList] ∧
    (rulesByName
      (beamSuiteApp.TestDirBeamFilesRules sampleConsts ⟨[], []⟩ none emptyParser).1).lookup
        "a_SUITE".toList = none ∧
    beamSuiteApp.CtSuiteRules sampleConsts
      (beamSuiteApp.TestDirBeamFilesRules sampleConsts ⟨[], []⟩ none emptyParser).1 = none := by
  decide

/-- The entry of `rulesByName` under the module name of a suite is the
descriptor of a suite of that module name. -/
theorem rulesByName_suite_exists (k : Consts) (erlangConfig : ErlangConfig)
    (moduleindex : Moduleindex) (erlParser : Str → ErlAttrs) (erlangApp : ErlangApp)
    (hsuf : ∀ x ∈ erlangApp.TestSrcs, strings.HasSuffix x ".erl".toList = true)
    (t : Str) (ht : t ∈ erlangApp.TestSrcs) (hsuite : isSuite t = true) :
    ∃ u ∈ erlangApp.TestSrcs, isSuite u = true ∧ moduleName u = moduleName t ∧
      (rulesByName (erlangApp.TestSrcs.Values.map
        (testDirDescriptor k erlangConfig moduleindex erlParser erlangApp))).lookup
          (moduleName t) =
        some (testDirDescriptor k erlangConfig moduleindex erlParser erlangApp u) := by
  have hkey := (testDirDescriptor_key_suite k erlangConfig moduleindex erlParser erlangApp t
    (hsuf t ht) hsuite).2
  obtain ⟨a, ha, hak, hl⟩ := lookup_foldl_mapPut_exists
    (fun r : Rule => strings.TrimSuffix r.name "_beam_files".toList) (fun r => r)
    (moduleName t)
    (erlangApp.TestSrcs.Values.map
      (testDirDescriptor k erlangConfig moduleindex erlParser erlangApp)) []
    ⟨_, List.mem_map.mpr ⟨t, (MutableSet.mem_Values _ _).mpr ht, rfl⟩, hkey⟩
  obtain ⟨u, hu, rfl⟩ := List.mem_map.mp ha
  have hu' : u ∈ erlangApp.TestSrcs := (MutableSet.mem_Values _ _).mp hu
  have hsu : isSuite u = true := by
    cases h : isSuite u with
    | true => rfl
    | false =>
      exact absurd hak (testDirDescriptor_key_other k erlangConfig moduleindex erlParser
        erlangApp u (hsuf u hu') h (moduleName t) hsuite)
  refine ⟨u, hu', hsu, ?_, hl⟩
  rw [← hak]
  exact ((testDirDescriptor_key_suite k erlangConfig moduleindex erlParser erlangApp u
    (hsuf u hu') hsu).2).symm

/-- C24 (amended): for an application whose role sets were built by
`AddFile`, `CtSuiteRules` given the descriptors of `TestDirBeamFilesRules`
for the same application does not fail; for every test-directory source `t`
whose module name ends in `_SUITE` the table `rulesByName` has an entry under
that module name, the entry is the descriptor of a test-directory source `u`
of the same module name, it carries both private attributes that
`runtimeBeam` and `runtimeDeps` read, and the name of the descriptor of no
source that is not a suite gives that key. -/
theorem suite_lookup_never_misses (erlangApp : ErlangApp) (k : Consts)
    (erlangConfig : ErlangConfig) (loaded : Option Moduleindex) (erlParser : Str → ErlAttrs)
    (hbuilt : BuiltByAddFile erlangApp) :
    (erlangApp.CtSuiteRules k
      (erlangApp.TestDirBeamFilesRules k erlangConfig loaded erlParser).1).isSome = true ∧
    ∀ t ∈ erlangApp.TestSrcs, strings.HasSuffix (moduleName t) "_SUITE".toList = true →
      (∃ u d, u ∈ erlangApp.TestSrcs ∧ moduleName u = moduleName t ∧
        descriptorFor (erlangApp.TestDirBeamFilesRules k erlangConfig loaded erlParser).1 u =
          some d ∧
        (rulesByName
          (erlangApp.TestDirBeamFilesRules k erlangConfig loaded erlParser).1).lookup
            (moduleName t) = some d ∧
        (runtimeBeam d).isSome = true ∧ (runtimeDeps d).isSome = true) ∧
      (∀ u ∈ erlangApp.TestSrcs,
        strings.HasSuffix (moduleName u) "_SUITE".toList = false →
        ∀ d, descriptorFor (erlangApp.TestDirBeamFilesRules k erlangConfig loaded erlParser).1
            u = some d →
          strings.TrimSuffix d.name "_beam_files".toList ≠ moduleName t) := by
  obtain ⟨_, hsuf, _, _, _⟩ := hbuilt.suffixes
  have hfind : ∀ t ∈ erlangApp.TestSrcs, isSuite t = true →
      ∃ u ∈ erlangApp.TestSrcs, isSuite u = true ∧ moduleName u = moduleName t ∧
        (rulesByName (erlangApp.TestSrcs.Values.map
          (testDirDescriptor k erlangConfig (moduleindexOr erlangApp loaded) erlParser
            erlangApp))).lookup (moduleName t) =
          some (testDirDescriptor k erlangConfig (moduleindexOr erlangApp loaded) erlParser
            erlangApp u) :=
    rulesByName_suite_exists k erlangConfig _ erlParser erlangApp hsuf
  refine ⟨?_, ?_⟩
  · have hloop := ctSuiteLoop k
      (rulesByName (erlangApp.TestSrcs.Values.map
        (testDirDescriptor k erlangConfig (moduleindexOr erlangApp loaded) erlParser erlangApp)))
      (fun t =>
        match (rulesByName (erlangApp.TestSrcs.Values.map
          (testDirDescriptor k erlangConfig (moduleindexOr erlangApp loaded) erlParser
            erlangApp))).lookup (moduleName t) with
        | some d =>
          ctTest k (moduleName t) d.name ((runtimeBeam d).getD []) ((runtimeDeps d).getD [])
        | none => ctTest k [] [] [] [])
      erlangApp.TestSrcs.Values [] (by
        intro t ht hs
        obtain ⟨u, _, _, _, hl⟩ := hfind t ((MutableSet.mem_Values _ _).mp ht) hs
        refine ⟨_, _, _, hl, testDirDescriptor_runtimeBeam _ _ _ _ _ _,
          testDirDescriptor_runtimeDeps _ _ _ _ _ _, ?_⟩
        simp only [hl, testDirDescriptor_runtimeBeam, testDirDescriptor_runtimeDeps,
          Option.getD_some])
    unfold ErlangApp.CtSuiteRules
    rw [TestDirBeamFilesRules_rules, hloop]
    rfl
  · intro t ht hs
    refine ⟨?_, ?_⟩
    · obtain ⟨u, hu, _, hm, hl⟩ := hfind t ht hs
      refine ⟨u, _, hu, hm,
        descriptorFor_TestDirBeamFilesRules erlangApp k erlangConfig loaded erlParser u hu,
        ?_, ?_, ?_⟩
      · rw [TestDirBeamFilesRules_rules]
        exact hl
      · rw [testDirDescriptor_runtimeBeam]; rfl
      · rw [testDirDescriptor_runtimeDeps]; rfl
    · intro u hu hns d hd
      rw [descriptorFor_TestDirBeamFilesRules erlangApp k erlangConfig loaded erlParser u hu]
        at hd
      cases hd
      exact testDirDescriptor_key_other k erlangConfig _ erlParser erlangApp u (hsuf u hu)
        hns (moduleName t) hs

/-- Witness of C24 (amended) on `sampleApp`. -/
theorem suite_lookup_never_misses_witness :
    BuiltByAddFile sampleApp ∧
    ((sampleApp.CtSuiteRules sampleConsts
      (sampleApp.TestDirBeamFilesRules sampleConsts ⟨[], []⟩ none
        (callParser "helper".toList)).1).isSome = true ∧
    ∀ t ∈ sampleApp.TestSrcs, strings.HasSuffix (moduleName t) "_SUITE".toList = true →
      (∃ u d, u ∈ sampleApp.TestSrcs ∧ moduleName u = moduleName t ∧
        descriptorFor (sampleApp.TestDirBeamFilesRules sampleConsts ⟨[], []⟩ none
          (callParser "helper".toList)).1 u = some d ∧
        (rulesByName
          (sampleApp.TestDirBeamFilesRules sampleConsts ⟨[], []⟩ none
            (callParser "helper".toList)).1).lookup (moduleName t) = some d ∧
        (runtimeBeam d).isSome = true ∧ (runtimeDeps d).isSome = true) ∧
      (∀ u ∈ sampleApp.TestSrcs,
        strings.HasSuffix (moduleName u) "_SUITE".toList = false →
        ∀ d, descriptorFor (sampleApp.TestDirBeamFilesRules sampleConsts ⟨[], []⟩ none
            (callParser "helper".toList)).1 u = some d →
          strings.TrimSuffix d.name "_beam_files".toList ≠ moduleName t)) :=
  ⟨sampleApp_built,
    suite_lookup_never_misses sampleApp sampleConsts ⟨[], []⟩ none (callParser "helper".toList)
      sampleApp_built⟩

end Erlang
